import Mathlib

/-!
# SideFX Labs VAT importer: verification development

A shallow embedding of the editor-side VAT importer
(`HoudiniVatImporter.cpp`, `HoudiniCreateNewVatWindow.cpp`) and theorems about it.
-/

namespace HoudiniVat

/-! ## VAT variants and the material wiring of `CreateVatMaterial` -/

/-- The enum `EVatType` of `HoudiniCreateNewVatWindowParameters.h`:
VatType1 = Soft, VatType2 = Rigid, VatType3 = Fluid, VatType4 = Sprite. -/
inductive EVatType where
  | VatType1
  | VatType2
  | VatType3
  | VatType4
  deriving DecidableEq, Repr

/-- The material inputs that `CreateVatMaterial` connects:
`BaseColor`, `Normal`, `WorldPositionOffset` and `CustomizedUVs[k]`. -/
inductive MaterialInput where
  | BaseColor
  | Normal
  | WorldPositionOffset
  | CustomizedUVs (k : Nat)
  deriving DecidableEq, Repr

/-- One call `Input.Connect(OutputIndex, VatMaterialExp)`: the material input and the
zero-based output-pin index passed to `Connect`. -/
abbrev Connection := MaterialInput × Nat

/-- One guarded connection of `CreateVatMaterial`:
`if (Outputs.Num() >= need) input.Connect(pin, ...) else log an error`. -/
def connectIf (n need : Nat) (input : MaterialInput) (pin : Nat) : List Connection :=
  if n ≥ need then [(input, pin)] else []

/-- The `switch (VatProperties->VatType)` of `CreateVatMaterial` (lines 381-625), as the list
of `Connect` calls it makes, in program order, when `VatMaterialExp->Outputs.Num()` is `n`.
Guards and pin literals are those of the source, branch by branch. -/
def connectOutputs (t : EVatType) (n : Nat) : List Connection :=
  match t with
  | .VatType1 =>
    if n > 0 then
      [(MaterialInput.BaseColor, 0)]
        ++ connectIf n 4 .Normal 3
        ++ connectIf n 5 .WorldPositionOffset 4
        ++ connectIf n 19 (.CustomizedUVs 2) 19
        ++ connectIf n 20 (.CustomizedUVs 3) 20
        ++ connectIf n 21 (.CustomizedUVs 4) 21
    else []
  | .VatType2 =>
    if n > 0 then
      [(MaterialInput.BaseColor, 0)]
        ++ connectIf n 4 .Normal 3
        ++ connectIf n 5 .WorldPositionOffset 4
        ++ connectIf n 22 (.CustomizedUVs 2) 21
        ++ connectIf n 23 (.CustomizedUVs 3) 22
        ++ connectIf n 24 (.CustomizedUVs 4) 23
    else []
  | .VatType3 =>
    if n > 0 then
      [(MaterialInput.BaseColor, 0)]
        ++ connectIf n 4 .Normal 3
        ++ connectIf n 5 .WorldPositionOffset 4
        ++ connectIf n 20 (.CustomizedUVs 2) 20
        ++ connectIf n 21 (.CustomizedUVs 3) 21
    else []
  | .VatType4 =>
    if n > 0 then
      [(MaterialInput.BaseColor, 0)]
        ++ connectIf n 4 .Normal 3
        ++ connectIf n 5 .WorldPositionOffset 4
        ++ connectIf n 19 (.CustomizedUVs 2) 19
    else []

/-- What the engine hands back to `CreateVatMaterial`: whether `FactoryCreateNew` produced a
material, whether `CreateMaterialExpression` produced a material-function call node, whether
`HoudiniVatMaterialFunction` was loaded, and the node's `Outputs.Num()`. -/
structure MaterialEnv where
  materialCreated : Bool
  expressionCreated : Bool
  functionLoaded : Bool
  numOutputs : Nat
  deriving DecidableEq, Repr

/-- The outcome of `CreateVatMaterial`: the `Connect` calls made and whether the material's
package was handed to `SavePackages`. -/
structure MaterialResult where
  connections : List Connection
  saved : Bool
  deriving DecidableEq, Repr

/-- The function `UHoudiniVatImporter::CreateVatMaterial` from line 330 on (`VatProperties` set):
a null material returns early; a null expression node only logs; a null material function
skips the wiring but the material is still saved. -/
def CreateVatMaterial (env : MaterialEnv) (t : EVatType) : MaterialResult :=
  if !env.materialCreated then
    { connections := [], saved := false }
  else if env.expressionCreated then
    if env.functionLoaded then
      { connections := connectOutputs t env.numOutputs, saved := true }
    else
      { connections := [], saved := true }
  else
    { connections := [], saved := false }

/-- The fixed table of a variant, as listed in the specification:
the (material input, pin index) pairs in order. -/
def wiringTable : EVatType → List Connection
  | .VatType1 =>
    [(.BaseColor, 0), (.Normal, 3), (.WorldPositionOffset, 4),
     (.CustomizedUVs 2, 19), (.CustomizedUVs 3, 20), (.CustomizedUVs 4, 21)]
  | .VatType2 =>
    [(.BaseColor, 0), (.Normal, 3), (.WorldPositionOffset, 4),
     (.CustomizedUVs 2, 21), (.CustomizedUVs 3, 22), (.CustomizedUVs 4, 23)]
  | .VatType3 =>
    [(.BaseColor, 0), (.Normal, 3), (.WorldPositionOffset, 4),
     (.CustomizedUVs 2, 20), (.CustomizedUVs 3, 21)]
  | .VatType4 =>
    [(.BaseColor, 0), (.Normal, 3), (.WorldPositionOffset, 4),
     (.CustomizedUVs 2, 19)]

/-- An environment in which the material, the function-call node and the material function
all exist and the node has `n` outputs. -/
def nodeEnv (n : Nat) : MaterialEnv :=
  { materialCreated := true, expressionCreated := true, functionLoaded := true, numOutputs := n }

/-- One `Connect` call together with the output index that the `UE_LOG` message following it
names ("Connected ... to output index k"). -/
structure LoggedConnection where
  input : MaterialInput
  pin : Nat
  logged : Nat
  deriving DecidableEq, Repr

/-- One guarded connection with its success message:
`if (Outputs.Num() >= need) { input.Connect(pin, ...); UE_LOG("... output index logged ...") }`. -/
def connectLogIf (n need : Nat) (input : MaterialInput) (pin logged : Nat) :
    List LoggedConnection :=
  if n ≥ need then [⟨input, pin, logged⟩] else []

/-- The `switch` of `CreateVatMaterial` (lines 381-625) once more, now with the index that each
success message names next to the literal passed to `Connect`. -/
def connectOutputsLogged (t : EVatType) (n : Nat) : List LoggedConnection :=
  match t with
  | .VatType1 =>
    if n > 0 then
      [(⟨.BaseColor, 0, 0⟩ : LoggedConnection)]
        ++ connectLogIf n 4 .Normal 3 3
        ++ connectLogIf n 5 .WorldPositionOffset 4 4
        ++ connectLogIf n 19 (.CustomizedUVs 2) 19 20
        ++ connectLogIf n 20 (.CustomizedUVs 3) 20 21
        ++ connectLogIf n 21 (.CustomizedUVs 4) 21 22
    else []
  | .VatType2 =>
    if n > 0 then
      [(⟨.BaseColor, 0, 0⟩ : LoggedConnection)]
        ++ connectLogIf n 4 .Normal 3 3
        ++ connectLogIf n 5 .WorldPositionOffset 4 4
        ++ connectLogIf n 22 (.CustomizedUVs 2) 21 21
        ++ connectLogIf n 23 (.CustomizedUVs 3) 22 22
        ++ connectLogIf n 24 (.CustomizedUVs 4) 23 23
    else []
  | .VatType3 =>
    if n > 0 then
      [(⟨.BaseColor, 0, 0⟩ : LoggedConnection)]
        ++ connectLogIf n 4 .Normal 3 3
        ++ connectLogIf n 5 .WorldPositionOffset 4 4
        ++ connectLogIf n 20 (.CustomizedUVs 2) 20 20
        ++ connectLogIf n 21 (.CustomizedUVs 3) 21 21
    else []
  | .VatType4 =>
    if n > 0 then
      [(⟨.BaseColor, 0, 0⟩ : LoggedConnection)]
        ++ connectLogIf n 4 .Normal 3 3
        ++ connectLogIf n 5 .WorldPositionOffset 4 4
        ++ connectLogIf n 19 (.CustomizedUVs 2) 19 20
    else []

/-- The four variants, in the order of the enum. -/
def allVatTypes : List EVatType := [.VatType1, .VatType2, .VatType3, .VatType4]

/-- The first three connections named in the specification:
`BaseColor <- 0`, `Normal <- 3`, `WorldPositionOffset <- 4`. -/
def sharedConnections : List Connection :=
  [(.BaseColor, 0), (.Normal, 3), (.WorldPositionOffset, 4)]

/-! ## Engine strings (`FString`), as lists of characters

The engine's string class is not part of the plugin; its operations are embedded here with the
behaviour the plugin relies on. `FString::Find`, `FString::Contains` and `FString::operator==`
compare letters without regard to case unless `ESearchCase::CaseSensitive` is passed: the
search-case argument defaults to `ESearchCase::IgnoreCase` (the source passes it explicitly at
line 728 only to reach the start-position argument). -/

/-- The engine's `ESearchCase::Type`. -/
inductive ESearchCase where
  | CaseSensitive
  | IgnoreCase
  deriving DecidableEq, Repr

/-- Lower-casing of a character code as the engine's case-insensitive comparison does it:
only the letters `A`..`Z` (65..90) change. -/
def lowerCode (n : Nat) : Nat := if 65 ≤ n ∧ n ≤ 90 then n + 32 else n

/-- Equality of two characters under a search case. -/
def charEq (sc : ESearchCase) (a b : Char) : Bool :=
  match sc with
  | .CaseSensitive => a.toNat == b.toNat
  | .IgnoreCase => lowerCode a.toNat == lowerCode b.toNat

/-- Whether `s` begins with `sub` under the search case. -/
def startsWithCase (sc : ESearchCase) : List Char → List Char → Bool
  | _, [] => true
  | [], _ :: _ => false
  | a :: s, b :: sub => charEq sc a b && startsWithCase sc s sub

/-- Left-to-right search for `sub` in `s`; `off` is the index of the head of `s` in the whole
string. The first match wins. -/
def findFrom (sc : ESearchCase) (sub : List Char) : List Char → Nat → Option Nat
  | [], off => if sub.isEmpty then some off else none
  | a :: s, off =>
    if startsWithCase sc (a :: s) sub then some off else findFrom sc sub s (off + 1)

/-- The engine's `FString::Find(SubStr, SearchCase, ESearchDir::FromStart, StartPosition)`:
index of the first occurrence at or after the start position, `none` for `INDEX_NONE`.
A given start position is clamped to `[0, Len() - 1]`. -/
def Find (s sub : List Char) (sc : ESearchCase) (startPosition : Option Nat) : Option Nat :=
  let start := match startPosition with
    | none => 0
    | some p => min p (s.length - 1)
  findFrom sc sub (s.drop start) start

/-- The engine's `FString::Contains(SubStr, SearchCase)`. -/
def Contains (s sub : List Char) (sc : ESearchCase) : Bool :=
  (Find s sub sc none).isSome

/-- The engine's `FString::Mid(Start, Count)`. -/
def Mid (s : List Char) (start count : Nat) : List Char := (s.drop start).take count

/-- The engine's `FChar::IsWhitespace`, on the ASCII range: space and the controls 9..13. -/
def IsWhitespace (c : Char) : Bool :=
  c.toNat == 32 || (9 ≤ c.toNat && c.toNat ≤ 13)

/-- The engine's `FString::TrimStart`. -/
def TrimStart (s : List Char) : List Char := s.dropWhile IsWhitespace

/-- The engine's `FString::TrimEnd`. -/
def TrimEnd (s : List Char) : List Char := (s.reverse.dropWhile IsWhitespace).reverse

/-- The engine's `FString::TrimStartAndEnd`. -/
def TrimStartAndEnd (s : List Char) : List Char := TrimEnd (TrimStart s)

/-! ## `FCString::Atof`

The C conversion the engine forwards to: leading white space is skipped, then the longest
prefix of the form `[+-] digits [. digits] [(e|E) [+-] digits]` is converted, and the result is
zero when there is no such prefix. The value is the exact rational the decimal text denotes;
rounding to a single-precision `float` and the `inf`/`nan`/hexadecimal forms are not modelled. -/

/-- Decimal digit test on character codes. -/
def isDigit (c : Char) : Bool := 48 ≤ c.toNat && c.toNat ≤ 57

/-- Value of a run of decimal digits. -/
def digitsVal (ds : List Char) : Nat := ds.foldl (fun acc c => 10 * acc + (c.toNat - 48)) 0

/-- The digits of an exponent, after `e`/`E`: optional sign (`-` 45, `+` 43), then digits. -/
def exponentDigits (s : List Char) : ℤ :=
  match s with
  | [] => 0
  | c :: r =>
    if c.toNat = 45 then - (digitsVal (r.takeWhile isDigit) : ℤ)
    else if c.toNat = 43 then (digitsVal (r.takeWhile isDigit) : ℤ)
    else (digitsVal ((c :: r).takeWhile isDigit) : ℤ)

/-- The optional exponent part, introduced by `e` (101) or `E` (69). -/
def exponentPart (s : List Char) : ℤ :=
  match s with
  | [] => 0
  | c :: r => if c.toNat = 101 ∨ c.toNat = 69 then exponentDigits r else 0

/-- The optional fraction (after `.`, 46) and the exponent that follows it. -/
def fractionPart (s : List Char) : List Char × ℤ :=
  match s with
  | [] => ([], 0)
  | c :: r =>
    if c.toNat = 46 then (r.takeWhile isDigit, exponentPart (r.dropWhile isDigit))
    else ([], exponentPart (c :: r))

/-- Value of an unsigned decimal prefix; zero when there is neither an integer nor a fraction
digit. -/
def unsignedValue (s : List Char) : ℚ :=
  let ip := s.takeWhile isDigit
  let fe := fractionPart (s.dropWhile isDigit)
  if ip.isEmpty && fe.1.isEmpty then 0
  else ((digitsVal ip : ℚ) + (digitsVal fe.1 : ℚ) / 10 ^ fe.1.length) * 10 ^ fe.2

/-- Optional sign, then the unsigned value. -/
def signedValue (s : List Char) : ℚ :=
  match s with
  | [] => 0
  | c :: r =>
    if c.toNat = 45 then - unsignedValue r
    else if c.toNat = 43 then unsignedValue r
    else unsignedValue (c :: r)

/-- The conversion `FCString::Atof`. -/
def Atof (s : List Char) : ℚ := signedValue (s.dropWhile IsWhitespace)

/-- A character that can be no part of a decimal number: neither a digit, a sign, a point nor
an exponent letter. -/
def stopChar (c : Char) : Prop :=
  isDigit c = false ∧ c.toNat ≠ 43 ∧ c.toNat ≠ 45 ∧ c.toNat ≠ 46 ∧ c.toNat ≠ 69 ∧ c.toNat ≠ 101

/-- Whether a text begins with a number as the conversion reads it: after one optional sign,
a digit, or a point followed by a digit, or the letters `inf` or `nan` in any letter case
(the C conversion reads `inf`, `infinity` and `nan` so, whatever follows them). -/
def startsNumeric (s : List Char) : Bool :=
  let u := match s with
    | [] => []
    | c :: r => if c.toNat = 45 ∨ c.toNat = 43 then r else c :: r
  match u with
  | [] => false
  | d :: r =>
    isDigit d
      || (d.toNat == 46 && (match r with
          | [] => false
          | e :: _ => isDigit e))
      || startsWithCase .IgnoreCase (d :: r) "inf".toList
      || startsWithCase .IgnoreCase (d :: r) "nan".toList

/-- Whether a whole text is one decimal number: `[+-] digits [. digits] [(e|E) [+-] digits]`
with at least one digit before the exponent and, if there is an exponent, at least one digit
in it, and nothing else. -/
def isDecimalNumber (s : List Char) : Bool :=
  let u := match s with
    | [] => []
    | c :: r => if c.toNat = 45 ∨ c.toNat = 43 then r else c :: r
  let ip := u.takeWhile isDigit
  let r1 := u.dropWhile isDigit
  let fp := match r1 with
    | [] => []
    | c :: r => if c.toNat = 46 then r.takeWhile isDigit else []
  let r2 := match r1 with
    | [] => []
    | c :: r => if c.toNat = 46 then r.dropWhile isDigit else c :: r
  (!ip.isEmpty || !fp.isEmpty) &&
    (match r2 with
      | [] => true
      | e :: r3 =>
        (e.toNat == 101 || e.toNat == 69) &&
          (let ds := match r3 with
              | [] => []
              | c :: r => if c.toNat = 45 ∨ c.toNat = 43 then r else c :: r
           !ds.isEmpty && ds.all isDigit))

/-- A text with letter case folded away: the character codes, `A`..`Z` mapped to `a`..`z`. -/
def foldCase (s : List Char) : List Nat := s.map (fun c => lowerCode c.toNat)

/-! ## The legacy-bounds scan of `CreateVatMaterialInstance` (lines 704-757) -/

/-- The six local floats `BoundMaxX` .. `BoundMinZ`, all initialised to `0.0f`. -/
structure LegacyBounds where
  BoundMaxX : ℚ
  BoundMaxY : ℚ
  BoundMaxZ : ℚ
  BoundMinX : ℚ
  BoundMinY : ℚ
  BoundMinZ : ℚ
  deriving DecidableEq, Repr

/-- Which of the six locals a key's `float*` points to. -/
inductive BoundField where
  | MaxX
  | MaxY
  | MaxZ
  | MinX
  | MinY
  | MinZ
  deriving DecidableEq, Repr

/-- Reading through the pointer of a key. -/
def LegacyBounds.get (b : LegacyBounds) : BoundField → ℚ
  | .MaxX => b.BoundMaxX
  | .MaxY => b.BoundMaxY
  | .MaxZ => b.BoundMaxZ
  | .MinX => b.BoundMinX
  | .MinY => b.BoundMinY
  | .MinZ => b.BoundMinZ

/-- Writing through the pointer of a key (`*ValuePtr = ...`). -/
def LegacyBounds.set (b : LegacyBounds) (f : BoundField) (v : ℚ) : LegacyBounds :=
  match f with
  | .MaxX => { b with BoundMaxX := v }
  | .MaxY => { b with BoundMaxY := v }
  | .MaxZ => { b with BoundMaxZ := v }
  | .MinX => { b with BoundMinX := v }
  | .MinY => { b with BoundMinY := v }
  | .MinZ => { b with BoundMinZ := v }

/-- The six locals before the loop. -/
def LegacyBounds.zero : LegacyBounds := ⟨0, 0, 0, 0, 0, 0⟩

/-- The label text of a key, e.g. `"Bound Max X": ` with its quotes, colon and blank. -/
def keyLabel : BoundField → List Char
  | .MaxX => "\"Bound Max X\": ".toList
  | .MaxY => "\"Bound Max Y\": ".toList
  | .MaxZ => "\"Bound Max Z\": ".toList
  | .MinX => "\"Bound Min X\": ".toList
  | .MinY => "\"Bound Min Y\": ".toList
  | .MinZ => "\"Bound Min Z\": ".toList

/-- The array `Keys` of (label, pointer) pairs, in source order. -/
def Keys : List (List Char × BoundField) :=
  [(keyLabel .MaxX, .MaxX), (keyLabel .MaxY, .MaxY), (keyLabel .MaxZ, .MaxZ),
   (keyLabel .MinX, .MinX), (keyLabel .MinY, .MinY), (keyLabel .MinZ, .MinZ)]

/-- The body of the loop for one key (lines 725-748): the value stored through `ValuePtr`,
or `none` when nothing is stored (label not found, or no end of value found). -/
def scanKey (JsonString Key : List Char) : Option ℚ :=
  match Find JsonString Key .IgnoreCase none with
  | some KeyIndex =>
    let ValueStartIndex := KeyIndex + Key.length
    let ValueEndIndex :=
      match Find JsonString [','] .IgnoreCase (some ValueStartIndex) with
      | some i => some i
      | none => Find JsonString ['}'] .IgnoreCase (some ValueStartIndex)
    match ValueEndIndex with
    | some e =>
      some (Atof (TrimStartAndEnd (Mid JsonString ValueStartIndex (e - ValueStartIndex))))
    | none => none
  | none => none

/-- The loop over `Keys` (lines 713-749), started from the six zeros. -/
def scanLegacyBounds (JsonString : List Char) : LegacyBounds :=
  Keys.foldl
    (fun b kp =>
      match scanKey JsonString kp.1 with
      | some v => b.set kp.2 v
      | none => b)
    LegacyBounds.zero

/-- A character that ends a value in the specification's wording: a comma or a closing
brace. -/
def isValueEnd (c : Char) : Bool := c == ',' || c == '}'

/-- The value text of the specification for a label that starts at index `i`: the text from
the end of the label up to the next comma or closing brace, whichever comes first. -/
def valueText (JsonString : List Char) (i : Nat) (Key : List Char) : List Char :=
  (JsonString.drop (i + Key.length)).takeWhile (fun c => !isValueEnd c)

/-- The example text of the specification:
`{"Bound Max X": 12.5, "Bound Min Y": -3.0}`. -/
def exampleBoundsText : List Char :=
  "\x7b\"Bound Max X\": 12.5, \"Bound Min Y\": -3.0\x7d".toList

/-- A text in which the label of `BoundMaxX` first appears in lower case:
`{"bound max x": 1.0, "Bound Max X": 2.0}`. -/
def caseVariantBoundsText : List Char :=
  "\x7b\"bound max x\": 1.0, \"Bound Max X\": 2.0\x7d".toList

/-- A text in which the label of `BoundMaxX` appears in lower case only:
`{"bound max x": 7.0}`. -/
def lowerCaseBoundsText : List Char :=
  "\x7b\"bound max x\": 7.0\x7d".toList

/-- A text whose value for `BoundMaxX` is malformed: `{"Bound Max X": 12abc}`. -/
def malformedBoundsText : List Char :=
  "\x7b\"Bound Max X\": 12abc\x7d".toList

/-! ## Texture roles in `CreateVatMaterialInstance` (lines 764-797) -/

/-- The four texture parameters of the material instance: `"Position Texture"`,
`"Rotation Texture"`, `"Color Texture"` and `"Lookup Table"`. -/
inductive TextureParameter where
  | PositionTexture
  | RotationTexture
  | ColorTexture
  | LookupTable
  deriving DecidableEq, Repr

/-- The body of the loop over `VatTextureFilePath` for one texture: the calls
`SetTextureParameterValueEditorOnly(parameter, ImportedTexture)` it makes, given the base file
name and whether `LoadObject<UTexture2D>` returned the texture. `Contains` is called without a
search case, hence with `ESearchCase::IgnoreCase`. -/
def assignTextureRole (TextureName : List Char) (loaded : Bool) :
    List (TextureParameter × List Char) :=
  if loaded then
    if Contains TextureName "pos".toList .IgnoreCase then
      [(.PositionTexture, TextureName)]
    else if Contains TextureName "rot".toList .IgnoreCase then
      [(.RotationTexture, TextureName)]
    else if Contains TextureName "col".toList .IgnoreCase then
      [(.ColorTexture, TextureName)]
    else if Contains TextureName "lookup".toList .IgnoreCase then
      [(.LookupTable, TextureName)]
    else []
  else []

/-! ## Paths (`FPaths`) and `SetTextureParameters` (lines 262-306) -/

/-- Path separators: `/` (47) and `\` (92). -/
def isSlash (c : Char) : Bool := c.toNat == 47 || c.toNat == 92

/-- The dot (46) that introduces an extension. -/
def isDot (c : Char) : Bool := c.toNat == 46

/-- The engine's `FPaths::GetCleanFilename`, for the path of a file: the text after the last
separator (separators at the very end of the path are dropped first). -/
def GetCleanFilename (InPath : List Char) : List Char :=
  ((InPath.reverse.dropWhile isSlash).takeWhile (fun c => !isSlash c)).reverse

/-- The engine's `FPaths::GetExtension` (without the dot): the text after the last dot of the
clean file name, empty when there is no dot. -/
def GetExtension (InPath : List Char) : List Char :=
  let Filename := GetCleanFilename InPath
  if Filename.any isDot then (Filename.reverse.takeWhile (fun c => !isDot c)).reverse else []

/-- The engine's `FPaths::GetBaseFilename`: the clean file name without its last extension. -/
def GetBaseFilename (InPath : List Char) : List Char :=
  let Filename := GetCleanFilename InPath
  if Filename.any isDot then (Filename.reverse.dropWhile (fun c => !isDot c)).tail.reverse
  else Filename

/-- The engine's `FString::ToLower`. -/
def ToLower (s : List Char) : List Char := s.map Char.toLower

/-- The engine's `FString::operator==`, which compares without regard to letter case. -/
def equalsIgnoreCase (a b : List Char) : Bool :=
  a.length == b.length && startsWithCase .IgnoreCase a b

/-- Values of `UTexture::Filter` (`TF_Nearest` is the one the importer writes). -/
inductive TextureFilter where
  | TF_Nearest
  | TF_Bilinear
  | TF_Trilinear
  | TF_Default
  deriving DecidableEq, Repr

/-- Values of `UTexture::LODGroup`: the two the importer writes, any other by its number. -/
inductive TextureGroup where
  | TEXTUREGROUP_16BitData
  | TEXTUREGROUP_8BitData
  | Other (code : Nat)
  deriving DecidableEq, Repr

/-- Values of `UTexture::MipGenSettings`: the one the importer writes, any other by number. -/
inductive TextureMipGenSettings where
  | TMGS_NoMipmaps
  | Other (code : Nat)
  deriving DecidableEq, Repr

/-- Values of `UTexture::CompressionSettings`: the two the importer writes, any other by
number. -/
inductive TextureCompressionSettings where
  | TC_HDR
  | TC_VectorDisplacementmap
  | Other (code : Nat)
  deriving DecidableEq, Repr

/-- The five texture properties that `SetTextureParameters` may write. -/
structure TextureSettings where
  Filter : TextureFilter
  LODGroup : TextureGroup
  MipGenSettings : TextureMipGenSettings
  CompressionSettings : TextureCompressionSettings
  SRGB : Bool
  deriving DecidableEq, Repr

/-- A `UTexture2D` as far as the importer reads and writes it: its name, the five properties,
and `AssetImportData` (`none` for a null pointer) as the list of
`SourceData.SourceFiles[i].RelativeFilename`. -/
structure Texture2D where
  Name : List Char
  settings : TextureSettings
  AssetImportData : Option (List (List Char))
  deriving DecidableEq, Repr

/-- The body of the loop of `SetTextureParameters` for one array element (`none` is a null
texture pointer). -/
def setTextureParameters1 (Texture : Option Texture2D) : Option Texture2D :=
  match Texture with
  | none => none
  | some Texture2D =>
    match Texture2D.AssetImportData with
    | none => some Texture2D
    | some SourceFiles =>
      match SourceFiles with
      | [] => some Texture2D
      | SourceFilePath :: _ =>
        let Extension := ToLower (GetExtension SourceFilePath)
        if equalsIgnoreCase Extension "exr".toList then
          some { Texture2D with settings :=
            { Filter := .TF_Nearest, LODGroup := .TEXTUREGROUP_16BitData,
              MipGenSettings := .TMGS_NoMipmaps, CompressionSettings := .TC_HDR,
              SRGB := false } }
        else if equalsIgnoreCase Extension "png".toList then
          some { Texture2D with settings :=
            { Filter := .TF_Nearest, LODGroup := .TEXTUREGROUP_8BitData,
              MipGenSettings := .TMGS_NoMipmaps,
              CompressionSettings := .TC_VectorDisplacementmap, SRGB := false } }
        else some Texture2D

/-- The high-dynamic-range profile as the specification lists it: nearest filter,
16-bit-data group, no mipmaps, HDR compression, sRGB off. -/
def highDynamicRangeProfile : TextureSettings :=
  { Filter := .TF_Nearest, LODGroup := .TEXTUREGROUP_16BitData,
    MipGenSettings := .TMGS_NoMipmaps, CompressionSettings := .TC_HDR, SRGB := false }

/-- The low-dynamic-range profile as the specification lists it: nearest filter,
8-bit-data group, no mipmaps, vector-displacement compression, sRGB off. -/
def lowDynamicRangeProfile : TextureSettings :=
  { Filter := .TF_Nearest, LODGroup := .TEXTUREGROUP_8BitData,
    MipGenSettings := .TMGS_NoMipmaps, CompressionSettings := .TC_VectorDisplacementmap,
    SRGB := false }

/-- Settings of a freshly imported texture, before `SetTextureParameters`: none of them is a
value that the importer writes. -/
def importedSettings : TextureSettings :=
  { Filter := .TF_Default, LODGroup := .Other 0, MipGenSettings := .Other 0,
    CompressionSettings := .Other 0, SRGB := true }

/-- The function `UHoudiniVatImporter::SetTextureParameters`: the textures after the loop. -/
def SetTextureParameters (Textures : List (Option Texture2D)) : List (Option Texture2D) :=
  Textures.map setTextureParameters1

/-! ## `ImportFiles` and the click handler of "Create New VAT" -/

/-- The fields of `UCreateNewVatProperties` that the import run reads. Paths are taken as
already made absolute. -/
structure VatProperties where
  VatFbxFilePath : List Char
  VatTextureFilePath : List (List Char)
  VatAssetPath : List Char
  bCreateVatBlueprint : Bool
  VatMaterialName : List Char
  VatType : EVatType
  deriving DecidableEq, Repr

/-- What the engine answers during `ImportFiles`: whether the FBX options dialog
(`ConfigureProperties`) was accepted, the value of `bCanceled` when `ImportObject` returns,
whether the imported static mesh loads, and the texture that loads for a base file name
(`none` when `LoadObject<UTexture2D>` returns null). -/
structure ImportEnv where
  fbxOptionsAccepted : Bool
  fbxImportCanceled : Bool
  staticMeshLoaded : Bool
  loadTexture : List Char → Option Texture2D

/-- The engine calls and stage calls of one click, in program order. -/
inductive Action where
  | ConfigureFbxProperties
  | ImportFbxObject (FBXPath : List Char)
  | LoadStaticMesh (Name : List Char)
  | SetFullPrecisionUVs
  | ImportTexture (TexturePath : List Char)
  | LoadTexture (Name : List Char)
  | SetTextureParameters (Textures : List (Option Texture2D))
  | SavePackages (staticMesh : List Char) (Textures : List Texture2D)
  | CreateVatMaterial
  | CreateVatMaterialInstance
  | CreateVatBlueprint
  | RequestDestroyWindow
  deriving DecidableEq, Repr

/-- The function `UHoudiniVatImporter::ImportFbx`: the new value of `bCanceled` and the calls
made. A declined dialog sets the flag and returns before `ImportObject`. -/
def ImportFbx (env : ImportEnv) (FBXPath : List Char) : Bool × List Action :=
  if !env.fbxOptionsAccepted then
    (true, [.ConfigureFbxProperties])
  else
    (env.fbxImportCanceled, [.ConfigureFbxProperties, .ImportFbxObject FBXPath])

/-- The texture loop of `ImportFiles` (lines 146-158): for each path, `ImportTexture` then
`LoadObject`; a loaded texture is added to `ImportedTextures`, a failed one is only logged. -/
def importTextures (env : ImportEnv) :
    List (List Char) → List Texture2D × List Action
  | [] => ([], [])
  | TextureFilePath :: rest =>
    let r := importTextures env rest
    let Name := GetBaseFilename TextureFilePath
    match env.loadTexture Name with
    | some ImportedTexture =>
      (ImportedTexture :: r.1, Action.ImportTexture TextureFilePath :: .LoadTexture Name :: r.2)
    | none =>
      (r.1, Action.ImportTexture TextureFilePath :: .LoadTexture Name :: r.2)

/-- The function `UHoudiniVatImporter::ImportFiles` (with `VatProperties` set): the value of
`bCanceled` afterwards and the calls made. -/
def ImportFiles (env : ImportEnv) (props : VatProperties) : Bool × List Action :=
  let fbx := ImportFbx env props.VatFbxFilePath
  if fbx.1 then
    (fbx.1, fbx.2)
  else
    let meshName := GetBaseFilename props.VatFbxFilePath
    if !env.staticMeshLoaded then
      (fbx.1, fbx.2 ++ [.LoadStaticMesh meshName])
    else
      let build : List Action :=
        if props.VatType = .VatType3 then [.SetFullPrecisionUVs] else []
      let tex := importTextures env props.VatTextureFilePath
      (fbx.1,
        fbx.2 ++ [.LoadStaticMesh meshName] ++ build ++ tex.2
          ++ [.SetTextureParameters (tex.1.map some), .SavePackages meshName tex.1])

/-- The `OnClicked` lambda of `FHoudiniCreateNewVatWindow::CreateVatButton` (lines 92-115):
`ImportFiles`, then, unless `bCanceled`, the three later stages; the window is closed when
`WindowPtr` is valid. Each later stage appears as one action, the call of its function. -/
def OnClicked (env : ImportEnv) (props : VatProperties) (windowValid : Bool) : List Action :=
  let imp := ImportFiles env props
  let close : List Action := if windowValid then [.RequestDestroyWindow] else []
  if imp.1 then
    imp.2 ++ close
  else
    imp.2 ++ [.CreateVatMaterial, .CreateVatMaterialInstance]
      ++ (if props.bCreateVatBlueprint then [.CreateVatBlueprint] else [])
      ++ close

/-- The work of a run after the mesh import: texture import, the three creation stages, and
saving packages. -/
def Action.isImportOrCreation : Action → Bool
  | .ImportTexture _ => true
  | .SavePackages _ _ => true
  | .CreateVatMaterial => true
  | .CreateVatMaterialInstance => true
  | .CreateVatBlueprint => true
  | _ => false

/-- The paths handed to `ImportTexture` during a run, in order. -/
def importedTexturePaths (actions : List Action) : List (List Char) :=
  actions.filterMap (fun a =>
    match a with
    | .ImportTexture TexturePath => some TexturePath
    | _ => none)

/-- The arrays handed to `SetTextureParameters` during a run, in order. -/
def classifiedTextures (actions : List Action) : List (List (Option Texture2D)) :=
  actions.filterMap (fun a =>
    match a with
    | .SetTextureParameters Textures => some Textures
    | _ => none)

/-- The texture lists handed to `SavePackages` during a run, in order. -/
def savedTextures (actions : List Action) : List (List Texture2D) :=
  actions.filterMap (fun a =>
    match a with
    | .SavePackages _ Textures => some Textures
    | _ => none)

/-! ## Asset names (`CreateVatMaterial` lines 317-328, lines 679 and 837) -/

/-- The engine's `FString::StartsWith(Prefix)`, whose search case defaults to
`ESearchCase::IgnoreCase`. -/
def StartsWith (s InPrefix : List Char) (sc : ESearchCase) : Bool :=
  startsWithCase sc s InPrefix

/-- The loop of the engine's `FString::Replace(From, To, SearchCase)`: every occurrence of
`From`, found left to right without overlap, is replaced by `To`. `skip` counts the characters
of the current occurrence still to be passed over. -/
def replaceLoop (sc : ESearchCase) (From To : List Char) : List Char → Nat → List Char
  | [], _ => []
  | _ :: s, skip + 1 => replaceLoop sc From To s skip
  | c :: s, 0 =>
    if startsWithCase sc (c :: s) From then To ++ replaceLoop sc From To s (From.length - 1)
    else c :: replaceLoop sc From To s 0

/-- The engine's `FString::Replace(From, To, SearchCase)`; the string is returned unchanged for
an empty `From`. The search case defaults to `ESearchCase::IgnoreCase`. -/
def Replace (s From To : List Char) (sc : ESearchCase) : List Char :=
  if From.isEmpty then s else replaceLoop sc From To s 0

/-- The name under which `CreateVatMaterial` creates the material (lines 317-328), stored in
`CreatedMaterialName`. -/
def createdMaterialName (VatMaterialName : List Char) : List Char :=
  if VatMaterialName.isEmpty then "M_HoudiniVAT".toList
  else if !StartsWith VatMaterialName "M_".toList .IgnoreCase then
    "M_".toList ++ VatMaterialName
  else VatMaterialName

/-- The name of the material instance (line 679):
`CreatedMaterialName.Replace(TEXT("M_"), TEXT("MI_"))`. -/
def materialInstanceName (CreatedMaterialName : List Char) : List Char :=
  Replace CreatedMaterialName "M_".toList "MI_".toList .IgnoreCase

/-- The name of the blueprint (line 837):
`CreatedMaterialName.Replace(TEXT("M_"), TEXT("BP_"))`. -/
def blueprintName (CreatedMaterialName : List Char) : List Char :=
  Replace CreatedMaterialName "M_".toList "BP_".toList .IgnoreCase

/-! ## The three creation stages of a run, as effects on assets -/

/-- The kinds of asset the later stages create. -/
inductive AssetKind where
  | Material
  | MaterialInstance
  | Blueprint
  deriving DecidableEq, Repr

/-- What a stage does to packages and assets, in program order. `NullDereference` is a member
call through a null pointer, after which nothing of the run is executed. -/
inductive AssetEffect where
  | CreatePackage (Name : List Char)
  | Create (kind : AssetKind) (Name : List Char)
  | Modify (kind : AssetKind) (Name : List Char)
  | Save (kind : AssetKind) (Name : List Char)
  | NullDereference
  deriving DecidableEq, Repr

/-- What the engine answers during the three creation stages: the outcome of the calls in
`CreateVatMaterial`, whether `LoadObject<UMaterial>` finds a material at the package path of
the created material, whether the material-instance factory and the blueprint factory return
an object, and whether the blueprint has a generated class. -/
structure StageEnv where
  material : MaterialEnv
  createdMaterialLoaded : Bool
  materialInstanceCreated : Bool
  blueprintCreated : Bool
  blueprintHasGeneratedClass : Bool
  deriving DecidableEq, Repr

/-- The effects of `CreateVatMaterial` (lines 317-657) under the name it stores in
`CreatedMaterialName`: the package is created first; a null material returns; the material is
written, and saved when the function-call node exists. -/
def materialStage (env : StageEnv) (Name : List Char) : List AssetEffect :=
  [.CreatePackage Name] ++
    (if !env.material.materialCreated then []
     else
      [.Create .Material Name, .Modify .Material Name] ++
        (if env.material.expressionCreated then [.Save .Material Name] else []))

/-- The effects of `CreateVatMaterialInstance` (lines 659-819): return on an empty
`CreatedMaterialName`; return when the created material does not load; otherwise the package
and the instance are created, `MarkPackageDirty` is called through `MaterialInstance` before
the null check of line 687, the parameters are written and the package is saved. -/
def materialInstanceStage (env : StageEnv) (CreatedMaterialName : List Char) :
    List AssetEffect :=
  if CreatedMaterialName.isEmpty then []
  else if !env.createdMaterialLoaded then []
  else
    [.CreatePackage (materialInstanceName CreatedMaterialName)] ++
      (if !env.materialInstanceCreated then [.NullDereference]
       else
        [.Create .MaterialInstance (materialInstanceName CreatedMaterialName),
         .Modify .MaterialInstance (materialInstanceName CreatedMaterialName),
         .Save .MaterialInstance (materialInstanceName CreatedMaterialName)])

/-- The effects of `CreateVatBlueprint` (lines 821-895): the same two early returns; otherwise
the package and the blueprint are created, `MarkPackageDirty` is called through `Blueprint`
before the null check of line 849, and with a generated class the default actor is written and
the package saved. -/
def blueprintStage (env : StageEnv) (CreatedMaterialName : List Char) : List AssetEffect :=
  if CreatedMaterialName.isEmpty then []
  else if !env.createdMaterialLoaded then []
  else
    [.CreatePackage (blueprintName CreatedMaterialName)] ++
      (if !env.blueprintCreated then [.NullDereference]
       else
        [.Create .Blueprint (blueprintName CreatedMaterialName),
         .Modify .Blueprint (blueprintName CreatedMaterialName)] ++
          (if env.blueprintHasGeneratedClass then
            [.Save .Blueprint (blueprintName CreatedMaterialName)] else []))

/-- Sequencing of two stages: the second runs unless the first ended in a null dereference. -/
def thenStage (first second : List AssetEffect) : List AssetEffect :=
  if AssetEffect.NullDereference ∈ first then first else first ++ second

/-- The stages that the click handler calls after `CreateVatMaterial` (lines 105-109), run one
after the other on the name stored by `CreateVatMaterial`. -/
def laterStages (env : StageEnv) (props : VatProperties) : List AssetEffect :=
  thenStage (materialInstanceStage env (createdMaterialName props.VatMaterialName))
    (if props.bCreateVatBlueprint then
      blueprintStage env (createdMaterialName props.VatMaterialName)
     else [])

/-! ## Binary floating point (`float`, `double`)

A finite floating-point value is the rational it denotes. Conversions and arithmetic round to
the nearest value of the format, ties to the value with an even significand, subnormal values
included. The formats are not bounded above here: a result beyond the largest finite value,
where the machine gives infinity, is rounded like any other. -/

/-- The power `2 ^ e` for an integer exponent. -/
def pow2 (e : ℤ) : ℚ :=
  if 0 ≤ e then ((2 ^ e.toNat : ℕ) : ℚ) else 1 / ((2 ^ (-e).toNat : ℕ) : ℚ)

/-- The loop behind `floorLog2`: halving until the number is below 2. -/
def log2Loop : Nat → Nat → Nat
  | 0, _ => 0
  | fuel + 1, n => if 2 ≤ n then log2Loop fuel (n / 2) + 1 else 0

/-- The position of the leading bit of a natural number: `2 ^ floorLog2 n ≤ n` for `n ≥ 1`. -/
def floorLog2 (n : Nat) : Nat := log2Loop n n

/-- The binary exponent of a non-zero value: the `e` with `2 ^ e ≤ |x| < 2 ^ (e + 1)`. -/
def binaryExponent (x : ℚ) : ℤ :=
  let e : ℤ := (floorLog2 x.num.natAbs : ℤ) - (floorLog2 x.den : ℤ)
  if pow2 e ≤ |x| then e else e - 1

/-- Rounding to the nearest integer, a tie to the even one. -/
def roundHalfEven (q : ℚ) : ℤ :=
  let f := ⌊q⌋
  if q - f < 1 / 2 then f
  else if 1 / 2 < q - f then f + 1
  else if f % 2 = 0 then f else f + 1

/-- Rounding to a binary format with `prec` significand bits whose least normal exponent is
`emin`: the value becomes a multiple of the unit in the last place of its binade. -/
def roundBinary (prec : ℕ) (emin : ℤ) (x : ℚ) : ℚ :=
  if x = 0 then 0
  else
    let ulp := pow2 (max (binaryExponent x) emin - ((prec : ℤ) - 1))
    (roundHalfEven (x / ulp) : ℚ) * ulp

/-- Conversion to `float` (24 significand bits, least normal exponent -126). -/
def toFloat (x : ℚ) : ℚ := roundBinary 24 (-126) x

/-- Rounding of a `double` result (53 significand bits, least normal exponent -1022). -/
def toDouble (x : ℚ) : ℚ := roundBinary 53 (-1022) x

/-- A `UMaterialInterface` object: an asset, or a `UMaterialInstanceDynamic` created at run
time, identified by its position in the list of all instances created so far. -/
inductive MaterialRef where
  | Asset (id : Nat)
  | Dynamic (id : Nat)
  deriving DecidableEq, Repr

/-- A `UMaterialInstanceDynamic`: its parent and the two scalar parameters the actor writes,
`"Game Time at First Frame"` and `"Animation Length"` (`none` while never written). -/
structure DynamicInstance where
  Parent : Option MaterialRef
  GameTimeAtFirstFrame : Option ℚ
  AnimationLength : Option ℚ
  deriving DecidableEq, Repr

/-- A `UStaticMeshComponent` as far as materials go: the override array written by
`SetMaterial` and the materials of the static mesh, one per material slot. -/
structure MeshComponent where
  OverrideMaterials : List (Option MaterialRef)
  StaticMaterials : List (Option MaterialRef)
  deriving DecidableEq, Repr

/-- The engine's `UStaticMeshComponent::GetNumMaterials`: the slot count of the static mesh. -/
def MeshComponent.GetNumMaterials (m : MeshComponent) : Nat := m.StaticMaterials.length

/-- The engine's `UStaticMeshComponent::GetMaterial`: the override of the slot when there is a
non-null one, otherwise the material of the static mesh. -/
def MeshComponent.GetMaterial (m : MeshComponent) (Index : Nat) : Option MaterialRef :=
  match m.OverrideMaterials.getD Index none with
  | some x => some x
  | none => m.StaticMaterials.getD Index none

/-- The engine's `UMeshComponent::SetMaterial`: the override array grows to hold the index,
then the entry is written. -/
def MeshComponent.SetMaterial (m : MeshComponent) (Index : Nat) (Material : Option MaterialRef) :
    MeshComponent :=
  { m with OverrideMaterials :=
      (m.OverrideMaterials ++
        List.replicate (Index + 1 - m.OverrideMaterials.length) none).set Index Material }

/-- The state of an `AHoudiniVatActor`. Null pointers are `none`; the entries of `HitObjects`
and `OverlapObjects` are given by their names. Two fields are bookkeeping of the embedding:
`dynamics`, all `UMaterialInstanceDynamic` objects created so far, and `triggerCalls`, the
number of calls of `TriggerVatPlayback` so far. -/
structure VatActor where
  Vat_StaticMesh : Option MeshComponent
  Vat_MaterialInstances : List (Option MaterialRef)
  Original_MaterialInstances : List (Option MaterialRef)
  bTriggerOnBeginPlay : Bool
  bTriggerOnHit : Bool
  HitObjects : List (Option (List Char))
  bExcludeHitObjects : Bool
  bTriggerOnOverlap : Bool
  OverlapObjects : List (Option (List Char))
  bExcludeOverlapObjects : Bool
  bTriggerOnce : Bool
  StartSeconds : ℚ
  bPlay : Bool
  dynamics : List DynamicInstance
  triggerCalls : Nat
  deriving DecidableEq, Repr

/-- The loop of `ApplyMaterials` (lines 163-173) from index `Index` on. -/
def applyLoop (m : MeshComponent) : List (Option MaterialRef) → Nat → MeshComponent
  | [], _ => m
  | Material :: rest, Index => applyLoop (m.SetMaterial Index Material) rest (Index + 1)

/-- The function `AHoudiniVatActor::ApplyMaterials`: nothing without a mesh component. -/
def ApplyMaterials (mesh : Option MeshComponent) (Materials : List (Option MaterialRef)) :
    Option MeshComponent :=
  match mesh with
  | none => none
  | some m => some (applyLoop m Materials 0)

/-- The references to `n` instances created one after the other when `base` instances exist
already. -/
def freshRefs : Nat → Nat → List (Option MaterialRef)
  | _, 0 => []
  | base, n + 1 => some (.Dynamic base) :: freshRefs (base + 1) n

/-- The loop of `TriggerVatPlayback` (lines 181-191) from index `Index` on: an instance is
created for every entry; when `bPlay` holds it is put into the slot and stamped. The result is
`none` when `Vat_StaticMesh->SetMaterial` is reached with a null `Vat_StaticMesh`. -/
def triggerLoop (bPlay : Bool) (GameTimeInSeconds : ℚ) :
    List (Option MaterialRef) → Nat → Option MeshComponent → List DynamicInstance →
      Option (Option MeshComponent × List DynamicInstance)
  | [], _, mesh, dyn => some (mesh, dyn)
  | Parent :: rest, Index, mesh, dyn =>
    if bPlay then
      match mesh with
      | none => none
      | some m =>
        triggerLoop bPlay GameTimeInSeconds rest (Index + 1)
          (some (m.SetMaterial Index (some (.Dynamic dyn.length))))
          (dyn ++ [⟨Parent, some GameTimeInSeconds, none⟩])
    else
      triggerLoop bPlay GameTimeInSeconds rest (Index + 1) mesh (dyn ++ [⟨Parent, none, none⟩])

/-- The local `const float GameTimeInSeconds` of `TriggerVatPlayback` (line 179): the `float`
`StartSeconds` is subtracted from the `double` world time in `double`, and the difference is
converted to `float`. -/
def GameTimeInSeconds (now StartSeconds : ℚ) : ℚ := toFloat (toDouble (now - StartSeconds))

/-- The function `AHoudiniVatActor::TriggerVatPlayback` at world time `now`. -/
def TriggerVatPlayback (a : VatActor) (now : ℚ) : Option VatActor :=
  match triggerLoop a.bPlay (GameTimeInSeconds now a.StartSeconds) a.Vat_MaterialInstances 0
      a.Vat_StaticMesh a.dynamics with
  | none => none
  | some r =>
    some { a with
      Vat_StaticMesh := r.1
      dynamics := r.2
      bPlay := if a.bTriggerOnce then false else a.bPlay
      triggerCalls := a.triggerCalls + 1 }

/-- One step of the loop of `ResetVatPlayback` (lines 206-213): when the slot holds a dynamic
instance, both of its parameters are set to zero. -/
def resetSlot (m : MeshComponent) (dyn : List DynamicInstance) (Index : Nat) :
    List DynamicInstance :=
  match m.GetMaterial Index with
  | some (.Dynamic d) =>
    match dyn[d]? with
    | some x => dyn.set d { x with GameTimeAtFirstFrame := some 0, AnimationLength := some 0 }
    | none => dyn
  | _ => dyn

/-- The function `AHoudiniVatActor::ResetVatPlayback`: nothing without a mesh component. -/
def ResetVatPlayback (a : VatActor) : VatActor :=
  match a.Vat_StaticMesh with
  | none => a
  | some m =>
    let m' := applyLoop m a.Original_MaterialInstances 0
    { a with
      Vat_StaticMesh := some m'
      dynamics := (List.range m'.GetNumMaterials).foldl (resetSlot m') a.dynamics
      bPlay := true }

/-- The function `AHoudiniVatActor::BeginPlay` at world time `now`; `WorldGridMaterial` is
what `StaticLoadObject` returns. The world time is converted to the `float` member
`StartSeconds` (line 47). The result is `none` when `Vat_StaticMesh->GetNumMaterials()`
(line 56) is reached with a null `Vat_StaticMesh`. -/
def BeginPlay (a : VatActor) (now : ℚ) (WorldGridMaterial : Option MaterialRef) :
    Option VatActor :=
  let a1 : VatActor :=
    { a with
      StartSeconds := toFloat now
      Vat_StaticMesh := ApplyMaterials a.Vat_StaticMesh a.Original_MaterialInstances }
  let a2 : Option VatActor :=
    if !a1.bTriggerOnBeginPlay && a1.Original_MaterialInstances.isEmpty then
      match WorldGridMaterial with
      | some wg =>
        match a1.Vat_StaticMesh with
        | none => none
        | some m =>
          some { a1 with
            Vat_StaticMesh :=
              some (applyLoop m (List.replicate m.GetNumMaterials (some wg)) 0) }
      | none => some a1
    else some a1
  match a2 with
  | none => none
  | some a3 =>
    match a3.Vat_StaticMesh with
    | none => some a3
    | some m =>
      if a3.Vat_MaterialInstances.length > 0 && a3.bTriggerOnBeginPlay then
        TriggerVatPlayback a3 now
      else if !a3.bTriggerOnBeginPlay && a3.Original_MaterialInstances.length > 0 then
        some { a3 with
          Vat_StaticMesh :=
            some (m.SetMaterial 0 (a3.Original_MaterialInstances.getD 0 none)) }
      else some a3

/-- The loop over the listed objects in `NotifyHit` and `NotifyActorBeginOverlap`
(lines 98-112 and 133-147), from the current value of `bShouldTrigger`: a null entry is
skipped, a match sets `!bExclude` and leaves the loop, a non-match sets `bExclude`. `Contains`
is called without a search case. -/
def filterLoop (OtherName : List Char) (bExclude : Bool) :
    List (Option (List Char)) → Bool → Bool
  | [], bShouldTrigger => bShouldTrigger
  | none :: rest, bShouldTrigger => filterLoop OtherName bExclude rest bShouldTrigger
  | some ObjectName :: rest, _ =>
    if Contains OtherName ObjectName .IgnoreCase then !bExclude
    else filterLoop OtherName bExclude rest bExclude

/-- The value of `bShouldTrigger` before line 115 (and line 150). -/
def shouldTrigger (OtherName : List Char) (bExclude : Bool)
    (Objects : List (Option (List Char))) : Bool :=
  if Objects.length > 0 then filterLoop OtherName bExclude Objects false else !bExclude

/-- The function `AHoudiniVatActor::NotifyHit` for a hit by an actor named `OtherName`. -/
def NotifyHit (a : VatActor) (OtherName : List Char) (now : ℚ) : Option VatActor :=
  if a.Vat_StaticMesh.isSome && a.Vat_MaterialInstances.length > 0 && a.bTriggerOnHit then
    if shouldTrigger OtherName a.bExcludeHitObjects a.HitObjects then
      TriggerVatPlayback a now
    else some a
  else some a

/-- The function `AHoudiniVatActor::NotifyActorBeginOverlap` for an overlap with an actor
named `OtherName`. -/
def NotifyActorBeginOverlap (a : VatActor) (OtherName : List Char) (now : ℚ) :
    Option VatActor :=
  if a.Vat_StaticMesh.isSome && a.Vat_MaterialInstances.length > 0 && a.bTriggerOnOverlap then
    if shouldTrigger OtherName a.bExcludeOverlapObjects a.OverlapObjects then
      TriggerVatPlayback a now
    else some a
  else some a

/-- An actor with one material slot and one VAT material instance, no original materials,
begin-play trigger off, trigger-once on, before `BeginPlay`. -/
def sampleActor : VatActor :=
  { Vat_StaticMesh := some ⟨[], [some (.Asset 9)]⟩
    Vat_MaterialInstances := [some (.Asset 1)]
    Original_MaterialInstances := []
    bTriggerOnBeginPlay := false
    bTriggerOnHit := true
    HitObjects := [some "rock".toList]
    bExcludeHitObjects := false
    bTriggerOnOverlap := false
    OverlapObjects := []
    bExcludeOverlapObjects := false
    bTriggerOnce := true
    StartSeconds := 0
    bPlay := true
    dynamics := []
    triggerCalls := 0 }

/-- An environment of the creation stages in which the material factory returns nothing while
a material (left by an earlier run) loads from the package path, and the later factories
succeed. -/
def staleMaterialEnv : StageEnv :=
  { material := ⟨false, false, false, 0⟩
    createdMaterialLoaded := true
    materialInstanceCreated := true
    blueprintCreated := true
    blueprintHasGeneratedClass := true }

/-- Properties of a run with the default material name and a blueprint requested. -/
def sampleProperties : VatProperties :=
  { VatFbxFilePath := "mesh.fbx".toList
    VatTextureFilePath := ["a_pos.exr".toList, "b_col.png".toList]
    VatAssetPath := "/Game".toList
    bCreateVatBlueprint := true
    VatMaterialName := []
    VatType := .VatType1 }

/-! ## Customized UV channels (`CreateVatMaterial` lines 343-368) -/

/-- The value that `CreateVatMaterial` writes to `Material->NumCustomizedUVs` for a variant:
the channels `CustomizedUVs[0]` .. `CustomizedUVs[NumCustomizedUVs - 1]` are enabled. -/
def NumCustomizedUVs : EVatType → Nat
  | .VatType1 => 5
  | .VatType2 => 5
  | .VatType3 => 4
  | .VatType4 => 2

/-- The customized-UV channels among a list of connections. -/
def connectedChannels (cs : List Connection) : List Nat :=
  cs.filterMap (fun c =>
    match c.1 with
    | .CustomizedUVs k => some k
    | _ => none)

/-! ## The editor menu (`SidefxLabsEditor.cpp` lines 131-162) -/

/-- A menu entry added by `AddMenuEntry`: its name, its label, its tool tip and the URL that
its action hands to `FPlatformProcess::LaunchURL`. -/
structure MenuEntry where
  Name : String
  Label : String
  ToolTip : String
  URL : String
  deriving DecidableEq, Repr

/-- The engine's `FToolMenuSection::AddMenuEntry`: an entry of the same name is replaced in
place, any other entry is appended. -/
def AddMenuEntry (Blocks : List MenuEntry) (Entry : MenuEntry) : List MenuEntry :=
  if Blocks.any (fun b => b.Name == Entry.Name) then
    Blocks.map (fun b => if b.Name == Entry.Name then Entry else b)
  else Blocks ++ [Entry]

/-- The function `FMenuManager::RegisterHelpAndSupportSection`: the entries of the new section
`"HelpAndSupport"` after the calls of `AddMenuEntry`, in program order. -/
def RegisterHelpAndSupportSection : List MenuEntry :=
  AddMenuEntry
    (AddMenuEntry
      (AddMenuEntry
        (AddMenuEntry []
          ⟨"Website", "Website", "SideFX Labs website",
            "https://www.sidefx.com/products/sidefx-labs/"⟩)
        ⟨"Documentation", "Documentation", "SideFX Labs documentation",
          "https://www.sidefx.com/docs/houdini/labs/"⟩)
      ⟨"GitHub", "GitHub", "SideFX Labs GitHub", "https://github.com/sideeffects/SidefxLabs"⟩)
    ⟨"ArtStation", "ArtStation", "SideFX Labs ArtStation",
      "https://www.artstation.com/SidefxLabs"⟩

/-! ## Package paths (`VatAssetPath.Path / Name`) -/

/-- The engine's `FString::operator/` (`PathAppend`): a `/` (47) is put between the two parts
unless the left part is empty, the left part already ends in `/` or `\`, or the right part
begins with `/`; an empty right part still gets the separator. -/
def PathAppend (s Str : List Char) : List Char :=
  let needsSeparator : Bool :=
    match s.getLast? with
    | some c => !isSlash c
    | none => false
  match Str with
  | [] => if needsSeparator then s ++ [Char.ofNat 47] else s
  | c :: rest =>
    if needsSeparator && c.toNat != 47 then s ++ [Char.ofNat 47] ++ (c :: rest)
    else s ++ (c :: rest)

/-! ## The constructed actor and sequences of playback calls -/

/-- The constructor `AHoudiniVatActor::AHoudiniVatActor` (lines 30-41): the mesh component is
created, with no static mesh assigned; `Vat_MaterialInstances` is emptied;
`bTriggerOnBeginPlay` and `bPlay` are set. The members that the constructor does not write
hold the zero value of a new object. -/
def AHoudiniVatActor : VatActor :=
  { Vat_StaticMesh := some ⟨[], []⟩
    Vat_MaterialInstances := []
    Original_MaterialInstances := []
    bTriggerOnBeginPlay := true
    bTriggerOnHit := false
    HitObjects := []
    bExcludeHitObjects := false
    bTriggerOnOverlap := false
    OverlapObjects := []
    bExcludeOverlapObjects := false
    bTriggerOnce := false
    StartSeconds := 0
    bPlay := true
    dynamics := []
    triggerCalls := 0 }

/-- What is done to an actor after its construction, as far as `bPlay` goes: a call of
`TriggerVatPlayback` at a world time, a call of `ResetVatPlayback`, or an edit of the
properties that the two functions read (`bTriggerOnce`, `Vat_MaterialInstances` and
`Original_MaterialInstances` are `EditAnywhere`, `BlueprintReadWrite`; `bPlay` is a plain
protected member). -/
inductive PlaybackCall where
  | Trigger (now : ℚ)
  | Reset
  | Edit (bTriggerOnce : Bool)
      (Vat_MaterialInstances Original_MaterialInstances : List (Option MaterialRef))
  deriving DecidableEq, Repr

/-- One call on an actor. The second component is bookkeeping: whether a `TriggerVatPlayback`
ran with `bTriggerOnce` set since the last `ResetVatPlayback`. The result is `none` when
`TriggerVatPlayback` dereferences a null `Vat_StaticMesh`. -/
def playbackStep (s : VatActor × Bool) : PlaybackCall → Option (VatActor × Bool)
  | .Trigger now =>
    match TriggerVatPlayback s.1 now with
    | some a => some (a, s.2 || s.1.bTriggerOnce)
    | none => none
  | .Reset => some (ResetVatPlayback s.1, false)
  | .Edit b L O =>
    some ({ s.1 with
      bTriggerOnce := b
      Vat_MaterialInstances := L
      Original_MaterialInstances := O }, s.2)

/-- A sequence of calls, from left to right. -/
def playbackRun (s : VatActor × Bool) : List PlaybackCall → Option (VatActor × Bool)
  | [] => some s
  | c :: cs =>
    match playbackStep s c with
    | some s' => playbackRun s' cs
    | none => none

/-! ## Texture parameters of the material instance (`CreateVatMaterialInstance` lines 764-797) -/

/-- The texture parameter values of a material instance: `none` for a parameter that
`SetTextureParameterValueEditorOnly` has not been called for. -/
abbrev TextureParameterValues := TextureParameter → Option Texture2D

/-- The engine's `SetTextureParameterValueEditorOnly(parameter, texture)`: the value of the
named parameter is replaced, the others are kept. -/
def SetTextureParameterValueEditorOnly (v : TextureParameterValues) (p : TextureParameter)
    (Texture : Texture2D) : TextureParameterValues :=
  fun q => if q = p then some Texture else v q

/-- The body of the loop over `VatTextureFilePath` (lines 766-796) for one file path:
`loadTexture` is what `LoadObject<UTexture2D>` returns for the texture of that base file name
under the asset path; a texture that does not load is only logged. -/
def setTextureParameter (loadTexture : List Char → Option Texture2D)
    (v : TextureParameterValues) (FilePath : List Char) : TextureParameterValues :=
  let TextureName := GetBaseFilename FilePath
  match loadTexture TextureName with
  | some ImportedTexture =>
    (assignTextureRole TextureName true).foldl
      (fun w c => SetTextureParameterValueEditorOnly w c.1 ImportedTexture) v
  | none => v

/-- The loop over `VatTextureFilePath` (lines 764-797), in list order. -/
def setTextureParameterValues (loadTexture : List Char → Option Texture2D)
    (VatTextureFilePath : List (List Char)) (v : TextureParameterValues) :
    TextureParameterValues :=
  VatTextureFilePath.foldl (setTextureParameter loadTexture) v

/-- The textures of a path list that load and whose base file name classifies to the role
`p`, in list order. -/
def loadedTexturesOfRole (loadTexture : List Char → Option Texture2D)
    (VatTextureFilePath : List (List Char)) (p : TextureParameter) : List Texture2D :=
  VatTextureFilePath.filterMap (fun FilePath =>
    match loadTexture (GetBaseFilename FilePath) with
    | some t =>
      if (p, GetBaseFilename FilePath) ∈ assignTextureRole (GetBaseFilename FilePath) true
      then some t else none
    | none => none)

/-- An instance on which no texture parameter has been set. -/
def noTextureParameters : TextureParameterValues := fun _ => none

/-! ## Scalar and switch parameters of the material instance (lines 693-762) -/

/-- The members of `UCreateNewVatProperties` (header lines 66-82) that
`CreateVatMaterialInstance` copies into the material instance. -/
structure VatParameters where
  VatFps : Int
  bVatInterpolate : Bool
  bVatLoopAnimation : Bool
  VatAnimationLength : ℚ
  bVatSupportLegacyParametersAndInstancing : Bool
  VatLegacyDataFilePath : List Char
  deriving DecidableEq, Repr

/-- A call of `SetScalarParameterValueEditorOnly(FName(Name), Value)` or of
`SetStaticSwitchParameterValueEditorOnly(FName(Name), Value)`. -/
inductive ParameterCall where
  | Scalar (Name : String) (Value : ℚ)
  | StaticSwitch (Name : String) (Value : Bool)
  deriving DecidableEq, Repr

/-- The calls of lines 751-756, in program order. -/
def setBoundParameters (b : LegacyBounds) : List ParameterCall :=
  [.Scalar "Bound Max X" b.BoundMaxX, .Scalar "Bound Max Y" b.BoundMaxY,
   .Scalar "Bound Max Z" b.BoundMaxZ, .Scalar "Bound Min X" b.BoundMinX,
   .Scalar "Bound Min Y" b.BoundMinY, .Scalar "Bound Min Z" b.BoundMinZ]

/-- The parameter block of `CreateVatMaterialInstance` (lines 694-762): the scalar and
static-switch calls it makes, in program order. `LoadFileToString` is what
`FFileHelper::LoadFileToString` yields for the full path of the legacy data file path (`none`
when it returns false). The `int32` `VatFps` is converted to the `float` argument of
`SetScalarParameterValueEditorOnly`. -/
def setInstanceParameters (props : VatParameters)
    (LoadFileToString : List Char → Option (List Char)) : List ParameterCall :=
  [.Scalar "Houdini FPS" (toFloat props.VatFps),
   .StaticSwitch "Loop Animation" props.bVatLoopAnimation,
   .Scalar "Animation Length" props.VatAnimationLength,
   .StaticSwitch "Interframe Interpolation" props.bVatInterpolate,
   .StaticSwitch "Support Legacy Parameters and Instancing"
     props.bVatSupportLegacyParametersAndInstancing]
  ++ (if props.bVatSupportLegacyParametersAndInstancing then
        match LoadFileToString props.VatLegacyDataFilePath with
        | some JsonString => setBoundParameters (scanLegacyBounds JsonString)
        | none => []
      else [])

/-- The function `CreateVatMaterialInstance` (lines 659-819) as far as scalar and
static-switch parameters go: it returns before any call when `CreatedMaterialName` is empty
(line 661) or the created material does not load (line 669); when the factory returns no
instance, `MarkPackageDirty` is called through the null `MaterialInstance` (line 684), which is
the result `none`; otherwise the parameter block runs. -/
def CreateVatMaterialInstance (env : StageEnv) (CreatedMaterialName : List Char)
    (props : VatParameters) (LoadFileToString : List Char → Option (List Char)) :
    Option (List ParameterCall) :=
  if CreatedMaterialName.isEmpty then some []
  else if !env.createdMaterialLoaded then some []
  else if !env.materialInstanceCreated then none
  else some (setInstanceParameters props LoadFileToString)

/-- The name of the parameter that a call writes. -/
def ParameterCall.Name : ParameterCall → String
  | .Scalar n _ => n
  | .StaticSwitch n _ => n

theorem char_eq_of_toNat_eq {a b : Char} (h : a.toNat = b.toNat) : a = b := by
  apply Char.ext
  apply UInt32.ext
  simpa [Char.toNat] using h

theorem charEq_comma (c : Char) : charEq .IgnoreCase c ',' = (c.toNat == 44) := by
  have h : (',' : Char).toNat = 44 := rfl
  simp only [charEq, lowerCode, h]
  by_cases hc : c.toNat = 44
  · simp [hc]
  · have : ¬ (if 65 ≤ c.toNat ∧ c.toNat ≤ 90 then c.toNat + 32 else c.toNat) = 44 := by
      split <;> omega
    simp [hc, this]

theorem charEq_brace (c : Char) : charEq .IgnoreCase c '}' = (c.toNat == 125) := by
  have h : ('}' : Char).toNat = 125 := rfl
  simp only [charEq, lowerCode, h]
  by_cases hc : c.toNat = 125
  · simp [hc]
  · have : ¬ (if 65 ≤ c.toNat ∧ c.toNat ≤ 90 then c.toNat + 32 else c.toNat) = 125 := by
      split <;> omega
    simp [hc, this]

/-- Searching for a one-character string finds the first character that matches it. -/
theorem findFrom_single (sc : ESearchCase) (c0 : Char) (T : List Char) (off : Nat) :
    findFrom sc [c0] T off =
      if T.any (fun c => charEq sc c c0) then
        some (off + (T.takeWhile (fun c => !charEq sc c c0)).length)
      else none := by
  induction T generalizing off with
  | nil => simp [findFrom]
  | cons a T ih =>
    by_cases ha : charEq sc a c0 = true
    · simp [findFrom, startsWithCase, ha]
    · have ha' : charEq sc a c0 = false := by simpa using ha
      simp only [findFrom, startsWithCase, ha', Bool.false_and, Bool.false_eq_true, if_false,
        ih, List.any_cons, Bool.false_or, List.takeWhile_cons, Bool.not_false, if_true,
        List.length_cons]
      split
      · congr 1; omega
      · rfl

/-- The search returns the least index at which the text starts with the pattern. -/
theorem findFrom_least (sc : ESearchCase) (sub T : List Char) (off k : Nat)
    (hocc : startsWithCase sc (T.drop k) sub = true)
    (hfirst : ∀ j < k, startsWithCase sc (T.drop j) sub = false) :
    findFrom sc sub T off = some (off + k) := by
  induction T generalizing off k with
  | nil =>
    cases sub with
    | nil =>
      cases k with
      | zero => simp [findFrom]
      | succ k =>
        have := hfirst 0 (Nat.succ_pos k)
        simp [startsWithCase] at this
    | cons b sub => simp [startsWithCase] at hocc
  | cons a T ih =>
    cases k with
    | zero =>
      have hocc' : startsWithCase sc (a :: T) sub = true := by simpa using hocc
      simp [findFrom, hocc']
    | succ k =>
      have h0 : startsWithCase sc (a :: T) sub = false := by
        simpa using hfirst 0 (Nat.succ_pos k)
      have hocc' : startsWithCase sc (T.drop k) sub = true := by simpa using hocc
      have hfirst' : ∀ j < k, startsWithCase sc (T.drop j) sub = false := by
        intro j hj
        simpa using hfirst (j + 1) (Nat.succ_lt_succ hj)
      simp only [findFrom, h0, Bool.false_eq_true, if_false]
      rw [ih (off + 1) k hocc' hfirst']
      congr 1; omega

/-- A successful search returns an index at which the text starts with the pattern, and no
smaller index has that property. -/
theorem findFrom_some (sc : ESearchCase) (sub T : List Char) (off r : Nat)
    (h : findFrom sc sub T off = some r) :
    ∃ k, r = off + k ∧ startsWithCase sc (T.drop k) sub = true
      ∧ ∀ j < k, startsWithCase sc (T.drop j) sub = false := by
  induction T generalizing off with
  | nil =>
    cases sub with
    | nil =>
      refine ⟨0, ?_, by simp [startsWithCase], by simp⟩
      simpa [findFrom] using h.symm
    | cons b sub => simp [findFrom] at h
  | cons a T ih =>
    by_cases h0 : startsWithCase sc (a :: T) sub = true
    · refine ⟨0, ?_, by simpa using h0, by simp⟩
      simpa [findFrom, h0] using h.symm
    · have h0' : startsWithCase sc (a :: T) sub = false := by simpa using h0
      simp only [findFrom, h0', Bool.false_eq_true, if_false] at h
      obtain ⟨k, hr, hk, hlt⟩ := ih (off + 1) h
      refine ⟨k + 1, by omega, by simpa using hk, ?_⟩
      intro j hj
      cases j with
      | zero => simpa using h0'
      | succ j => simpa using hlt j (by omega)

/-! ## Lemmas: the conversion stops at a character that cannot continue a number -/

theorem takeWhile_append_stop {p : Char → Bool} {c : Char} (hc : p c = false)
    (P R : List Char) : (P ++ c :: R).takeWhile p = P.takeWhile p := by
  induction P with
  | nil => simp [hc]
  | cons a P ih =>
    by_cases ha : p a = true
    · simp [List.takeWhile_cons, ha, ih]
    · simp [List.takeWhile_cons, ha]

theorem dropWhile_append_stop {p : Char → Bool} {c : Char} (hc : p c = false)
    (P R : List Char) : (P ++ c :: R).dropWhile p = P.dropWhile p ++ c :: R := by
  induction P with
  | nil => simp [hc]
  | cons a P ih =>
    by_cases ha : p a = true
    · simp [List.dropWhile_cons, ha, ih]
    · simp [List.dropWhile_cons, ha]

theorem exponentDigits_append {c : Char} (hc : stopChar c) (P R : List Char) :
    exponentDigits (P ++ c :: R) = exponentDigits P := by
  obtain ⟨hd, h43, h45, _, _, _⟩ := hc
  cases P with
  | nil => simp [exponentDigits, h43, h45, hd, digitsVal]
  | cons a P =>
    simp only [exponentDigits, List.cons_append]
    rw [takeWhile_append_stop hd P R]
    have : (a :: (P ++ c :: R)).takeWhile isDigit = (a :: P).takeWhile isDigit := by
      have := takeWhile_append_stop hd (a :: P) R
      simpa using this
    rw [this]

theorem exponentPart_append {c : Char} (hc : stopChar c) (P R : List Char) :
    exponentPart (P ++ c :: R) = exponentPart P := by
  cases P with
  | nil =>
    obtain ⟨_, _, _, _, h69, h101⟩ := hc
    simp [exponentPart, h69, h101]
  | cons a P =>
    simp only [exponentPart, List.cons_append]
    rw [exponentDigits_append hc P R]

theorem fractionPart_append {c : Char} (hc : stopChar c) (P R : List Char) :
    fractionPart (P ++ c :: R) = fractionPart P := by
  cases P with
  | nil =>
    have h46 : c.toNat ≠ 46 := hc.2.2.2.1
    have := exponentPart_append hc [] R
    simp only [List.nil_append] at this
    simp only [fractionPart, List.nil_append, if_neg h46, this]
    rfl
  | cons a P =>
    have hd : isDigit c = false := hc.1
    simp only [fractionPart, List.cons_append]
    rw [takeWhile_append_stop hd P R, dropWhile_append_stop hd P R,
      exponentPart_append hc (P.dropWhile isDigit) R]
    have := exponentPart_append hc (a :: P) R
    simp only [List.cons_append] at this
    rw [this]

theorem unsignedValue_append {c : Char} (hc : stopChar c) (P R : List Char) :
    unsignedValue (P ++ c :: R) = unsignedValue P := by
  have hd : isDigit c = false := hc.1
  simp only [unsignedValue]
  rw [takeWhile_append_stop hd P R, dropWhile_append_stop hd P R,
    fractionPart_append hc (P.dropWhile isDigit) R]

theorem signedValue_append {c : Char} (hc : stopChar c) (P R : List Char) :
    signedValue (P ++ c :: R) = signedValue P := by
  cases P with
  | nil =>
    have h43 : c.toNat ≠ 43 := hc.2.1
    have h45 : c.toNat ≠ 45 := hc.2.2.1
    have := unsignedValue_append hc [] R
    simp only [List.nil_append] at this
    simp only [signedValue, List.nil_append, if_neg h45, if_neg h43, this]
    simp [unsignedValue, fractionPart]
  | cons a P =>
    simp only [signedValue, List.cons_append]
    rw [unsignedValue_append hc P R]
    have := unsignedValue_append hc (a :: P) R
    simp only [List.cons_append] at this
    rw [this]

theorem stopChar_of_whitespace {c : Char} (h : IsWhitespace c = true) : stopChar c := by
  simp only [IsWhitespace, Bool.or_eq_true, beq_iff_eq, Bool.and_eq_true, decide_eq_true_eq] at h
  refine ⟨?_, ?_, ?_, ?_, ?_, ?_⟩
  · simp only [isDigit, Bool.and_eq_false_imp, decide_eq_true_eq, decide_eq_false_iff_not]
    omega
  all_goals omega

/-- Appending white space changes no value. -/
theorem signedValue_append_whitespace (P W : List Char)
    (hW : ∀ w ∈ W, IsWhitespace w = true) : signedValue (P ++ W) = signedValue P := by
  cases W with
  | nil => simp
  | cons w W => exact signedValue_append (stopChar_of_whitespace (hW w (by simp))) P W

/-- A string is its end-trimmed part followed by white space only. -/
theorem trimEnd_decompose (L : List Char) :
    ∃ W, L = TrimEnd L ++ W ∧ ∀ w ∈ W, IsWhitespace w = true := by
  refine ⟨(L.reverse.takeWhile IsWhitespace).reverse, ?_, ?_⟩
  · have h := List.takeWhile_append_dropWhile IsWhitespace L.reverse
    have h2 := congrArg List.reverse h
    simp only [List.reverse_append, List.reverse_reverse] at h2
    simpa [TrimEnd] using h2.symm
  · intro w hw
    exact List.mem_takeWhile_imp (List.mem_reverse.mp hw)

theorem signedValue_trimEnd (L : List Char) : signedValue (TrimEnd L) = signedValue L := by
  obtain ⟨W, hL, hW⟩ := trimEnd_decompose L
  conv_rhs => rw [hL]
  exact (signedValue_append_whitespace (TrimEnd L) W hW).symm

theorem dropWhile_trimEnd_of_head (Y : List Char)
    (hY : Y.dropWhile IsWhitespace = Y) :
    (TrimEnd Y).dropWhile IsWhitespace = TrimEnd Y := by
  obtain ⟨W, hL, _⟩ := trimEnd_decompose Y
  cases hT : TrimEnd Y with
  | nil => rfl
  | cons z Z =>
    rw [hT] at hL
    have hz : IsWhitespace z = false := by
      rw [hL] at hY
      by_contra hcon
      have hzw : IsWhitespace z = true := by simpa using hcon
      have hlen := congrArg List.length hY
      simp only [List.cons_append, List.dropWhile_cons, hzw, if_true, List.length_cons] at hlen
      have hsub : ((Z ++ W).dropWhile IsWhitespace).length ≤ (Z ++ W).length :=
        (List.dropWhile_sublist IsWhitespace).length_le
      omega
    simp [List.dropWhile_cons, hz]

/-- Trimming a string at both ends changes no value. -/
theorem Atof_trim (X : List Char) : Atof (TrimStartAndEnd X) = Atof X := by
  have hY : (X.dropWhile IsWhitespace).dropWhile IsWhitespace = X.dropWhile IsWhitespace :=
    List.dropWhile_idempotent _ _
  simp only [Atof, TrimStartAndEnd, TrimStart]
  rw [dropWhile_trimEnd_of_head _ hY, signedValue_trimEnd]

/-- The conversion does not read past a character that is no white space and no part of a
number. -/
theorem Atof_append_stop {c : Char} (hw : IsWhitespace c = false) (hc : stopChar c)
    (A B : List Char) : Atof (A ++ c :: B) = Atof A := by
  simp only [Atof]
  rw [dropWhile_append_stop hw A B, signedValue_append hc]

/-! ## Lemmas: the scan for one key -/

theorem toNat_beq_comma (c : Char) : (c.toNat == 44) = (c == ',') := by
  by_cases h : c = ','
  · subst h; rfl
  · have h2 : c.toNat ≠ 44 := fun hh => h (char_eq_of_toNat_eq hh)
    simp [h, h2]

theorem toNat_beq_brace (c : Char) : (c.toNat == 125) = (c == '}') := by
  by_cases h : c = '}'
  · subst h; rfl
  · have h2 : c.toNat ≠ 125 := fun hh => h (char_eq_of_toNat_eq hh)
    simp [h, h2]

theorem take_length_takeWhile (p : Char → Bool) (T : List Char) :
    T.take (T.takeWhile p).length = T.takeWhile p :=
  (List.prefix_iff_eq_take.mp (List.takeWhile_prefix p)).symm

/-- Up to the first comma the text is the value text, possibly followed by a closing brace and
more. -/
theorem takeWhile_comma_cases (T : List Char) :
    T.takeWhile (fun c => !(c == ',')) = T.takeWhile (fun c => !isValueEnd c)
      ∨ ∃ B, T.takeWhile (fun c => !(c == ',')) =
          T.takeWhile (fun c => !isValueEnd c) ++ '}' :: B := by
  induction T with
  | nil => left; rfl
  | cons a T ih =>
    by_cases h1 : a = ','
    · left; subst h1; simp [isValueEnd]
    · by_cases h2 : a = '}'
      · right; subst h2
        exact ⟨T.takeWhile (fun c => !(c == ',')), by simp [isValueEnd, List.takeWhile_cons]⟩
      · rcases ih with ih | ⟨B, ih⟩
        · left; simp [List.takeWhile_cons, isValueEnd, h1, h2, ih]
        · right; exact ⟨B, by simp [List.takeWhile_cons, isValueEnd, h1, h2, ih]⟩

/-- Without a comma in the text, the text up to the first closing brace is the value text. -/
theorem takeWhile_brace_of_no_comma (T : List Char) (hno : T.any (fun c => c == ',') = false) :
    T.takeWhile (fun c => !(c == '}')) = T.takeWhile (fun c => !isValueEnd c) := by
  induction T with
  | nil => rfl
  | cons a T ih =>
    simp only [List.any_cons, Bool.or_eq_false_iff] at hno
    have h1 : (a == ',') = false := hno.1
    simp [List.takeWhile_cons, isValueEnd, h1, ih hno.2]

theorem any_valueEnd_split (T : List Char) (h : ∃ c ∈ T, isValueEnd c = true)
    (hno : T.any (fun c => c == ',') = false) : T.any (fun c => c == '}') = true := by
  obtain ⟨c, hc, hend⟩ := h
  simp only [List.any_eq_true]
  refine ⟨c, hc, ?_⟩
  simp only [isValueEnd, Bool.or_eq_true] at hend
  rcases hend with hcomma | hbrace
  · have := List.any_eq_false.mp hno c hc
    simp [hcomma] at this
  · exact hbrace

theorem Atof_trim_comma_text (T : List Char) :
    Atof (TrimStartAndEnd (T.takeWhile (fun c => !(c == ',')))) =
      Atof (TrimStartAndEnd (T.takeWhile (fun c => !isValueEnd c))) := by
  rw [Atof_trim, Atof_trim]
  rcases takeWhile_comma_cases T with h | ⟨B, h⟩
  · rw [h]
  · rw [h]
    exact Atof_append_stop (by decide) (by unfold stopChar; decide) _ B

/-- The loop body, for a label found first (letter case ignored) at index `i` and followed
by a comma or a closing brace, stores the number converted from the value text. -/
theorem scanKey_found (J Key : List Char) (i : Nat)
    (hocc : startsWithCase .IgnoreCase (J.drop i) Key = true)
    (hfirst : ∀ j < i, startsWithCase .IgnoreCase (J.drop j) Key = false)
    (hend : ∃ c ∈ J.drop (i + Key.length), isValueEnd c = true) :
    scanKey J Key = some (Atof (TrimStartAndEnd (valueText J i Key))) := by
  have hfind : Find J Key .IgnoreCase none = some i := by
    have := findFrom_least .IgnoreCase Key J 0 i hocc hfirst
    simpa [Find] using this
  have hlen : i + Key.length < J.length := by
    obtain ⟨c, hc, _⟩ := hend
    by_contra hge
    have : J.drop (i + Key.length) = [] := List.drop_eq_nil_of_le (by omega)
    rw [this] at hc
    simp at hc
  have hmin : min (i + Key.length) (J.length - 1) = i + Key.length := by omega
  have hcomma : Find J [','] .IgnoreCase (some (i + Key.length)) =
      if (J.drop (i + Key.length)).any (fun c => c == ',') then
        some (i + Key.length +
          ((J.drop (i + Key.length)).takeWhile (fun c => !(c == ','))).length)
      else none := by
    simp only [Find, hmin, findFrom_single, charEq_comma, toNat_beq_comma]
  have hbrace : Find J ['}'] .IgnoreCase (some (i + Key.length)) =
      if (J.drop (i + Key.length)).any (fun c => c == '}') then
        some (i + Key.length +
          ((J.drop (i + Key.length)).takeWhile (fun c => !(c == '}'))).length)
      else none := by
    simp only [Find, hmin, findFrom_single, charEq_brace, toNat_beq_brace]
  simp only [scanKey, hfind, hcomma, hbrace, valueText]
  by_cases hc : (J.drop (i + Key.length)).any (fun c => c == ',') = true
  · simp only [hc, if_true, Mid, Nat.add_sub_cancel_left, take_length_takeWhile]
    rw [Atof_trim_comma_text]
  · have hc' : (J.drop (i + Key.length)).any (fun c => c == ',') = false :=
      Bool.eq_false_iff.mpr hc
    have hb := any_valueEnd_split _ hend hc'
    simp only [hc', Bool.false_eq_true, if_false, hb, if_true, Mid, Nat.add_sub_cancel_left,
      take_length_takeWhile]
    rw [takeWhile_brace_of_no_comma _ hc']

theorem startsWithCase_length (sc : ESearchCase) (s sub : List Char)
    (h : startsWithCase sc s sub = true) : sub.length ≤ s.length := by
  induction s generalizing sub with
  | nil =>
    cases sub with
    | nil => simp
    | cons b sub => simp [startsWithCase] at h
  | cons a s ih =>
    cases sub with
    | nil => simp
    | cons b sub =>
      simp only [startsWithCase, Bool.and_eq_true] at h
      have := ih sub h.2
      simp only [List.length_cons]
      omega

/-- When the pattern covers the whole text, their last characters match. -/
theorem startsWithCase_last (sc : ESearchCase) (s sub : List Char) (d : Char)
    (h : startsWithCase sc s sub = true) (hlen : s.length = sub.length)
    (hd : sub.getLast? = some d) : ∃ c, s.getLast? = some c ∧ charEq sc c d = true := by
  induction s generalizing sub with
  | nil =>
    cases sub with
    | nil => simp at hd
    | cons b sub => simp at hlen
  | cons a s ih =>
    cases sub with
    | nil => simp at hlen
    | cons b sub =>
      simp only [startsWithCase, Bool.and_eq_true] at h
      simp only [List.length_cons, Nat.add_right_cancel_iff] at hlen
      cases sub with
      | nil =>
        have hs : s = [] := List.length_eq_zero.mp (by simpa using hlen)
        subst hs
        simp only [List.getLast?_singleton, Option.some.injEq] at hd
        subst hd
        exact ⟨a, by simp, h.1⟩
      | cons b2 sub =>
        cases s with
        | nil => simp at hlen
        | cons a2 s =>
          rw [List.getLast?_cons_cons] at hd
          obtain ⟨c, hc, hcd⟩ := ih (b2 :: sub) h.2 hlen hd
          exact ⟨c, by rw [List.getLast?_cons_cons]; exact hc, hcd⟩

theorem lowerCode_eq_imp (n m : Nat) (h : lowerCode n = lowerCode m) :
    (n = 44 → m = 44) ∧ (n = 125 → m = 125) := by
  unfold lowerCode at h
  split_ifs at h <;> constructor <;> intro hn <;> omega

theorem charEq_not_valueEnd (c d : Char) (h : charEq .IgnoreCase c d = true)
    (hd : isValueEnd d = false) :
    charEq .IgnoreCase c ',' = false ∧ charEq .IgnoreCase c '}' = false := by
  simp only [isValueEnd, Bool.or_eq_false_iff, ← toNat_beq_comma, ← toNat_beq_brace,
    beq_eq_false_iff_ne, ne_eq] at hd
  simp only [charEq, beq_iff_eq] at h
  have himp := lowerCode_eq_imp _ _ h
  rw [charEq_comma, charEq_brace]
  simp only [beq_eq_false_iff_ne, ne_eq]
  exact ⟨fun hc => hd.1 (himp.1 hc), fun hc => hd.2 (himp.2 hc)⟩

/-- The loop body stores nothing when neither a comma nor a closing brace follows the
label (the label ending in a character that is neither). -/
theorem scanKey_unterminated (J Key : List Char) (i : Nat) (d : Char)
    (hd : Key.getLast? = some d) (hdend : isValueEnd d = false)
    (hocc : startsWithCase .IgnoreCase (J.drop i) Key = true)
    (hfirst : ∀ j < i, startsWithCase .IgnoreCase (J.drop j) Key = false)
    (hend : ∀ c ∈ J.drop (i + Key.length), isValueEnd c = false) :
    scanKey J Key = none := by
  have hfind : Find J Key .IgnoreCase none = some i := by
    have := findFrom_least .IgnoreCase Key J 0 i hocc hfirst
    simpa [Find] using this
  have hKeyLen : 0 < Key.length := by
    cases Key with
    | nil => simp at hd
    | cons b Key => simp
  have hle := startsWithCase_length _ _ _ hocc
  simp only [List.length_drop] at hle
  -- the text searched for the end of the value holds no comma and no closing brace
  have hsearch : ∀ c ∈ J.drop (min (i + Key.length) (J.length - 1)),
      charEq .IgnoreCase c ',' = false ∧ charEq .IgnoreCase c '}' = false := by
    by_cases hlt : i + Key.length < J.length
    · have hmin : min (i + Key.length) (J.length - 1) = i + Key.length := by omega
      rw [hmin]
      intro c hc
      have h1 := hend c hc
      simp only [isValueEnd, Bool.or_eq_false_iff] at h1
      rw [charEq_comma, charEq_brace, toNat_beq_comma, toNat_beq_brace]
      exact h1
    · have hlenEq : (J.drop i).length = Key.length := by
        simp only [List.length_drop]; omega
      obtain ⟨c0, hc0, hcd⟩ := startsWithCase_last _ _ _ d hocc hlenEq hd
      rw [List.getLast?_drop] at hc0
      have hiJ : ¬ J.length ≤ i := by omega
      simp only [hiJ, if_false] at hc0
      obtain ⟨ys, hys⟩ := List.getLast?_eq_some_iff.mp hc0
      have hmin : min (i + Key.length) (J.length - 1) = ys.length := by
        rw [hys]; simp only [List.length_append, List.length_singleton]
        rw [hys] at hlt; simp only [List.length_append, List.length_singleton] at hlt
        omega
      rw [hmin, hys, List.drop_left]
      intro c hc
      simp only [List.mem_singleton] at hc
      subst hc
      exact charEq_not_valueEnd c d hcd hdend
  have hcomma : Find J [','] .IgnoreCase (some (i + Key.length)) = none := by
    simp only [Find, findFrom_single]
    have : (J.drop (min (i + Key.length) (J.length - 1))).any
        (fun c => charEq .IgnoreCase c ',') = false :=
      List.any_eq_false.mpr (fun c hc => by simp [(hsearch c hc).1])
    simp [this]
  have hbrace : Find J ['}'] .IgnoreCase (some (i + Key.length)) = none := by
    simp only [Find, findFrom_single]
    have : (J.drop (min (i + Key.length) (J.length - 1))).any
        (fun c => charEq .IgnoreCase c '}') = false :=
      List.any_eq_false.mpr (fun c hc => by simp [(hsearch c hc).2])
    simp [this]
  simp [scanKey, hfind, hcomma, hbrace]

theorem get_set (b : LegacyBounds) (g f : BoundField) (v : ℚ) :
    (b.set g v).get f = if g = f then v else b.get f := by
  cases g <;> cases f <;> rfl

/-- Reading one field after the loop only involves the keys that point to that field. -/
theorem foldl_keys_get (J : List Char) (f : BoundField)
    (kps : List (List Char × BoundField)) (b : LegacyBounds) :
    (kps.foldl
      (fun b kp =>
        match scanKey J kp.1 with
        | some v => b.set kp.2 v
        | none => b) b).get f =
    kps.foldl (fun acc kp => if kp.2 = f then (scanKey J kp.1).getD acc else acc) (b.get f) := by
  induction kps generalizing b with
  | nil => rfl
  | cons kp kps ih =>
    simp only [List.foldl]
    rw [ih]
    congr 1
    cases hk : scanKey J kp.1 with
    | none => simp
    | some v => simp [get_set]

/-- After the loop, each field holds what the loop body stored for its own label, or zero
when it stored nothing. -/
theorem scanLegacyBounds_get (J : List Char) (f : BoundField) :
    (scanLegacyBounds J).get f = (scanKey J (keyLabel f)).getD 0 := by
  rw [scanLegacyBounds, foldl_keys_get]
  cases f <;> simp [Keys, LegacyBounds.get, LegacyBounds.zero]

/-! ## Lemmas: searching and case folding -/

theorem startsWithCase_ignore_iff (s sub : List Char) :
    startsWithCase .IgnoreCase s sub = true ↔ foldCase sub <+: foldCase s := by
  induction s generalizing sub with
  | nil =>
    cases sub with
    | nil => simp [startsWithCase, foldCase]
    | cons b sub => simp [startsWithCase, foldCase]
  | cons a s ih =>
    cases sub with
    | nil => simp [startsWithCase, foldCase]
    | cons b sub =>
      have := ih sub
      simp only [foldCase] at this
      simp only [startsWithCase, charEq, Bool.and_eq_true, beq_iff_eq, foldCase, List.map_cons,
        List.cons_prefix_cons, this]
      constructor
      · rintro ⟨h1, h2⟩; exact ⟨h1.symm, h2⟩
      · rintro ⟨h1, h2⟩; exact ⟨h1.symm, h2⟩

theorem startsWithCase_ignore_false_iff (s sub : List Char) :
    startsWithCase .IgnoreCase s sub = false ↔ ¬ foldCase sub <+: foldCase s := by
  rw [← startsWithCase_ignore_iff]
  simp

/-- The engine's `Contains` with the default search case holds exactly when the pattern,
letter case folded, is a contiguous part of the text, letter case folded. -/
theorem Contains_ignore_iff (s sub : List Char) :
    Contains s sub .IgnoreCase = true ↔ foldCase sub <:+: foldCase s := by
  simp only [Contains, Find, List.drop_zero]
  constructor
  · intro h
    obtain ⟨r, hr⟩ := Option.isSome_iff_exists.mp h
    obtain ⟨k, _, hk, _⟩ := findFrom_some _ _ _ _ _ hr
    have hp := (startsWithCase_ignore_iff _ _).mp hk
    have hsuf : foldCase (s.drop k) <:+ foldCase s := by
      simp only [foldCase, List.map_drop]
      exact List.drop_suffix _ _
    exact hp.isInfix.trans hsuf.isInfix
  · intro h
    by_contra hcon
    have hnone : findFrom .IgnoreCase sub s 0 = none := by
      cases hf : findFrom .IgnoreCase sub s 0 with
      | none => rfl
      | some r => simp [hf] at hcon
    obtain ⟨a, b, hab⟩ := h
    have hocc : startsWithCase .IgnoreCase (s.drop a.length) sub = true := by
      rw [startsWithCase_ignore_iff]
      simp only [foldCase, List.map_drop]
      have : List.map (fun c => lowerCode c.toNat) s = a ++ (foldCase sub ++ b) := by
        have h2 := hab.symm
        simp only [foldCase, List.append_assoc] at h2
        simpa [foldCase] using h2
      rw [this, List.drop_left]
      exact List.prefix_append _ _
    -- a least index exists below `a.length`
    have hex : ∃ k, startsWithCase .IgnoreCase (s.drop k) sub = true := ⟨a.length, hocc⟩
    classical
    have hmin := Nat.find_spec hex
    have hlt : ∀ j < Nat.find hex, startsWithCase .IgnoreCase (s.drop j) sub = false := by
      intro j hj
      have := Nat.find_min hex hj
      simpa using this
    have := findFrom_least .IgnoreCase sub s 0 (Nat.find hex) hmin hlt
    rw [hnone] at this
    simp at this

theorem keyLabel_getLast (f : BoundField) : (keyLabel f).getLast? = some ' ' := by
  cases f <;> rfl

/-! ## Theorems: material wiring -/

/-- C1 (evaluation at the failing input): for the Soft variant on a node with 19 outputs
(valid pins 0..18), `CreateVatMaterial` connects `CustomizedUVs[2]` to pin 19, a pin the node
does not have; the guard `Outputs.Num() >= 19` is one short of what pin 19 needs. -/
theorem C1_soft_19_outputs_connects_pin_19 :
    (MaterialInput.CustomizedUVs 2, 19) ∈ (CreateVatMaterial (nodeEnv 19) .VatType1).connections
      ∧ ¬ ∀ c ∈ (CreateVatMaterial (nodeEnv 19) .VatType1).connections, c.2 < 19 := by
  decide

/-- C2: for each of the four variants, when the material, the node and the material function
exist and the node has at least 24 outputs, the connections made by `CreateVatMaterial` are
exactly the variant's fixed table, in order, and nothing else. -/
theorem C2_connections_eq_table (env : MaterialEnv) (t : EVatType)
    (hm : env.materialCreated = true) (he : env.expressionCreated = true)
    (hf : env.functionLoaded = true) (hn : 24 ≤ env.numOutputs) :
    (CreateVatMaterial env t).connections = wiringTable t := by
  have h0 : env.numOutputs > 0 := by omega
  have h4 : env.numOutputs ≥ 4 := by omega
  have h5 : env.numOutputs ≥ 5 := by omega
  have h19 : env.numOutputs ≥ 19 := by omega
  have h20 : env.numOutputs ≥ 20 := by omega
  have h21 : env.numOutputs ≥ 21 := by omega
  have h22 : env.numOutputs ≥ 22 := by omega
  have h23 : env.numOutputs ≥ 23 := by omega
  have h24 : env.numOutputs ≥ 24 := by omega
  cases t <;>
    simp [CreateVatMaterial, connectOutputs, connectIf, wiringTable, hm, he, hf,
      h0, h4, h5, h19, h20, h21, h22, h23, h24]

/-- Witness for C2: the Rigid variant on a node with exactly 24 outputs. -/
theorem C2_connections_eq_table_witness :
    (CreateVatMaterial (nodeEnv 24) .VatType2).connections
      = [(.BaseColor, 0), (.Normal, 3), (.WorldPositionOffset, 4),
         (.CustomizedUVs 2, 21), (.CustomizedUVs 3, 22), (.CustomizedUVs 4, 23)] :=
  C2_connections_eq_table (nodeEnv 24) .VatType2 rfl rfl rfl (by decide)

/-- C3: for every variant and every output count, each entry of the variant's table whose pin
index is below the output count is connected by `CreateVatMaterial` (material, node and
function existing), whatever happened to the other entries. -/
theorem C3_servable_entries_connected (env : MaterialEnv) (t : EVatType) (c : Connection)
    (hm : env.materialCreated = true) (he : env.expressionCreated = true)
    (hf : env.functionLoaded = true)
    (hc : c ∈ wiringTable t) (hlt : c.2 < env.numOutputs) :
    c ∈ (CreateVatMaterial env t).connections := by
  have h0 : env.numOutputs > 0 := by omega
  revert c
  cases t <;>
    simp only [wiringTable, List.forall_mem_cons, List.not_mem_nil, false_implies,
      implies_true, and_true] <;>
    simp [CreateVatMaterial, connectOutputs, connectIf, hm, he, hf, h0] <;>
    omega

/-- Witness for C3: Soft on a node with 20 outputs; the entry `UV2 <- 19` is servable and is
connected although `UV4 <- 21` is not. -/
theorem C3_servable_entries_connected_witness :
    (MaterialInput.CustomizedUVs 2, 19) ∈ (CreateVatMaterial (nodeEnv 20) .VatType1).connections :=
  C3_servable_entries_connected (nodeEnv 20) .VatType1 (.CustomizedUVs 2, 19)
    rfl rfl rfl (by decide) (by decide)

/-! ## Lemmas: texts that do not begin with a number -/

theorem unsignedValue_eq_zero (u : List Char)
    (h : match u with
      | [] => True
      | d :: r => isDigit d = false ∧
          (d.toNat = 46 → match r with
            | [] => True
            | e :: _ => isDigit e = false)) :
    unsignedValue u = 0 := by
  cases u with
  | nil => simp [unsignedValue, fractionPart]
  | cons d r =>
    obtain ⟨hd, hdot⟩ := h
    by_cases h46 : d.toNat = 46
    · have hr := hdot h46
      cases r with
      | nil => simp [unsignedValue, fractionPart, hd, h46, List.takeWhile_cons]
      | cons e r =>
        have he : isDigit e = false := hr
        simp [unsignedValue, fractionPart, hd, h46, he, List.takeWhile_cons,
          List.dropWhile_cons]
    · simp [unsignedValue, fractionPart, hd, h46, List.takeWhile_cons, List.dropWhile_cons]

theorem signedValue_eq_zero (s : List Char) (h : startsNumeric s = false) :
    signedValue s = 0 := by
  cases s with
  | nil => rfl
  | cons c r =>
    have key : ∀ u : List Char,
        (match u with
          | [] => false
          | d :: r =>
            isDigit d
              || (d.toNat == 46 && (match r with
                  | [] => false
                  | e :: _ => isDigit e))
              || startsWithCase .IgnoreCase (d :: r) "inf".toList
              || startsWithCase .IgnoreCase (d :: r) "nan".toList) = false →
        unsignedValue u = 0 := by
      intro u hu
      apply unsignedValue_eq_zero
      cases u with
      | nil => trivial
      | cons d r =>
        simp only [Bool.or_eq_false_iff, Bool.and_eq_false_imp, beq_iff_eq] at hu
        refine ⟨hu.1.1.1, ?_⟩
        intro h46
        have := hu.1.1.2 h46
        cases r with
        | nil => trivial
        | cons e r => simpa using this
    simp only [startsNumeric] at h
    by_cases h45 : c.toNat = 45
    · simp only [h45, true_or, if_true] at h
      simp only [signedValue, h45, if_true, key r h, neg_zero]
    · by_cases h43 : c.toNat = 43
      · simp only [h43, or_true, if_true] at h
        simp only [signedValue, h43, if_true, key r h]
        simp
      · simp only [h45, h43, or_self, if_false] at h
        simp only [signedValue, h45, h43, if_false, key (c :: r) h]

/-- A trimmed text that does not begin with a number converts to zero. -/
theorem Atof_trim_eq_zero (v : List Char) (h : startsNumeric (TrimStartAndEnd v) = false) :
    Atof (TrimStartAndEnd v) = 0 := by
  have hY : (v.dropWhile IsWhitespace).dropWhile IsWhitespace = v.dropWhile IsWhitespace :=
    List.dropWhile_idempotent _ _
  have h2 : (TrimStartAndEnd v).dropWhile IsWhitespace = TrimStartAndEnd v := by
    simp only [TrimStartAndEnd, TrimStart]
    exact dropWhile_trimEnd_of_head _ hY
  rw [Atof, h2]
  exact signedValue_eq_zero _ h

theorem scanKey_absent_infix (J Key : List Char) (habs : ¬ foldCase Key <:+: foldCase J) :
    scanKey J Key = none := by
  have hc : Contains J Key .IgnoreCase = false := by
    rw [← Bool.not_eq_true, Contains_ignore_iff]
    exact habs
  have hfind : Find J Key .IgnoreCase none = none := by
    simp only [Contains] at hc
    cases hf : Find J Key .IgnoreCase none with
    | none => rfl
    | some r => simp [hf] at hc
  simp [scanKey, hfind]

/-! ## Theorems: the legacy-bounds scan -/

/-- C4 (counterexample): in `{"bound max x": 1.0, "Bound Max X": 2.0}` the label
`"Bound Max X": ` first occurs at index 21 and a comma or brace follows it; the number in the
text after that occurrence is 2, yet the scan stores 1 in `BoundMaxX`, the value after the
earlier lower-case spelling: the search for the label ignores letter case. -/
theorem C4_label_search_ignores_case :
    keyLabel .MaxX <+: caseVariantBoundsText.drop 21
      ∧ (∀ j < 21, ¬ keyLabel .MaxX <+: caseVariantBoundsText.drop j)
      ∧ (∃ c ∈ caseVariantBoundsText.drop (21 + (keyLabel .MaxX).length), isValueEnd c = true)
      ∧ Atof (TrimStartAndEnd (valueText caseVariantBoundsText 21 (keyLabel .MaxX))) = 2
      ∧ (scanLegacyBounds caseVariantBoundsText).BoundMaxX = 1 := by
  decide!

/-- C4 (amended): for every text and each of the six labels, if the label first occurs,
letter case ignored, at index `i` and a comma or closing brace follows it, the scan sets the
label's field to the number converted from the white-space-trimmed text that runs from the end
of that occurrence to the next comma or closing brace, whichever comes first. -/
theorem C4_scan_value (J : List Char) (f : BoundField) (i : Nat)
    (hocc : foldCase (keyLabel f) <+: foldCase (J.drop i))
    (hfirst : ∀ j < i, ¬ foldCase (keyLabel f) <+: foldCase (J.drop j))
    (hend : ∃ c ∈ J.drop (i + (keyLabel f).length), isValueEnd c = true) :
    (scanLegacyBounds J).get f = Atof (TrimStartAndEnd (valueText J i (keyLabel f))) := by
  rw [scanLegacyBounds_get,
    scanKey_found J (keyLabel f) i ((startsWithCase_ignore_iff _ _).mpr hocc)
      (fun j hj => (startsWithCase_ignore_false_iff _ _).mpr (hfirst j hj)) hend]
  rfl

/-- Witness for C4, the example of the specification: on
`{"Bound Max X": 12.5, "Bound Min Y": -3.0}` the scan yields `BoundMaxX = 12.5` and
`BoundMinY = -3.0`. -/
theorem C4_scan_value_witness :
    (scanLegacyBounds exampleBoundsText).BoundMaxX = 12.5
      ∧ (scanLegacyBounds exampleBoundsText).BoundMinY = -3.0 :=
  ⟨(C4_scan_value exampleBoundsText .MaxX 1 (by decide) (by decide) (by decide)).trans
      (by decide!),
   (C4_scan_value exampleBoundsText .MinY 22 (by decide) (by decide) (by decide)).trans
      (by decide!)⟩

/-- C5 (counterexample): the text `{"bound max x": 7.0}` does not contain the label
`"Bound Max X": `, yet the scan sets `BoundMaxX` to 7, not 0. -/
theorem C5_absent_label_in_other_case_is_found :
    ¬ keyLabel .MaxX <:+: lowerCaseBoundsText
      ∧ (scanLegacyBounds lowerCaseBoundsText).BoundMaxX = 7
      ∧ (scanLegacyBounds lowerCaseBoundsText).BoundMaxX ≠ 0 := by
  decide!

/-- C5 (amended): for every text, the field of a label is what the loop body finds for that
label alone (zero when it stores nothing), whatever happens for the other five labels; and a
field is left at 0.0 when its label occurs nowhere in the text in any letter case, or when
neither a comma nor a closing brace follows its first such occurrence. -/
theorem C5_absent_fields_zero (J : List Char) (f : BoundField) :
    (scanLegacyBounds J).get f = (scanKey J (keyLabel f)).getD 0
      ∧ (¬ foldCase (keyLabel f) <:+: foldCase J → (scanLegacyBounds J).get f = 0)
      ∧ (∀ i, foldCase (keyLabel f) <+: foldCase (J.drop i) →
          (∀ j < i, ¬ foldCase (keyLabel f) <+: foldCase (J.drop j)) →
          (∀ c ∈ J.drop (i + (keyLabel f).length), isValueEnd c = false) →
          (scanLegacyBounds J).get f = 0) := by
  refine ⟨scanLegacyBounds_get J f, ?_, ?_⟩
  · intro habs
    rw [scanLegacyBounds_get, scanKey_absent_infix J _ habs]
    rfl
  · intro i hocc hfirst hend
    rw [scanLegacyBounds_get,
      scanKey_unterminated J (keyLabel f) i ' ' (keyLabel_getLast f) (by decide)
        ((startsWithCase_ignore_iff _ _).mpr hocc)
        (fun j hj => (startsWithCase_ignore_false_iff _ _).mpr (hfirst j hj)) hend]
    rfl

/-- Witness for C5, the example of the specification: on
`{"Bound Max X": 12.5, "Bound Min Y": -3.0}` the four absent fields are 0.0. -/
theorem C5_absent_fields_zero_witness :
    (scanLegacyBounds exampleBoundsText).BoundMaxY = 0
      ∧ (scanLegacyBounds exampleBoundsText).BoundMaxZ = 0
      ∧ (scanLegacyBounds exampleBoundsText).BoundMinX = 0
      ∧ (scanLegacyBounds exampleBoundsText).BoundMinZ = 0 :=
  ⟨(C5_absent_fields_zero exampleBoundsText .MaxY).2.1 (by decide),
   (C5_absent_fields_zero exampleBoundsText .MaxZ).2.1 (by decide),
   (C5_absent_fields_zero exampleBoundsText .MinX).2.1 (by decide),
   (C5_absent_fields_zero exampleBoundsText .MinZ).2.1 (by decide)⟩

/-- C6 (counterexample): in `{"Bound Max X": 12abc}` the label occurs and the text extracted
for it, `12abc`, is not a number, yet the scan sets `BoundMaxX` to 12, not to the 0.0 of an
absent label: the conversion takes the leading digits and ignores the rest. -/
theorem C6_malformed_value_keeps_leading_number :
    keyLabel .MaxX <+: malformedBoundsText.drop 1
      ∧ TrimStartAndEnd (valueText malformedBoundsText 1 (keyLabel .MaxX)) = "12abc".toList
      ∧ isDecimalNumber "12abc".toList = false
      ∧ (scanLegacyBounds malformedBoundsText).BoundMaxX = 12
      ∧ (scanLegacyBounds malformedBoundsText).BoundMaxX ≠ 0 := by
  decide!

/-- C6 (amended): for every text in which a label occurs (letter case ignored, followed by a
comma or closing brace) and the trimmed text extracted for it does not begin with a number
(after one optional sign: no digit, no point followed by a digit, and not the letters `inf` or
`nan` in any letter case), the scan gives the field 0.0, the same value it has for any text in
which the label is absent. -/
theorem C6_non_numeric_value_is_zero (J : List Char) (f : BoundField) (i : Nat)
    (hocc : foldCase (keyLabel f) <+: foldCase (J.drop i))
    (hfirst : ∀ j < i, ¬ foldCase (keyLabel f) <+: foldCase (J.drop j))
    (hend : ∃ c ∈ J.drop (i + (keyLabel f).length), isValueEnd c = true)
    (hnum : startsNumeric (TrimStartAndEnd (valueText J i (keyLabel f))) = false) :
    (scanLegacyBounds J).get f = 0
      ∧ ∀ J0 : List Char, ¬ foldCase (keyLabel f) <:+: foldCase J0 →
          (scanLegacyBounds J).get f = (scanLegacyBounds J0).get f := by
  have h0 : (scanLegacyBounds J).get f = 0 := by
    rw [scanLegacyBounds_get,
      scanKey_found J (keyLabel f) i ((startsWithCase_ignore_iff _ _).mpr hocc)
        (fun j hj => (startsWithCase_ignore_false_iff _ _).mpr (hfirst j hj)) hend]
    exact Atof_trim_eq_zero _ hnum
  refine ⟨h0, ?_⟩
  intro J0 habs
  rw [h0, scanLegacyBounds_get, scanKey_absent_infix J0 _ habs]
  rfl

/-- Witness for C6: in `{"Bound Max X": abc, "Bound Min Y": 4}` the value `abc` of
`BoundMaxX` gives 0.0, and so does the value `null` in `{"Bound Max X": null}`. -/
theorem C6_non_numeric_value_is_zero_witness :
    (scanLegacyBounds "\x7b\"Bound Max X\": abc, \"Bound Min Y\": 4\x7d".toList).BoundMaxX = 0
      ∧ (scanLegacyBounds "\x7b\"Bound Max X\": null\x7d".toList).BoundMaxX = 0 :=
  ⟨(C6_non_numeric_value_is_zero "\x7b\"Bound Max X\": abc, \"Bound Min Y\": 4\x7d".toList
    .MaxX 1 (by decide) (by decide) (by decide) (by decide)).1,
   (C6_non_numeric_value_is_zero "\x7b\"Bound Max X\": null\x7d".toList
    .MaxX 1 (by decide) (by decide) (by decide) (by decide)).1⟩


/-! ## Theorems: texture roles -/

/-- The role chain of the loop body in terms of containment with letter case folded. -/
theorem assignTextureRole_loaded (TextureName : List Char) :
    assignTextureRole TextureName true =
      if foldCase "pos".toList <:+: foldCase TextureName then
        [(.PositionTexture, TextureName)]
      else if foldCase "rot".toList <:+: foldCase TextureName then
        [(.RotationTexture, TextureName)]
      else if foldCase "col".toList <:+: foldCase TextureName then
        [(.ColorTexture, TextureName)]
      else if foldCase "lookup".toList <:+: foldCase TextureName then
        [(.LookupTable, TextureName)]
      else [] := by
  simp only [assignTextureRole, if_true, Contains_ignore_iff]

/-- C7 (counterexample): the base name `Rock_Col` contains none of `pos`, `rot`, `col`,
`lookup`, yet the loop body sets the Color Texture parameter for it. -/
theorem C7_token_in_other_case_gets_role :
    ¬ "pos".toList <:+: "Rock_Col".toList ∧ ¬ "rot".toList <:+: "Rock_Col".toList
      ∧ ¬ "col".toList <:+: "Rock_Col".toList ∧ ¬ "lookup".toList <:+: "Rock_Col".toList
      ∧ assignTextureRole "Rock_Col".toList true
          = [(TextureParameter.ColorTexture, "Rock_Col".toList)] := by
  decide

/-- C7 (amended): for every texture base file name of a texture that loaded, the parameter set
is Position Texture if the name contains `pos`, letter case ignored; otherwise Rotation
Texture if it so contains `rot`; otherwise Color Texture if it so contains `col`; otherwise
Lookup Table if it so contains `lookup`; otherwise none. At most one parameter is set per
texture; `creature_col_01` gets color, `creature_pos` position, `creature_unknown` none. -/
theorem C7_texture_role :
    (∀ TextureName : List Char,
      assignTextureRole TextureName true =
        (if foldCase "pos".toList <:+: foldCase TextureName then
          [(.PositionTexture, TextureName)]
        else if foldCase "rot".toList <:+: foldCase TextureName then
          [(.RotationTexture, TextureName)]
        else if foldCase "col".toList <:+: foldCase TextureName then
          [(.ColorTexture, TextureName)]
        else if foldCase "lookup".toList <:+: foldCase TextureName then
          [(.LookupTable, TextureName)]
        else []))
      ∧ (∀ (TextureName : List Char) (loaded : Bool),
          (assignTextureRole TextureName loaded).length ≤ 1)
      ∧ assignTextureRole "creature_col_01".toList true
          = [(.ColorTexture, "creature_col_01".toList)]
      ∧ assignTextureRole "creature_pos".toList true
          = [(.PositionTexture, "creature_pos".toList)]
      ∧ assignTextureRole "creature_unknown".toList true = [] := by
  refine ⟨assignTextureRole_loaded, ?_, by decide, by decide, by decide⟩
  intro TextureName loaded
  cases loaded
  · simp [assignTextureRole]
  · rw [assignTextureRole_loaded]
    split_ifs <;> simp

/-- C8 (counterexample): `Creature_POS` contains none of the four tokens in lower case and
contains `POS`, yet the loop body sets the Position Texture parameter for it. -/
theorem C8_upper_case_token_gets_role :
    ¬ "pos".toList <:+: "Creature_POS".toList ∧ ¬ "rot".toList <:+: "Creature_POS".toList
      ∧ ¬ "col".toList <:+: "Creature_POS".toList
      ∧ ¬ "lookup".toList <:+: "Creature_POS".toList
      ∧ "POS".toList <:+: "Creature_POS".toList
      ∧ assignTextureRole "Creature_POS".toList true
          = [(TextureParameter.PositionTexture, "Creature_POS".toList)] := by
  decide

/-- C8 (amended): the role match ignores letter case: two names that differ only in letter
case get the same parameter, and a loaded texture gets no parameter exactly when its name
contains none of the four tokens in any letter case. -/
theorem C8_role_match_ignores_case (n n' : List Char) (h : foldCase n = foldCase n') :
    (assignTextureRole n true).map Prod.fst = (assignTextureRole n' true).map Prod.fst
      ∧ (assignTextureRole n true = [] ↔
          ¬ foldCase "pos".toList <:+: foldCase n ∧ ¬ foldCase "rot".toList <:+: foldCase n
            ∧ ¬ foldCase "col".toList <:+: foldCase n
            ∧ ¬ foldCase "lookup".toList <:+: foldCase n) := by
  constructor
  · rw [assignTextureRole_loaded, assignTextureRole_loaded, h]
    split_ifs <;> rfl
  · rw [assignTextureRole_loaded]
    split_ifs <;> simp_all

/-- Witness for C8: `Creature_POS` and `creature_pos` get the same parameter. -/
theorem C8_role_match_ignores_case_witness :
    (assignTextureRole "Creature_POS".toList true).map Prod.fst
      = (assignTextureRole "creature_pos".toList true).map Prod.fst :=
  (C8_role_match_ignores_case "Creature_POS".toList "creature_pos".toList (by decide)).1


/-! ## Theorems: texture profiles -/

theorem toLower_toNat (c : Char) : (Char.toLower c).toNat = lowerCode c.toNat := by
  unfold Char.toLower lowerCode
  by_cases h : c.toNat ≥ 65 ∧ c.toNat ≤ 90
  · simp only [h, and_self, if_true]
    obtain ⟨h1, h2⟩ := h
    generalize c.toNat = n at h1 h2
    interval_cases n <;> rfl
  · simp only [h, if_false]

theorem lowerCode_idem (n : Nat) : lowerCode (lowerCode n) = lowerCode n := by
  unfold lowerCode
  split_ifs <;> omega

theorem foldCase_ToLower (e : List Char) : foldCase (ToLower e) = (ToLower e).map Char.toNat := by
  simp only [foldCase, ToLower, List.map_map]
  apply List.map_congr_left
  intro c _
  simp only [Function.comp, toLower_toNat, lowerCode_idem]

theorem startsWithCase_refl (sc : ESearchCase) (a : List Char) :
    startsWithCase sc a a = true := by
  induction a with
  | nil => rfl
  | cons c a ih => cases sc <;> simp [startsWithCase, charEq, ih]

/-- After lower-casing, the engine's case-blind equality with a lower-case literal is plain
equality. -/
theorem equalsIgnoreCase_ToLower (e lit : List Char)
    (hlit : foldCase lit = lit.map Char.toNat) :
    equalsIgnoreCase (ToLower e) lit = true ↔ ToLower e = lit := by
  constructor
  · intro h
    simp only [equalsIgnoreCase, Bool.and_eq_true, beq_iff_eq] at h
    obtain ⟨hlen, hpre⟩ := h
    have hp := (startsWithCase_ignore_iff _ _).mp hpre
    have hl : (foldCase lit).length = (foldCase (ToLower e)).length := by
      simp only [foldCase, List.length_map]; exact hlen.symm
    have heq := hp.eq_of_length hl
    rw [hlit, foldCase_ToLower] at heq
    have hinj : Function.Injective Char.toNat := fun a b hab => char_eq_of_toNat_eq hab
    exact (List.map_injective_iff.mpr hinj heq).symm
  · intro h
    rw [h]
    simp [equalsIgnoreCase, startsWithCase_refl]

/-- The loop body of `SetTextureParameters` for a texture with a recorded source file. -/
theorem setTextureParameters1_source (t : Texture2D) (file : List Char)
    (rest : List (List Char)) (hsrc : t.AssetImportData = some (file :: rest)) :
    setTextureParameters1 (some t) =
      some { t with settings :=
        if (ToLower (GetExtension file) = "exr".toList) then highDynamicRangeProfile
        else if (ToLower (GetExtension file) = "png".toList) then lowDynamicRangeProfile
        else t.settings } := by
  have hexr := equalsIgnoreCase_ToLower (GetExtension file) "exr".toList (by decide)
  have hpng := equalsIgnoreCase_ToLower (GetExtension file) "png".toList (by decide)
  by_cases h1 : ToLower (GetExtension file) = "exr".toList
  · have e1 := hexr.mpr h1
    simp only [setTextureParameters1, hsrc, e1, if_true]
    rw [if_pos h1]
    rfl
  · have e1 : equalsIgnoreCase (ToLower (GetExtension file)) "exr".toList = false :=
      Bool.eq_false_iff.mpr (fun h => h1 (hexr.mp h))
    by_cases h2 : ToLower (GetExtension file) = "png".toList
    · have e2 := hpng.mpr h2
      simp only [setTextureParameters1, hsrc, e1, e2, Bool.false_eq_true, if_false, if_true]
      rw [if_neg h1, if_pos h2]
      rfl
    · have e2 : equalsIgnoreCase (ToLower (GetExtension file)) "png".toList = false :=
        Bool.eq_false_iff.mpr (fun h => h2 (hpng.mp h))
      simp only [setTextureParameters1, hsrc, e1, e2, Bool.false_eq_true, if_false]
      rw [if_neg h1, if_neg h2, ← hsrc]

/-- C9: for every texture of the array that has a recorded source file, what
`SetTextureParameters` leaves in its place has the same name and import data, and its five
settings are decided by the lower-cased extension of the first source file alone: `exr` gives
the high-dynamic-range profile, `png` the low-dynamic-range profile, and any other extension
leaves the five settings as they were. -/
theorem C9_profile_by_extension (Textures : List (Option Texture2D)) (k : Nat)
    (t : Texture2D) (file : List Char) (rest : List (List Char))
    (hk : Textures[k]? = some (some t))
    (hsrc : t.AssetImportData = some (file :: rest)) :
    ∃ t', (SetTextureParameters Textures)[k]? = some (some t')
      ∧ t'.Name = t.Name ∧ t'.AssetImportData = t.AssetImportData
      ∧ (ToLower (GetExtension file) = "exr".toList → t'.settings = highDynamicRangeProfile)
      ∧ (ToLower (GetExtension file) = "png".toList → t'.settings = lowDynamicRangeProfile)
      ∧ (ToLower (GetExtension file) ≠ "exr".toList →
          ToLower (GetExtension file) ≠ "png".toList → t'.settings = t.settings) := by
  refine ⟨{ t with settings :=
        if (ToLower (GetExtension file) = "exr".toList) then highDynamicRangeProfile
        else if (ToLower (GetExtension file) = "png".toList) then lowDynamicRangeProfile
        else t.settings }, ?_, rfl, rfl, ?_, ?_, ?_⟩
  · simp only [SetTextureParameters, List.getElem?_map, hk, Option.map_some']
    rw [setTextureParameters1_source t file rest hsrc]
  · intro h
    show (if _ then _ else _) = _
    rw [if_pos h]
  · intro h
    have hne : ¬ ToLower (GetExtension file) = "exr".toList := by
      rw [h]; decide
    show (if _ then _ else _) = _
    rw [if_neg hne, if_pos h]
  · intro h1 h2
    show (if _ then _ else _) = _
    rw [if_neg h1, if_neg h2]

/-- Witness for C9, the examples of the specification: `creature_unknown.png`, whose name
holds no role token, gets the low-dynamic-range profile and `creature_pos.exr` the
high-dynamic-range one. -/
theorem C9_profile_by_extension_witness :
    (∃ t', (SetTextureParameters
        [some ⟨"creature_unknown".toList, importedSettings,
            some ["creature_unknown.png".toList]⟩,
         some ⟨"creature_pos".toList, importedSettings,
            some ["creature_pos.exr".toList]⟩])[0]? = some (some t')
      ∧ t'.settings = lowDynamicRangeProfile)
    ∧ (∃ t', (SetTextureParameters
        [some ⟨"creature_unknown".toList, importedSettings,
            some ["creature_unknown.png".toList]⟩,
         some ⟨"creature_pos".toList, importedSettings,
            some ["creature_pos.exr".toList]⟩])[1]? = some (some t')
      ∧ t'.settings = highDynamicRangeProfile) := by
  constructor
  · obtain ⟨a, ha, _, _, _, hpng, _⟩ :=
      C9_profile_by_extension
        [some ⟨"creature_unknown".toList, importedSettings,
            some ["creature_unknown.png".toList]⟩,
         some ⟨"creature_pos".toList, importedSettings,
            some ["creature_pos.exr".toList]⟩]
        0 _ "creature_unknown.png".toList [] rfl rfl
    exact ⟨a, ha, hpng (by decide)⟩
  · obtain ⟨b, hb, _, _, hexr, _, _⟩ :=
      C9_profile_by_extension
        [some ⟨"creature_unknown".toList, importedSettings,
            some ["creature_unknown.png".toList]⟩,
         some ⟨"creature_pos".toList, importedSettings,
            some ["creature_pos.exr".toList]⟩]
        1 _ "creature_pos.exr".toList [] rfl rfl
    exact ⟨b, hb, hexr (by decide)⟩

/-! ## Theorems: cancellation of the mesh import -/

/-- C10: if the mesh import is canceled, because the FBX options dialog is declined or because
`bCanceled` is set when `ImportObject` returns, one click on "Create New VAT" imports no
texture, calls none of `CreateVatMaterial`, `CreateVatMaterialInstance` and
`CreateVatBlueprint`, and saves no package; `ImportFiles` ends with `bCanceled` set. -/
theorem C10_cancel_skips_all_later_work (env : ImportEnv) (props : VatProperties)
    (windowValid : Bool)
    (hcancel : env.fbxOptionsAccepted = false ∨ env.fbxImportCanceled = true) :
    (ImportFiles env props).1 = true
      ∧ ∀ a ∈ OnClicked env props windowValid, a.isImportOrCreation = false := by
  have hfbx : (ImportFbx env props.VatFbxFilePath).1 = true := by
    rcases hcancel with h | h
    · simp [ImportFbx, h]
    · cases ho : env.fbxOptionsAccepted <;> simp [ImportFbx, ho, h]
  have himp : ImportFiles env props = (true, (ImportFbx env props.VatFbxFilePath).2) := by
    simp [ImportFiles, hfbx]
  refine ⟨by rw [himp], ?_⟩
  intro a ha
  simp only [OnClicked, himp, if_true] at ha
  rcases List.mem_append.mp ha with h | h
  · cases ho : env.fbxOptionsAccepted <;>
      simp only [ImportFbx, ho, Bool.not_false, Bool.not_true, if_true, Bool.false_eq_true,
        if_false, List.mem_cons, List.mem_singleton, List.not_mem_nil, or_false] at h
    · subst h; rfl
    · rcases h with h | h <;> subst h <;> rfl
  · cases windowValid <;> simp at h
    subst h; rfl

/-- Witness for C10: the options dialog is declined; the click only shows the dialog and
closes the window. -/
theorem C10_cancel_skips_all_later_work_witness :
    OnClicked ⟨false, false, true, fun _ => none⟩
        ⟨"mesh.fbx".toList, ["a_pos.exr".toList], "/Game".toList, true, [], .VatType1⟩ true
      = [.ConfigureFbxProperties, .RequestDestroyWindow]
    ∧ ∀ a ∈ OnClicked ⟨false, false, true, fun _ => none⟩
        ⟨"mesh.fbx".toList, ["a_pos.exr".toList], "/Game".toList, true, [], .VatType1⟩ true,
        a.isImportOrCreation = false :=
  ⟨by decide,
   (C10_cancel_skips_all_later_work ⟨false, false, true, fun _ => none⟩
      ⟨"mesh.fbx".toList, ["a_pos.exr".toList], "/Game".toList, true, [], .VatType1⟩ true
      (Or.inl rfl)).2⟩


/-! ## Theorems: the wiring tables compared -/

/-- C19 (counterexample): with every guard passed (24 outputs), all four variants, not exactly
three of them, begin with `BaseColor <- 0`, `Normal <- 3`, `WorldPositionOffset <- 4`. -/
theorem C19_all_four_share_first_three :
    (allVatTypes.filter
        (fun t => (connectOutputs t 24).take 3 = sharedConnections)).length = 4
      ∧ (allVatTypes.filter
        (fun t => (connectOutputs t 24).take 3 = sharedConnections)).length ≠ 3 := by
  decide

/-- C19 (amended): whenever every guard passes (at least 24 outputs), the connection lists of
two different variants are different, each of the four variants begins with the same three
connections `BaseColor <- 0`, `Normal <- 3`, `WorldPositionOffset <- 4`, and two different
variants differ after those three. -/
theorem C19_tables_differ_after_shared_start (n : Nat) (hn : 24 ≤ n) :
    (∀ t t' : EVatType, t ≠ t' → connectOutputs t n ≠ connectOutputs t' n)
      ∧ (∀ t : EVatType, (connectOutputs t n).take 3 = sharedConnections)
      ∧ (∀ t t' : EVatType, t ≠ t' →
          (connectOutputs t n).drop 3 ≠ (connectOutputs t' n).drop 3) := by
  have h0 : n > 0 := by omega
  have h4 : n ≥ 4 := by omega
  have h5 : n ≥ 5 := by omega
  have h19 : n ≥ 19 := by omega
  have h20 : n ≥ 20 := by omega
  have h21 : n ≥ 21 := by omega
  have h22 : n ≥ 22 := by omega
  have h23 : n ≥ 23 := by omega
  have h24 : n ≥ 24 := by omega
  have htab : ∀ t : EVatType, connectOutputs t n = wiringTable t := by
    intro t
    cases t <;>
      simp [connectOutputs, connectIf, wiringTable, h0, h4, h5, h19, h20, h21, h22, h23, h24]
  refine ⟨?_, ?_, ?_⟩
  · intro t t' hne
    rw [htab, htab]
    revert hne
    cases t <;> cases t' <;> decide
  · intro t
    rw [htab]
    cases t <;> decide
  · intro t t' hne
    rw [htab, htab]
    revert hne
    cases t <;> cases t' <;> decide

/-- Witness for C19 at 24 outputs: Soft and Sprite differ although Sprite's list is the
beginning of Soft's. -/
theorem C19_tables_differ_after_shared_start_witness :
    connectOutputs .VatType1 24 ≠ connectOutputs .VatType4 24 :=
  (C19_tables_differ_after_shared_start 24 (by decide)).1 .VatType1 .VatType4 (by decide)

/-- C20: the logged switch makes the same `Connect` calls as the switch itself, and for the
Soft variant the connection of `CustomizedUVs[2]` passes 19 to `Connect` while its success
message names output index 20; so for at least one variant a message names another index than
the one connected. -/
theorem C20_log_names_other_index :
    (∀ (t : EVatType) (n : Nat),
        (connectOutputsLogged t n).map (fun c => (c.input, c.pin)) = connectOutputs t n)
      ∧ (⟨.CustomizedUVs 2, 19, 20⟩ : LoggedConnection) ∈ connectOutputsLogged .VatType1 24
      ∧ ∃ (t : EVatType) (n : Nat), ∃ c ∈ connectOutputsLogged t n, c.logged ≠ c.pin := by
  refine ⟨?_, by decide, ⟨.VatType1, 24, ⟨.CustomizedUVs 2, 19, 20⟩, by decide, by decide⟩⟩
  intro t n
  cases t <;>
    simp only [connectOutputsLogged, connectOutputs, connectLogIf, connectIf] <;>
    split_ifs <;> rfl


/-! ## Theorems: the texture loop of `ImportFiles` -/

theorem importTextures_textures (env : ImportEnv) (paths : List (List Char)) :
    (importTextures env paths).1 =
      paths.filterMap (fun p => env.loadTexture (GetBaseFilename p)) := by
  induction paths with
  | nil => rfl
  | cons p rest ih =>
    cases h : env.loadTexture (GetBaseFilename p) <;>
      simp [importTextures, List.filterMap_cons, h, ih]

theorem importTextures_paths (env : ImportEnv) (paths : List (List Char)) :
    importedTexturePaths (importTextures env paths).2 = paths
      ∧ classifiedTextures (importTextures env paths).2 = []
      ∧ savedTextures (importTextures env paths).2 = [] := by
  induction paths with
  | nil => exact ⟨rfl, rfl, rfl⟩
  | cons p rest ih =>
    obtain ⟨h1, h2, h3⟩ := ih
    simp only [importedTexturePaths, classifiedTextures, savedTextures] at h1 h2 h3 ⊢
    cases h : env.loadTexture (GetBaseFilename p) <;>
      simp [importTextures, List.filterMap_cons, h, h1, h2, h3]

/-- C12: for every list of texture paths, when the mesh import succeeded (dialog accepted, not
canceled, mesh loaded), `ImportFiles` calls `ImportTexture` for every path of the list, in
order, whatever loaded before; it hands to `SetTextureParameters`, once, exactly the textures
that loaded, in list order, and saves exactly those; and `bCanceled` stays false. -/
theorem C12_loaded_textures_only (env : ImportEnv) (props : VatProperties)
    (hdlg : env.fbxOptionsAccepted = true) (hnc : env.fbxImportCanceled = false)
    (hmesh : env.staticMeshLoaded = true) :
    (ImportFiles env props).1 = false
      ∧ importedTexturePaths (ImportFiles env props).2 = props.VatTextureFilePath
      ∧ classifiedTextures (ImportFiles env props).2 =
          [(props.VatTextureFilePath.filterMap
              (fun p => env.loadTexture (GetBaseFilename p))).map some]
      ∧ savedTextures (ImportFiles env props).2 =
          [props.VatTextureFilePath.filterMap
              (fun p => env.loadTexture (GetBaseFilename p))] := by
  obtain ⟨h1, h2, h3⟩ := importTextures_paths env props.VatTextureFilePath
  have ht := importTextures_textures env props.VatTextureFilePath
  simp only [importedTexturePaths, classifiedTextures, savedTextures] at h1 h2 h3 ⊢
  refine ⟨?_, ?_, ?_, ?_⟩
  · simp [ImportFiles, ImportFbx, hdlg, hnc, hmesh]
  · by_cases h3t : props.VatType = .VatType3 <;>
      simp [ImportFiles, ImportFbx, hdlg, hnc, hmesh, h3t, List.filterMap_append, h1]
  · by_cases h3t : props.VatType = .VatType3 <;>
      simp [ImportFiles, ImportFbx, hdlg, hnc, hmesh, h3t, List.filterMap_append, h2, ht]
  · by_cases h3t : props.VatType = .VatType3 <;>
      simp [ImportFiles, ImportFbx, hdlg, hnc, hmesh, h3t, List.filterMap_append, h3, ht]


/-- Witness for C12: of two textures the first does not load; the second is still imported,
classified and saved, and the flag stays false. -/
theorem C12_loaded_textures_only_witness :
    (ImportFiles ⟨true, false, true, fun n =>
        if n = "b_col".toList then
          some ⟨n, importedSettings, some ["b_col.png".toList]⟩ else none⟩
        sampleProperties).1 = false
      ∧ classifiedTextures (ImportFiles ⟨true, false, true, fun n =>
          if n = "b_col".toList then
            some ⟨n, importedSettings, some ["b_col.png".toList]⟩ else none⟩
          sampleProperties).2
        = [[some ⟨"b_col".toList, importedSettings, some ["b_col.png".toList]⟩]] := by
  have h := C12_loaded_textures_only ⟨true, false, true, fun n =>
      if n = "b_col".toList then
        some ⟨n, importedSettings, some ["b_col.png".toList]⟩ else none⟩
    sampleProperties rfl rfl rfl
  refine ⟨h.1, ?_⟩
  rw [h.2.2.1]
  decide

/-! ## Theorems: asset names -/

/-- C13 (evaluation at the failing input): for the created material name `M_ARM_Left`, which
starts with `M_` and is stored unchanged, the material instance is named `MI_ARMI_Left` and the
blueprint `BP_ARBP_Left`, not `MI_ARM_Left` and `BP_ARM_Left`: `Replace` also rewrites the
`M_` inside `ARM_Left`. For `M_HoudiniVAT`, which holds `M_` once, the names are
`MI_HoudiniVAT` and `BP_HoudiniVAT`. -/
theorem C13_replace_rewrites_inner_occurrence :
    createdMaterialName "M_ARM_Left".toList = "M_ARM_Left".toList
      ∧ materialInstanceName "M_ARM_Left".toList = "MI_ARMI_Left".toList
      ∧ blueprintName "M_ARM_Left".toList = "BP_ARBP_Left".toList
      ∧ materialInstanceName "M_ARM_Left".toList ≠ "MI_ARM_Left".toList
      ∧ blueprintName "M_ARM_Left".toList ≠ "BP_ARM_Left".toList
      ∧ materialInstanceName "M_HoudiniVAT".toList = "MI_HoudiniVAT".toList
      ∧ blueprintName "M_HoudiniVAT".toList = "BP_HoudiniVAT".toList := by
  decide

/-! ## Theorems: failures in the creation stages -/

/-- C11 (counterexample): the material factory returns nothing, but a material loads from the
package path of `M_HoudiniVAT`; the click handler still calls `CreateVatMaterialInstance` and
`CreateVatBlueprint`, and they create and save `MI_HoudiniVAT` and `BP_HoudiniVAT`. -/
theorem C11_later_stages_run_after_failed_material :
    staleMaterialEnv.material.materialCreated = false
      ∧ materialStage staleMaterialEnv (createdMaterialName sampleProperties.VatMaterialName)
          = [.CreatePackage "M_HoudiniVAT".toList]
      ∧ Action.CreateVatMaterialInstance ∈
          OnClicked ⟨true, false, true, fun _ => none⟩ sampleProperties true
      ∧ AssetEffect.Create .MaterialInstance "MI_HoudiniVAT".toList ∈
          laterStages staleMaterialEnv sampleProperties
      ∧ AssetEffect.Save .MaterialInstance "MI_HoudiniVAT".toList ∈
          laterStages staleMaterialEnv sampleProperties
      ∧ AssetEffect.Save .Blueprint "BP_HoudiniVAT".toList ∈
          laterStages staleMaterialEnv sampleProperties := by
  decide

/-- C11 (amended): whatever the outcome of the material creation, a click whose mesh import is
not canceled calls `CreateVatMaterialInstance` (and `CreateVatBlueprint` when requested); each
of the two first loads the created material from its package path, and when that load fails
neither of them creates a package, creates, writes or saves an asset: the later stages have no
effect at all. -/
theorem C11_later_stages_gated_by_load (env : ImportEnv) (stages : StageEnv)
    (props : VatProperties) (windowValid : Bool)
    (hrun : (ImportFiles env props).1 = false)
    (hload : stages.createdMaterialLoaded = false) :
    Action.CreateVatMaterialInstance ∈ OnClicked env props windowValid
      ∧ (props.bCreateVatBlueprint = true →
          Action.CreateVatBlueprint ∈ OnClicked env props windowValid)
      ∧ materialInstanceStage stages (createdMaterialName props.VatMaterialName) = []
      ∧ blueprintStage stages (createdMaterialName props.VatMaterialName) = []
      ∧ laterStages stages props = [] := by
  have h1 : materialInstanceStage stages (createdMaterialName props.VatMaterialName) = [] := by
    simp [materialInstanceStage, hload]
  have h2 : blueprintStage stages (createdMaterialName props.VatMaterialName) = [] := by
    simp [blueprintStage, hload]
  refine ⟨?_, ?_, h1, h2, ?_⟩
  · simp [OnClicked, hrun]
  · intro hb
    simp [OnClicked, hrun, hb]
  · simp only [laterStages, h1, h2, thenStage]
    cases props.bCreateVatBlueprint <;> simp

/-- Witness for C11: the material factory returns nothing and no material loads; the two
later stages are called and do nothing. -/
theorem C11_later_stages_gated_by_load_witness :
    Action.CreateVatMaterialInstance ∈
        OnClicked ⟨true, false, true, fun _ => none⟩ sampleProperties true
      ∧ laterStages ⟨⟨false, false, false, 0⟩, false, true, true, true⟩ sampleProperties = [] :=
  ⟨(C11_later_stages_gated_by_load ⟨true, false, true, fun _ => none⟩
      ⟨⟨false, false, false, 0⟩, false, true, true, true⟩ sampleProperties true rfl rfl).1,
   (C11_later_stages_gated_by_load ⟨true, false, true, fun _ => none⟩
      ⟨⟨false, false, false, 0⟩, false, true, true, true⟩ sampleProperties true rfl
      rfl).2.2.2.2⟩


/-! ## Lemmas: the mesh component and the loops of the actor -/

theorem SetMaterial_getD (m : MeshComponent) (i j : Nat) (x : Option MaterialRef) :
    (m.SetMaterial i x).OverrideMaterials.getD j none =
      if j = i then x else m.OverrideMaterials.getD j none := by
  simp only [MeshComponent.SetMaterial, List.getD_eq_getElem?_getD, List.getElem?_set,
    List.length_append, List.length_replicate]
  by_cases hji : j = i
  · subst hji
    have hlt : j < m.OverrideMaterials.length + (j + 1 - m.OverrideMaterials.length) := by omega
    simp [hlt]
  · have hij : ¬ i = j := fun h => hji h.symm
    simp only [hij, if_false, hji]
    by_cases hj : j < m.OverrideMaterials.length
    · rw [List.getElem?_append_left hj]
    · rw [List.getElem?_append_right (by omega)]
      rw [List.getElem?_eq_none (by omega : m.OverrideMaterials.length ≤ j)]
      cases h : (List.replicate (i + 1 - m.OverrideMaterials.length)
          (none : Option MaterialRef))[j - m.OverrideMaterials.length]? with
      | none => rfl
      | some v =>
        have := List.getElem?_replicate.symm.trans h
        split at this
        · simp at this; subst this; rfl
        · simp at this

theorem SetMaterial_static (m : MeshComponent) (i : Nat) (x : Option MaterialRef) :
    (m.SetMaterial i x).StaticMaterials = m.StaticMaterials := rfl

/-- After the loop of `ApplyMaterials` started at index `i`, the override of a slot covered by
the loop is the list entry for it, and every other override is as before. -/
theorem applyLoop_getD (Ms : List (Option MaterialRef)) (m : MeshComponent) (i j : Nat) :
    (applyLoop m Ms i).OverrideMaterials.getD j none =
      if i ≤ j ∧ j < i + Ms.length then Ms.getD (j - i) none
      else m.OverrideMaterials.getD j none := by
  induction Ms generalizing m i with
  | nil =>
    have h : ¬ (i ≤ j ∧ j < i + 0) := by omega
    simp only [applyLoop, List.length_nil, h, if_false]
  | cons x rest ih =>
    simp only [applyLoop, ih, SetMaterial_getD, List.length_cons]
    by_cases h1 : i + 1 ≤ j ∧ j < i + 1 + rest.length
    · have h2 : i ≤ j ∧ j < i + (rest.length + 1) := by omega
      have h3 : j - i = (j - (i + 1)) + 1 := by omega
      simp only [h1, and_self, if_true, h2, h3, List.getD_cons_succ]
    · by_cases hji : j = i
      · subst hji
        have h2 : j ≤ j ∧ j < j + (rest.length + 1) := by omega
        simp [h1, h2]
      · have h2 : ¬ (i ≤ j ∧ j < i + (rest.length + 1)) := by omega
        simp only [h1, if_false, hji, h2]

theorem applyLoop_static (Ms : List (Option MaterialRef)) (m : MeshComponent) (i : Nat) :
    (applyLoop m Ms i).StaticMaterials = m.StaticMaterials := by
  induction Ms generalizing m i with
  | nil => rfl
  | cons x rest ih => simp only [applyLoop, ih, SetMaterial_static]

/-- With `bPlay` off, the loop of `TriggerVatPlayback` creates one unstamped instance per
entry and leaves the mesh component alone. -/
theorem triggerLoop_latched (t : ℚ) (L : List (Option MaterialRef)) (i : Nat)
    (mesh : Option MeshComponent) (dyn : List DynamicInstance) :
    triggerLoop false t L i mesh dyn =
      some (mesh, dyn ++ L.map (fun p => ⟨p, none, none⟩)) := by
  induction L generalizing i dyn with
  | nil => simp [triggerLoop]
  | cons p rest ih => simp [triggerLoop, ih]

/-- With `bPlay` on and a mesh component, the loop of `TriggerVatPlayback` creates one stamped
instance per entry and puts them into the slots from `i` on. -/
theorem triggerLoop_armed (t : ℚ) (L : List (Option MaterialRef)) (i : Nat)
    (m : MeshComponent) (dyn : List DynamicInstance) :
    triggerLoop true t L i (some m) dyn =
      some (some (applyLoop m (freshRefs dyn.length L.length) i),
        dyn ++ L.map (fun p => ⟨p, some t, none⟩)) := by
  induction L generalizing i m dyn with
  | nil => simp [triggerLoop, freshRefs, applyLoop]
  | cons p rest ih =>
    simp only [triggerLoop, if_true, ih, List.length_append, List.length_singleton,
      List.length_cons, List.length_nil, Nat.zero_add, freshRefs, applyLoop, List.map_cons,
      List.append_assoc, List.singleton_append]


/-- What `TriggerVatPlayback` leaves alone and what it sets besides materials. -/
theorem TriggerVatPlayback_fields (a a' : VatActor) (now : ℚ)
    (h : TriggerVatPlayback a now = some a') :
    a'.StartSeconds = a.StartSeconds ∧ a'.triggerCalls = a.triggerCalls + 1
      ∧ a'.bTriggerOnce = a.bTriggerOnce
      ∧ a'.bPlay = (if a.bTriggerOnce then false else a.bPlay)
      ∧ a'.Vat_MaterialInstances = a.Vat_MaterialInstances
      ∧ a'.Original_MaterialInstances = a.Original_MaterialInstances := by
  unfold TriggerVatPlayback at h
  split at h
  · simp at h
  · simp only [Option.some.injEq] at h
    subst h
    exact ⟨rfl, rfl, rfl, rfl, rfl, rfl⟩

/-- The call with `bPlay` off. -/
theorem TriggerVatPlayback_latched (a : VatActor) (now : ℚ) (h : a.bPlay = false) :
    TriggerVatPlayback a now =
      some { a with
        dynamics := a.dynamics ++ a.Vat_MaterialInstances.map (fun p => ⟨p, none, none⟩)
        bPlay := if a.bTriggerOnce then false else a.bPlay
        triggerCalls := a.triggerCalls + 1 } := by
  unfold TriggerVatPlayback
  rw [h, triggerLoop_latched]

/-- The call with `bPlay` on and a mesh component. -/
theorem TriggerVatPlayback_armed (a : VatActor) (m : MeshComponent) (now : ℚ)
    (hmesh : a.Vat_StaticMesh = some m) (h : a.bPlay = true) :
    TriggerVatPlayback a now =
      some { a with
        Vat_StaticMesh :=
          some (applyLoop m (freshRefs a.dynamics.length a.Vat_MaterialInstances.length) 0)
        dynamics := a.dynamics ++
          a.Vat_MaterialInstances.map
            (fun p => ⟨p, some (GameTimeInSeconds now a.StartSeconds), none⟩)
        bPlay := if a.bTriggerOnce then false else a.bPlay
        triggerCalls := a.triggerCalls + 1 } := by
  unfold TriggerVatPlayback
  rw [h, hmesh, triggerLoop_armed]

/-- With a mesh component, `TriggerVatPlayback` returns. -/
theorem TriggerVatPlayback_mesh (a : VatActor) (m : MeshComponent) (now : ℚ)
    (hmesh : a.Vat_StaticMesh = some m) :
    ∃ a', TriggerVatPlayback a now = some a' := by
  unfold TriggerVatPlayback
  cases hp : a.bPlay
  · rw [hmesh, triggerLoop_latched]; exact ⟨_, rfl⟩
  · rw [hmesh, triggerLoop_armed]; exact ⟨_, rfl⟩

/-! ## Theorems: playback -/

/-- C14 (counterexample): with trigger-once on, the second of two calls of
`TriggerVatPlayback` creates a dynamic material instance again: one instance exists after the
first call, two after the second. -/
theorem C14_second_trigger_creates_instance :
    sampleActor.bTriggerOnce = true
      ∧ (TriggerVatPlayback sampleActor 5).map (fun a => a.dynamics.length) = some 1
      ∧ ((TriggerVatPlayback sampleActor 5).bind (fun a => TriggerVatPlayback a 6)).map
          (fun a => a.dynamics.length) = some 2 := by
  decide!

/-- C14 (amended): with trigger-once on, after one `TriggerVatPlayback` a second one with no
`ResetVatPlayback` in between returns and leaves the mesh component as it was (no slot is
reassigned) and every existing dynamic material instance as it was (no parameter is stamped);
the instances it still creates, one per entry of `Vat_MaterialInstances`, are put into no slot
and get no `Game Time at First Frame`. -/
theorem C14_second_trigger_changes_no_slot (a a1 : VatActor) (now1 now2 : ℚ)
    (honce : a.bTriggerOnce = true) (h1 : TriggerVatPlayback a now1 = some a1) :
    ∃ a2, TriggerVatPlayback a1 now2 = some a2
      ∧ a2.Vat_StaticMesh = a1.Vat_StaticMesh
      ∧ a2.dynamics = a1.dynamics ++ a1.Vat_MaterialInstances.map (fun p => ⟨p, none, none⟩)
      ∧ a2.bPlay = false := by
  obtain ⟨_, _, honce1, hplay1, _, _⟩ := TriggerVatPlayback_fields a a1 now1 h1
  rw [honce] at honce1 hplay1
  simp only [if_true] at hplay1
  refine ⟨_, TriggerVatPlayback_latched a1 now2 hplay1, rfl, rfl, ?_⟩
  simp [honce1]

/-- Witness for C14: the sample actor, triggered at time 5 and again at time 6; the slot keeps
the instance of the first call, stamped once. -/
theorem C14_second_trigger_changes_no_slot_witness :
    ∃ a1 a2, TriggerVatPlayback sampleActor 5 = some a1
      ∧ TriggerVatPlayback a1 6 = some a2
      ∧ a2.Vat_StaticMesh = a1.Vat_StaticMesh := by
  obtain ⟨a1, h1⟩ := TriggerVatPlayback_mesh sampleActor _ 5 rfl
  obtain ⟨a2, h2, hm, _, _⟩ :=
    C14_second_trigger_changes_no_slot sampleActor a1 5 6 rfl h1
  exact ⟨a1, a2, h1, h2, hm⟩

theorem resetSlot_cases (m : MeshComponent) (dyn : List DynamicInstance) (i d : Nat)
    (x' : DynamicInstance) (h : (resetSlot m dyn i)[d]? = some x') :
    x'.GameTimeAtFirstFrame = some 0 ∨ dyn[d]? = some x' := by
  unfold resetSlot at h
  split at h
  · rename_i d0 _
    split at h
    · rename_i x hx
      rw [List.getElem?_set] at h
      split at h
      · split at h
        · simp only [Option.some.injEq] at h
          subst h
          left; rfl
        · simp at h
      · right; exact h
    · right; exact h
  · right; exact h

theorem resetSlot_hits (m : MeshComponent) (dyn : List DynamicInstance) (i d : Nat)
    (x' : DynamicInstance) (hslot : m.GetMaterial i = some (.Dynamic d))
    (h : (resetSlot m dyn i)[d]? = some x') : x'.GameTimeAtFirstFrame = some 0 := by
  unfold resetSlot at h
  rw [hslot] at h
  simp only at h
  split at h
  · rename_i x hx
    rw [List.getElem?_set] at h
    simp only [if_true] at h
    split at h
    · simp only [Option.some.injEq] at h
      subst h
      rfl
    · simp at h
  · rename_i hnone
    rw [hnone] at h
    simp at h

/-- After the loop of `ResetVatPlayback` over the slots below `n`, every dynamic instance held
by one of these slots has `Game Time at First Frame` zero. -/
theorem resetLoop_zero (m : MeshComponent) (dyn : List DynamicInstance) (n : Nat) :
    ∀ (d : Nat) (x' : DynamicInstance),
      ((List.range n).foldl (resetSlot m) dyn)[d]? = some x' →
      (x'.GameTimeAtFirstFrame = some 0 ∨ dyn[d]? = some x')
        ∧ ((∃ i < n, m.GetMaterial i = some (.Dynamic d)) →
            x'.GameTimeAtFirstFrame = some 0) := by
  induction n with
  | zero =>
    intro d x' h
    simp only [List.range_zero, List.foldl_nil] at h
    exact ⟨Or.inr h, fun ⟨i, hi, _⟩ => absurd hi (Nat.not_lt_zero i)⟩
  | succ n ih =>
    intro d x' h
    rw [List.range_succ, List.foldl_append] at h
    simp only [List.foldl_cons, List.foldl_nil] at h
    rcases resetSlot_cases m _ n d x' h with hz | hprev
    · exact ⟨Or.inl hz, fun _ => hz⟩
    · obtain ⟨h1, h2⟩ := ih d x' hprev
      refine ⟨h1, ?_⟩
      rintro ⟨i, hi, hslot⟩
      by_cases hin : i = n
      · subst hin
        exact resetSlot_hits m _ i d x' hslot h
      · exact h2 ⟨i, by omega, hslot⟩

/-- `TriggerVatPlayback` keeps the mesh component and the materials of its static mesh. -/
theorem TriggerVatPlayback_keeps_mesh (a aT : VatActor) (m : MeshComponent) (now : ℚ)
    (hmesh : a.Vat_StaticMesh = some m) (hT : TriggerVatPlayback a now = some aT) :
    ∃ mT, aT.Vat_StaticMesh = some mT ∧ mT.StaticMaterials = m.StaticMaterials := by
  cases hp : a.bPlay
  · rw [TriggerVatPlayback_latched a now hp] at hT
    simp only [Option.some.injEq] at hT
    subst hT
    exact ⟨m, hmesh, rfl⟩
  · rw [TriggerVatPlayback_armed a m now hmesh hp] at hT
    simp only [Option.some.injEq] at hT
    subst hT
    exact ⟨_, rfl, applyLoop_static _ _ _⟩

/-- C15 (counterexample): the sample actor has no original materials and does not trigger on
begin play. After `BeginPlay` its slot 0 holds the world-grid material; after
`TriggerVatPlayback` and `ResetVatPlayback` it holds the dynamic instance of the trigger, not
the material it held before the trigger. -/
theorem C15_reset_keeps_dynamic_instance :
    (BeginPlay sampleActor 2 (some (.Asset 7))).bind
        (fun a => a.Vat_StaticMesh.map (fun m => m.GetMaterial 0))
      = some (some (.Asset 7))
    ∧ (((BeginPlay sampleActor 2 (some (.Asset 7))).bind
          (fun a => TriggerVatPlayback a 5)).map ResetVatPlayback).bind
        (fun a => a.Vat_StaticMesh.map (fun m => m.GetMaterial 0))
      = some (some (.Dynamic 0)) := by
  decide!

/-- C15 (amended): for every actor with its mesh component, `TriggerVatPlayback` followed by
`ResetVatPlayback` leaves every slot below the length of `Original_MaterialInstances` with the
entry of `Original_MaterialInstances` as its override, so such a slot holds what it held
immediately before the trigger whenever it then had its original material as override; every
dynamic instance that a slot of the mesh holds afterwards has `Game Time at First Frame` zero;
and `bPlay` is set again. -/
theorem C15_reset_reapplies_originals (a aT : VatActor) (m : MeshComponent) (now : ℚ)
    (hmesh : a.Vat_StaticMesh = some m) (hT : TriggerVatPlayback a now = some aT) :
    ∃ mR, (ResetVatPlayback aT).Vat_StaticMesh = some mR
      ∧ (∀ i < a.Original_MaterialInstances.length,
          mR.OverrideMaterials.getD i none = a.Original_MaterialInstances.getD i none)
      ∧ (∀ i < a.Original_MaterialInstances.length,
          m.OverrideMaterials.getD i none = a.Original_MaterialInstances.getD i none →
          mR.GetMaterial i = m.GetMaterial i)
      ∧ (∀ i < mR.GetNumMaterials, ∀ (d : Nat) (x : DynamicInstance),
          mR.GetMaterial i = some (.Dynamic d) →
          (ResetVatPlayback aT).dynamics[d]? = some x → x.GameTimeAtFirstFrame = some 0)
      ∧ (ResetVatPlayback aT).bPlay = true := by
  obtain ⟨mT, hmT, hstat⟩ := TriggerVatPlayback_keeps_mesh a aT m now hmesh hT
  have horig : aT.Original_MaterialInstances = a.Original_MaterialInstances :=
    (TriggerVatPlayback_fields a aT now hT).2.2.2.2.2
  have hover : ∀ i < a.Original_MaterialInstances.length,
      (applyLoop mT a.Original_MaterialInstances 0).OverrideMaterials.getD i none =
        a.Original_MaterialInstances.getD i none := by
    intro i hi
    rw [applyLoop_getD]
    have hc : 0 ≤ i ∧ i < 0 + a.Original_MaterialInstances.length := by omega
    rw [if_pos hc, Nat.sub_zero]
  refine ⟨applyLoop mT a.Original_MaterialInstances 0, ?_, hover, ?_, ?_, ?_⟩
  · simp only [ResetVatPlayback, hmT, horig]
  · intro i hi hidle
    simp only [MeshComponent.GetMaterial, hover i hi, hidle, applyLoop_static, hstat]
  · intro i hi d x hslot hx
    have hdyn : (ResetVatPlayback aT).dynamics =
        (List.range (applyLoop mT a.Original_MaterialInstances 0).GetNumMaterials).foldl
          (resetSlot (applyLoop mT a.Original_MaterialInstances 0)) aT.dynamics := by
      simp only [ResetVatPlayback, hmT, horig]
    rw [hdyn] at hx
    exact (resetLoop_zero _ _ _ d x hx).2 ⟨i, hi, hslot⟩
  · simp only [ResetVatPlayback, hmT]

/-- Witness for C15: an actor whose slot 0 shows its original material `Asset 3`; after
trigger and reset the slot shows it again. -/
theorem C15_reset_reapplies_originals_witness :
    ∃ aT mR, TriggerVatPlayback
        { sampleActor with
          Vat_StaticMesh := some ⟨[some (.Asset 3)], [some (.Asset 9)]⟩
          Original_MaterialInstances := [some (.Asset 3)] } 5 = some aT
      ∧ (ResetVatPlayback aT).Vat_StaticMesh = some mR
      ∧ mR.GetMaterial 0 = some (.Asset 3) := by
  obtain ⟨aT, hT⟩ := TriggerVatPlayback_mesh
    { sampleActor with
      Vat_StaticMesh := some ⟨[some (.Asset 3)], [some (.Asset 9)]⟩
      Original_MaterialInstances := [some (.Asset 3)] }
    ⟨[some (.Asset 3)], [some (.Asset 9)]⟩ 5 rfl
  obtain ⟨mR, hR, _, hidle, _, _⟩ :=
    C15_reset_reapplies_originals _ aT ⟨[some (.Asset 3)], [some (.Asset 9)]⟩ 5 rfl hT
  exact ⟨aT, mR, hT, hR, hidle 0 (by decide) rfl⟩


/-! ## Theorems: the trigger sources -/

/-- The loop over listed objects that are all non-null: a match anywhere decides for
`!bExclude`; without a match a non-empty list decides for `bExclude`. -/
theorem filterLoop_named (OtherName : List Char) (bExclude : Bool)
    (Objects : List (Option (List Char))) (b0 : Bool)
    (hall : ∀ o ∈ Objects, o ≠ none) :
    ((∃ name, some name ∈ Objects ∧ foldCase name <:+: foldCase OtherName) →
        filterLoop OtherName bExclude Objects b0 = !bExclude)
      ∧ ((¬ ∃ name, some name ∈ Objects ∧ foldCase name <:+: foldCase OtherName) →
        filterLoop OtherName bExclude Objects b0 =
          if Objects.isEmpty then b0 else bExclude) := by
  induction Objects generalizing b0 with
  | nil =>
    refine ⟨?_, fun _ => by simp [filterLoop]⟩
    rintro ⟨n, hn, _⟩
    simp at hn
  | cons o rest ih =>
    cases o with
    | none => exact absurd rfl (hall none (by simp))
    | some name =>
      have hrest : ∀ o ∈ rest, o ≠ none := fun o ho => hall o (by simp [ho])
      obtain ⟨ih1, ih2⟩ := ih bExclude hrest
      by_cases hc : Contains OtherName name .IgnoreCase = true
      · refine ⟨fun _ => by simp only [filterLoop, hc, if_true], fun hno => ?_⟩
        exact absurd ⟨name, by simp, (Contains_ignore_iff _ _).mp hc⟩ hno
      · have hc' : Contains OtherName name .IgnoreCase = false := Bool.eq_false_iff.mpr hc
        have hni : ¬ foldCase name <:+: foldCase OtherName :=
          fun h => hc ((Contains_ignore_iff _ _).mpr h)
        constructor
        · rintro ⟨n, hn, hi⟩
          simp only [List.mem_cons, Option.some.injEq] at hn
          rcases hn with hn | hn
          · subst hn; exact absurd hi hni
          · simp only [filterLoop, hc', Bool.false_eq_true, if_false]
            exact ih1 ⟨n, hn, hi⟩
        · intro hno
          have hno' : ¬ ∃ n, some n ∈ rest ∧ foldCase n <:+: foldCase OtherName := by
            rintro ⟨n, hn, hi⟩
            exact hno ⟨n, by simp [hn], hi⟩
          simp only [filterLoop, hc', Bool.false_eq_true, if_false, ih2 hno',
            List.isEmpty_cons]
          cases rest <;> simp

/-- The decision of a handler for a non-empty list of non-null objects. -/
theorem shouldTrigger_named (OtherName : List Char) (bExclude : Bool)
    (Objects : List (Option (List Char))) (hne : Objects ≠ [])
    (hall : ∀ o ∈ Objects, o ≠ none) :
    (bExclude = false →
      (shouldTrigger OtherName bExclude Objects = true ↔
        ∃ name, some name ∈ Objects ∧ foldCase name <:+: foldCase OtherName))
    ∧ (bExclude = true →
      (shouldTrigger OtherName bExclude Objects = true ↔
        ∀ name, some name ∈ Objects → ¬ foldCase name <:+: foldCase OtherName)) := by
  have hlen : Objects.length > 0 := List.length_pos.mpr hne
  have hemp : Objects.isEmpty = false := by
    cases Objects with
    | nil => exact absurd rfl hne
    | cons o rest => rfl
  obtain ⟨h1, h2⟩ := filterLoop_named OtherName bExclude Objects false hall
  simp only [shouldTrigger, hlen, if_true]
  constructor
  · intro hex
    subst hex
    constructor
    · intro ht
      by_contra hno
      rw [h2 hno, hemp] at ht
      simp at ht
    · intro h
      rw [h1 h]; rfl
  · intro hex
    subst hex
    constructor
    · intro ht n hn hi
      rw [h1 ⟨n, hn, hi⟩] at ht
      simp at ht
    · intro h
      have hno : ¬ ∃ name, some name ∈ Objects ∧ foldCase name <:+: foldCase OtherName := by
        rintro ⟨n, hn, hi⟩
        exact h n hn hi
      rw [h2 hno, hemp]; rfl

/-- With a mesh component, a handler that calls `TriggerVatPlayback` exactly when `b` holds
returns, and the call count grows exactly when `b` holds. -/
theorem trigger_when (a : VatActor) (m : MeshComponent) (now : ℚ) (b : Bool)
    (hmesh : a.Vat_StaticMesh = some m) :
    ∃ a', (if b = true then TriggerVatPlayback a now else some a) = some a'
      ∧ (a'.triggerCalls = a.triggerCalls + 1 ↔ b = true) := by
  cases b
  · exact ⟨a, by simp, by simp⟩
  · obtain ⟨a', ha'⟩ := TriggerVatPlayback_mesh a m now hmesh
    exact ⟨a', by simpa using ha',
      by simp [(TriggerVatPlayback_fields a a' now ha').2.1]⟩

/-- C16 (counterexample): the allow-list of the sample actor holds the name `rock`. An actor
named `BigRock` hits it: no listed name is a substring of `BigRock`, yet playback is triggered,
because the comparison ignores letter case. And when the same actor has no mesh component, a
hit by `rock_3`, of whose name `rock` is a substring, does not trigger playback. -/
theorem C16_filter_ignores_case :
    sampleActor.HitObjects = [some "rock".toList] ∧ sampleActor.bExcludeHitObjects = false
      ∧ ¬ "rock".toList <:+: "BigRock".toList
      ∧ (NotifyHit sampleActor "BigRock".toList 3).map (fun a => a.triggerCalls)
          = some (sampleActor.triggerCalls + 1)
      ∧ "rock".toList <:+: "rock_3".toList
      ∧ (NotifyHit { sampleActor with Vat_StaticMesh := none } "rock_3".toList 3).map
          (fun a => a.triggerCalls) = some sampleActor.triggerCalls := by
  decide!

/-- C16 (amended): for an actor with its mesh component and a non-empty
`Vat_MaterialInstances`, a hit (an overlap) with the hit (overlap) trigger enabled and a
non-empty object list whose entries are all non-null: the handler returns, and with the
exclude flag off playback is triggered if and only if the name of some listed object is
contained, letter case ignored, in the other object's name; with the exclude flag on it is
triggered if and only if no listed name is so contained. -/
theorem C16_filter_decision (a : VatActor) (m : MeshComponent) (OtherName : List Char)
    (now : ℚ) (hmesh : a.Vat_StaticMesh = some m) (hmi : a.Vat_MaterialInstances ≠ []) :
    (a.bTriggerOnHit = true → a.HitObjects ≠ [] → (∀ o ∈ a.HitObjects, o ≠ none) →
      ∃ a', NotifyHit a OtherName now = some a'
        ∧ (a.bExcludeHitObjects = false →
            (a'.triggerCalls = a.triggerCalls + 1 ↔
              ∃ name, some name ∈ a.HitObjects ∧ foldCase name <:+: foldCase OtherName))
        ∧ (a.bExcludeHitObjects = true →
            (a'.triggerCalls = a.triggerCalls + 1 ↔
              ∀ name, some name ∈ a.HitObjects → ¬ foldCase name <:+: foldCase OtherName)))
    ∧ (a.bTriggerOnOverlap = true → a.OverlapObjects ≠ [] →
        (∀ o ∈ a.OverlapObjects, o ≠ none) →
      ∃ a', NotifyActorBeginOverlap a OtherName now = some a'
        ∧ (a.bExcludeOverlapObjects = false →
            (a'.triggerCalls = a.triggerCalls + 1 ↔
              ∃ name, some name ∈ a.OverlapObjects ∧ foldCase name <:+: foldCase OtherName))
        ∧ (a.bExcludeOverlapObjects = true →
            (a'.triggerCalls = a.triggerCalls + 1 ↔
              ∀ name, some name ∈ a.OverlapObjects →
                ¬ foldCase name <:+: foldCase OtherName))) := by
  have hlen : a.Vat_MaterialInstances.length > 0 := List.length_pos.mpr hmi
  constructor
  · intro hflag hne hall
    obtain ⟨a', ha', hiff⟩ := trigger_when a m now
      (shouldTrigger OtherName a.bExcludeHitObjects a.HitObjects) hmesh
    obtain ⟨hoff, hon⟩ := shouldTrigger_named OtherName a.bExcludeHitObjects a.HitObjects hne hall
    refine ⟨a', ?_, fun h => hiff.trans (hoff h), fun h => hiff.trans (hon h)⟩
    simpa [NotifyHit, hmesh, hlen, hflag] using ha'
  · intro hflag hne hall
    obtain ⟨a', ha', hiff⟩ := trigger_when a m now
      (shouldTrigger OtherName a.bExcludeOverlapObjects a.OverlapObjects) hmesh
    obtain ⟨hoff, hon⟩ :=
      shouldTrigger_named OtherName a.bExcludeOverlapObjects a.OverlapObjects hne hall
    refine ⟨a', ?_, fun h => hiff.trans (hoff h), fun h => hiff.trans (hon h)⟩
    simpa [NotifyActorBeginOverlap, hmesh, hlen, hflag] using ha'

/-- Witness for C16: the sample actor, whose allow-list holds `rock`, is hit by `rock_3`;
playback is triggered. -/
theorem C16_filter_decision_witness :
    ∃ a', NotifyHit sampleActor "rock_3".toList 3 = some a'
      ∧ a'.triggerCalls = sampleActor.triggerCalls + 1 := by
  obtain ⟨a', ha', hoff, _⟩ :=
    (C16_filter_decision sampleActor ⟨[], [some (.Asset 9)]⟩ "rock_3".toList 3 rfl
      (by decide)).1 rfl (by decide) (by decide)
  exact ⟨a', ha', (hoff rfl).mpr ⟨"rock".toList, by decide, by decide⟩⟩


/-- `BeginPlay` calls `TriggerVatPlayback` exactly when the actor has its mesh component, the
begin-play trigger is set and `Vat_MaterialInstances` is non-empty. -/
theorem BeginPlay_triggerCalls (a a' : VatActor) (now : ℚ) (wg : Option MaterialRef)
    (h : BeginPlay a now wg = some a') :
    a'.triggerCalls = a.triggerCalls + 1 ↔
      (a.Vat_StaticMesh.isSome = true ∧ a.bTriggerOnBeginPlay = true
        ∧ a.Vat_MaterialInstances ≠ []) := by
  have hlen : a.Vat_MaterialInstances ≠ [] ↔ a.Vat_MaterialInstances.length > 0 :=
    List.length_pos.symm
  rw [hlen]
  unfold BeginPlay at h
  cases hm : a.Vat_StaticMesh with
  | none =>
    simp only [hm, ApplyMaterials] at h
    have hcalls : a'.triggerCalls = a.triggerCalls := by
      split at h
      · simp at h
      · rename_i a3 ha3
        split at ha3
        · split at ha3
          · simp at ha3
          · simp only [Option.some.injEq] at ha3; subst ha3
            simp only [Option.some.injEq] at h; subst h; rfl
        · simp only [Option.some.injEq] at ha3; subst ha3
          simp only [Option.some.injEq] at h; subst h; rfl
    simp [hcalls]
  | some m =>
    simp only [hm, ApplyMaterials] at h
    cases hf : a.bTriggerOnBeginPlay with
    | true =>
      simp only [hf, Bool.not_true, Bool.false_and, Bool.false_eq_true, if_false,
        Bool.and_true, Bool.false_and] at h
      by_cases hv : a.Vat_MaterialInstances.length > 0
      · simp only [hv, decide_True, if_true] at h
        have := (TriggerVatPlayback_fields _ _ _ h).2.1
        simp only at this
        simp [this, hv]
      · simp only [hv, decide_False, Bool.false_eq_true, if_false, Option.some.injEq] at h
        subst h
        simp [hv]
    | false =>
      have hcalls : a'.triggerCalls = a.triggerCalls := by
        simp only [hf, Bool.not_false, Bool.true_and, Bool.and_false, Bool.false_eq_true,
          if_false] at h
        split at h
        · simp at h
        · rename_i a3 ha3
          split at ha3
          · split at ha3
            · simp only [Option.some.injEq] at ha3; subst ha3
              simp only [Bool.and_false, Bool.false_eq_true, if_false, Bool.not_false,
                Bool.true_and] at h
              split at h <;> (simp only [Option.some.injEq] at h; subst h; rfl)
            · simp only [Option.some.injEq] at ha3; subst ha3
              simp only [Bool.and_false, Bool.false_eq_true, if_false, Bool.not_false,
                Bool.true_and] at h
              split at h <;> (simp only [Option.some.injEq] at h; subst h; rfl)
          · simp only [Option.some.injEq] at ha3; subst ha3
            simp only [Bool.and_false, Bool.false_eq_true, if_false, Bool.not_false,
              Bool.true_and] at h
            split at h <;> (simp only [Option.some.injEq] at h; subst h; rfl)
      simp [hcalls]

/-- With its mesh component, `BeginPlay` returns. -/
theorem BeginPlay_mesh (a : VatActor) (m : MeshComponent) (now : ℚ) (wg : Option MaterialRef)
    (hmesh : a.Vat_StaticMesh = some m) : ∃ a', BeginPlay a now wg = some a' := by
  unfold BeginPlay
  simp only [hmesh, ApplyMaterials]
  cases hf : a.bTriggerOnBeginPlay with
  | true =>
    simp only [Bool.not_true, Bool.false_and, Bool.false_eq_true, if_false, Bool.and_true]
    by_cases hv : a.Vat_MaterialInstances.length > 0
    · simp only [hv, decide_True, if_true]
      exact TriggerVatPlayback_mesh _ _ now rfl
    · simp only [hv, decide_False, Bool.false_eq_true, if_false]
      exact ⟨_, rfl⟩
  | false =>
    simp only [Bool.not_false, Bool.true_and, Bool.and_false, Bool.false_eq_true, if_false]
    by_cases ho : a.Original_MaterialInstances.isEmpty = true
    · cases wg with
      | none =>
        simp only [ho, if_true, Bool.and_false, Bool.false_eq_true, if_false, Bool.not_false,
          Bool.true_and]
        split <;> exact ⟨_, rfl⟩
      | some w =>
        simp only [ho, if_true, Bool.and_false, Bool.false_eq_true, if_false, Bool.not_false,
          Bool.true_and]
        split <;> exact ⟨_, rfl⟩
    · simp only [ho, if_false, Bool.and_false, Bool.false_eq_true, Bool.not_false,
        Bool.true_and]
      split <;> exact ⟨_, rfl⟩

/-- C17 (counterexample): an actor without mesh component whose begin-play trigger is set and
whose `Vat_MaterialInstances` is non-empty: `BeginPlay` returns without calling
`TriggerVatPlayback`. -/
theorem C17_begin_play_needs_mesh :
    ({ sampleActor with Vat_StaticMesh := none, bTriggerOnBeginPlay := true } :
        VatActor).bTriggerOnBeginPlay = true
      ∧ ({ sampleActor with Vat_StaticMesh := none, bTriggerOnBeginPlay := true } :
        VatActor).Vat_MaterialInstances ≠ []
      ∧ (BeginPlay { sampleActor with Vat_StaticMesh := none, bTriggerOnBeginPlay := true }
          2 none).map (fun a => a.triggerCalls) = some sampleActor.triggerCalls := by
  decide!

/-- C17 (amended): `BeginPlay`, which returns for every actor with its mesh component,
triggers playback if and only if the actor has its mesh component, `bTriggerOnBeginPlay` is
set and `Vat_MaterialInstances` is non-empty; `NotifyHit` leaves the actor as it is when
`bTriggerOnHit` is off, and `NotifyActorBeginOverlap` when `bTriggerOnOverlap` is off,
whatever the other flags and the object lists are. -/
theorem C17_trigger_sources_independent :
    (∀ (a a' : VatActor) (now : ℚ) (wg : Option MaterialRef),
      BeginPlay a now wg = some a' →
        (a'.triggerCalls = a.triggerCalls + 1 ↔
          (a.Vat_StaticMesh.isSome = true ∧ a.bTriggerOnBeginPlay = true
            ∧ a.Vat_MaterialInstances ≠ [])))
    ∧ (∀ (a : VatActor) (m : MeshComponent) (now : ℚ) (wg : Option MaterialRef),
        a.Vat_StaticMesh = some m → ∃ a', BeginPlay a now wg = some a')
    ∧ (∀ (a : VatActor) (OtherName : List Char) (now : ℚ),
        a.bTriggerOnHit = false → NotifyHit a OtherName now = some a)
    ∧ (∀ (a : VatActor) (OtherName : List Char) (now : ℚ),
        a.bTriggerOnOverlap = false → NotifyActorBeginOverlap a OtherName now = some a) := by
  refine ⟨BeginPlay_triggerCalls, BeginPlay_mesh, ?_, ?_⟩
  · intro a OtherName now h
    simp [NotifyHit, h]
  · intro a OtherName now h
    simp [NotifyActorBeginOverlap, h]

/-- Witness for C17: with the begin-play trigger set, `BeginPlay` of the sample actor triggers
playback; with the hit trigger off, a hit by `rock_3` changes nothing. -/
theorem C17_trigger_sources_independent_witness :
    (∃ a', BeginPlay { sampleActor with bTriggerOnBeginPlay := true } 2 none = some a'
        ∧ a'.triggerCalls = sampleActor.triggerCalls + 1)
      ∧ NotifyHit { sampleActor with bTriggerOnHit := false } "rock_3".toList 3
          = some { sampleActor with bTriggerOnHit := false } := by
  obtain ⟨a', ha'⟩ := C17_trigger_sources_independent.2.1
    { sampleActor with bTriggerOnBeginPlay := true } ⟨[], [some (.Asset 9)]⟩ 2 none rfl
  exact ⟨⟨a', ha', (C17_trigger_sources_independent.1 _ a' 2 none ha').mpr
      ⟨rfl, rfl, by decide⟩⟩,
    C17_trigger_sources_independent.2.2.1 _ _ 3 rfl⟩


/-! ## Theorems: the help menu -/

/-- C21 (counterexample): the section holds four entries, not three; the fourth, `ArtStation`,
is none of website, documentation and source repository. -/
theorem C21_help_section_has_four_entries :
    RegisterHelpAndSupportSection.length = 4 ∧ RegisterHelpAndSupportSection.length ≠ 3
      ∧ (⟨"ArtStation", "ArtStation", "SideFX Labs ArtStation",
            "https://www.artstation.com/SidefxLabs"⟩ : MenuEntry)
          ∈ RegisterHelpAndSupportSection := by
  decide

/-- C21 (amended): the 'Help and Support' section registers exactly four external-link menu
entries, in this order: website, documentation, source repository (GitHub) and ArtStation, each
with its own URL. -/
theorem C21_help_section_entries :
    RegisterHelpAndSupportSection.map (fun e => (e.Name, e.URL)) =
      [("Website", "https://www.sidefx.com/products/sidefx-labs/"),
       ("Documentation", "https://www.sidefx.com/docs/houdini/labs/"),
       ("GitHub", "https://github.com/sideeffects/SidefxLabs"),
       ("ArtStation", "https://www.artstation.com/SidefxLabs")] := by
  decide

/-! ## Theorems: customized UV channels -/

/-- C22 (evaluation at the failing input): for the Sprite variant `NumCustomizedUVs` is set
to 2, which enables the channels 0 and 1, and with at least 19 outputs the function connects
`CustomizedUVs[2]`; for the three other variants every connected channel is below the value
set for the variant, whatever the output count. -/
theorem C22_sprite_connects_disabled_channel :
    NumCustomizedUVs .VatType4 = 2
      ∧ connectedChannels (CreateVatMaterial (nodeEnv 19) .VatType4).connections = [2]
      ∧ ¬ (∀ k ∈ connectedChannels (CreateVatMaterial (nodeEnv 19) .VatType4).connections,
            k < NumCustomizedUVs .VatType4)
      ∧ ∀ (t : EVatType) (n : Nat), t ≠ .VatType4 →
          ∀ k ∈ connectedChannels (connectOutputs t n), k < NumCustomizedUVs t := by
  refine ⟨rfl, by decide, by decide, ?_⟩
  intro t n ht k hk
  cases t with
  | VatType4 => exact absurd rfl ht
  | VatType1 =>
    simp only [connectOutputs, connectIf, connectedChannels, NumCustomizedUVs] at hk ⊢
    split_ifs at hk <;> simp at hk <;> omega
  | VatType2 =>
    simp only [connectOutputs, connectIf, connectedChannels, NumCustomizedUVs] at hk ⊢
    split_ifs at hk <;> simp at hk <;> omega
  | VatType3 =>
    simp only [connectOutputs, connectIf, connectedChannels, NumCustomizedUVs] at hk ⊢
    split_ifs at hk <;> simp at hk <;> omega

/-! ## Theorems: a mesh that does not load -/

/-- C23: if the FBX options dialog is accepted and `bCanceled` is not set by `ImportObject`,
but the imported static mesh does not load, `ImportFiles` calls neither `ImportTexture` nor
`SavePackages` and leaves `bCanceled` false, and the click goes on to `CreateVatMaterial`,
`CreateVatMaterialInstance` and, when requested, `CreateVatBlueprint`. -/
theorem C23_unloaded_mesh_does_not_stop_run (env : ImportEnv) (props : VatProperties)
    (windowValid : Bool)
    (hdlg : env.fbxOptionsAccepted = true) (hnc : env.fbxImportCanceled = false)
    (hmesh : env.staticMeshLoaded = false) :
    (ImportFiles env props).1 = false
      ∧ importedTexturePaths (ImportFiles env props).2 = []
      ∧ savedTextures (ImportFiles env props).2 = []
      ∧ (∀ a ∈ (ImportFiles env props).2, a.isImportOrCreation = false)
      ∧ OnClicked env props windowValid =
          [.ConfigureFbxProperties, .ImportFbxObject props.VatFbxFilePath,
            .LoadStaticMesh (GetBaseFilename props.VatFbxFilePath),
            .CreateVatMaterial, .CreateVatMaterialInstance]
          ++ (if props.bCreateVatBlueprint then [.CreateVatBlueprint] else [])
          ++ (if windowValid then [.RequestDestroyWindow] else []) := by
  have himp : ImportFiles env props =
      (false, [.ConfigureFbxProperties, .ImportFbxObject props.VatFbxFilePath,
        .LoadStaticMesh (GetBaseFilename props.VatFbxFilePath)]) := by
    simp [ImportFiles, ImportFbx, hdlg, hnc, hmesh]
  refine ⟨by rw [himp], by rw [himp]; rfl, by rw [himp]; rfl, ?_, ?_⟩
  · rw [himp]
    intro a ha
    simp only [List.mem_cons, List.mem_singleton, List.not_mem_nil, or_false] at ha
    rcases ha with h | h | h <;> subst h <;> rfl
  · simp [OnClicked, himp]

/-- Witness for C23: the mesh of the sample run does not load; the three creation stages are
still called. -/
theorem C23_unloaded_mesh_does_not_stop_run_witness :
    OnClicked ⟨true, false, false, fun _ => none⟩ sampleProperties true =
      [.ConfigureFbxProperties, .ImportFbxObject "mesh.fbx".toList,
        .LoadStaticMesh "mesh".toList, .CreateVatMaterial, .CreateVatMaterialInstance,
        .CreateVatBlueprint, .RequestDestroyWindow] :=
  (C23_unloaded_mesh_does_not_stop_run ⟨true, false, false, fun _ => none⟩ sampleProperties
    true rfl rfl rfl).2.2.2.2

/-! ## Theorems: the three asset names of a run -/

/-- The name that `CreateVatMaterial` uses starts with `M_`, letter case ignored. -/
theorem createdMaterialName_startsWith (n : List Char) :
    startsWithCase .IgnoreCase (createdMaterialName n) "M_".toList = true := by
  unfold createdMaterialName
  split_ifs with h1 h2
  · decide
  · simp [startsWithCase, charEq, lowerCode]
  · simpa [StartsWith] using h2

/-- A string that starts with `M_`, letter case ignored, is `M` or `m`, then `_`, then the
rest. -/
theorem startsWith_M_shape (m : List Char)
    (h : startsWithCase .IgnoreCase m "M_".toList = true) :
    ∃ c r, m = c :: Char.ofNat 95 :: r ∧ lowerCode c.toNat = 109 := by
  match m, h with
  | [], h => simp [startsWithCase] at h
  | [_], h => simp [startsWithCase] at h
  | a :: b :: r, h =>
    have h' : lowerCode a.toNat = lowerCode 77 ∧ lowerCode b.toNat = lowerCode 95 := by
      simpa [startsWithCase, charEq] using h
    obtain ⟨ha, hb⟩ := h'
    refine ⟨a, r, ?_, ?_⟩
    · have hb' : b.toNat = 95 := by
        unfold lowerCode at hb
        split_ifs at hb <;> omega
      have : b = Char.ofNat 95 := char_eq_of_toNat_eq (by rw [hb']; rfl)
      rw [this]
    · rw [ha]; rfl

/-- The folded name of the created material begins with the codes of `m` and `_`; the names of
the material instance and of the blueprint begin with `MI_` and `BP_`. -/
theorem asset_names_shape (n : List Char) :
    (∃ c r, createdMaterialName n = c :: Char.ofNat 95 :: r ∧ lowerCode c.toNat = 109)
      ∧ (∃ r, materialInstanceName (createdMaterialName n) = "MI_".toList ++ r)
      ∧ (∃ r, blueprintName (createdMaterialName n) = "BP_".toList ++ r) := by
  have hs := createdMaterialName_startsWith n
  obtain ⟨c, r, hm, hc⟩ := startsWith_M_shape _ hs
  rw [hm] at hs
  refine ⟨⟨c, r, hm, hc⟩, ?_, ?_⟩
  · rw [hm]
    refine ⟨replaceLoop .IgnoreCase "M_".toList "MI_".toList r 0, ?_⟩
    simp only [materialInstanceName, Replace]
    rw [if_neg (by decide)]
    rw [replaceLoop, if_pos hs]
    rfl
  · rw [hm]
    refine ⟨replaceLoop .IgnoreCase "M_".toList "BP_".toList r 0, ?_⟩
    simp only [blueprintName, Replace]
    rw [if_neg (by decide)]
    rw [replaceLoop, if_pos hs]
    rfl

/-- A right part that does not begin with `/` is appended to the same left part, whatever the
right part is. -/
theorem PathAppend_cons (s : List Char) (c : Char) (r : List Char) (hc : c.toNat ≠ 47) :
    PathAppend s (c :: r) = PathAppend s [] ++ (c :: r) := by
  simp only [PathAppend]
  cases hl : s.getLast? with
  | none => simp
  | some d =>
    cases hd : isSlash d <;> simp [hc, hd]

/-- C24: for every user-supplied material name, the material name, the material-instance name
and the blueprint name of one run are pairwise different, also when letter case is ignored (as
the engine does for object and package names); hence the three package paths
`VatAssetPath.Path / Name` are pairwise different, for every asset path. -/
theorem C24_asset_names_pairwise_different (n : List Char) :
    (createdMaterialName n ≠ materialInstanceName (createdMaterialName n)
      ∧ createdMaterialName n ≠ blueprintName (createdMaterialName n)
      ∧ materialInstanceName (createdMaterialName n) ≠ blueprintName (createdMaterialName n))
    ∧ (foldCase (createdMaterialName n) ≠ foldCase (materialInstanceName (createdMaterialName n))
      ∧ foldCase (createdMaterialName n) ≠ foldCase (blueprintName (createdMaterialName n))
      ∧ foldCase (materialInstanceName (createdMaterialName n))
          ≠ foldCase (blueprintName (createdMaterialName n)))
    ∧ (∀ Path : List Char,
        foldCase (PathAppend Path (createdMaterialName n))
            ≠ foldCase (PathAppend Path (materialInstanceName (createdMaterialName n)))
          ∧ foldCase (PathAppend Path (createdMaterialName n))
            ≠ foldCase (PathAppend Path (blueprintName (createdMaterialName n)))
          ∧ foldCase (PathAppend Path (materialInstanceName (createdMaterialName n)))
            ≠ foldCase (PathAppend Path (blueprintName (createdMaterialName n)))) := by
  obtain ⟨⟨c, r, hm, hc⟩, ⟨ri, hi⟩, ⟨rb, hb⟩⟩ := asset_names_shape n
  have hcne : c.toNat ≠ 47 := by
    intro h
    rw [h] at hc
    exact absurd hc (by decide)
  have fm : foldCase (createdMaterialName n) = 109 :: 95 :: foldCase r := by
    rw [hm]
    simp only [foldCase, List.map_cons, hc]
    rfl
  have fi : foldCase (materialInstanceName (createdMaterialName n))
      = 109 :: 105 :: 95 :: foldCase ri := by
    rw [hi]; rfl
  have fb : foldCase (blueprintName (createdMaterialName n))
      = 98 :: 112 :: 95 :: foldCase rb := by
    rw [hb]; rfl
  have h1 : foldCase (createdMaterialName n)
      ≠ foldCase (materialInstanceName (createdMaterialName n)) := by
    rw [fm, fi]; simp
  have h2 : foldCase (createdMaterialName n)
      ≠ foldCase (blueprintName (createdMaterialName n)) := by
    rw [fm, fb]; simp
  have h3 : foldCase (materialInstanceName (createdMaterialName n))
      ≠ foldCase (blueprintName (createdMaterialName n)) := by
    rw [fi, fb]; simp
  refine ⟨⟨fun h => h1 (congrArg foldCase h), fun h => h2 (congrArg foldCase h),
    fun h => h3 (congrArg foldCase h)⟩, ⟨h1, h2, h3⟩, ?_⟩
  intro Path
  have pm : PathAppend Path (createdMaterialName n)
      = PathAppend Path [] ++ createdMaterialName n := by
    rw [hm]; exact PathAppend_cons _ _ _ hcne
  have pi : PathAppend Path (materialInstanceName (createdMaterialName n))
      = PathAppend Path [] ++ materialInstanceName (createdMaterialName n) := by
    rw [hi]; exact PathAppend_cons _ _ _ (by decide)
  have pb : PathAppend Path (blueprintName (createdMaterialName n))
      = PathAppend Path [] ++ blueprintName (createdMaterialName n) := by
    rw [hb]; exact PathAppend_cons _ _ _ (by decide)
  rw [pm, pi, pb]
  simp only [foldCase, List.map_append, ne_eq, List.append_cancel_left_eq]
  exact ⟨h1, h2, h3⟩

/-! ## Theorems: the normalised material name -/

/-- C25 (counterexample): the user-supplied name `m_foo` does not start with `M_`, yet nothing
is prepended: the name that `CreateVatMaterial` uses is `m_foo`, which does not start with
`M_`. -/
theorem C25_lower_case_start_kept :
    ¬ "M_".toList <+: "m_foo".toList
      ∧ createdMaterialName "m_foo".toList = "m_foo".toList
      ∧ createdMaterialName "m_foo".toList ≠ "M_".toList ++ "m_foo".toList
      ∧ ¬ "M_".toList <+: createdMaterialName "m_foo".toList := by
  decide

/-- C25 (amended): for every user-supplied material name, the name that `CreateVatMaterial`
uses is non-empty and starts with `M_`, letter case ignored: the empty name becomes
`M_HoudiniVAT`; a non-empty name that does not start with `M_`, letter case ignored, gets `M_`
prepended; a name that starts with `M_`, letter case ignored, is used unchanged; and
normalising a normalised name changes nothing. -/
theorem C25_material_name_normalised (n : List Char) :
    createdMaterialName n ≠ []
      ∧ foldCase "M_".toList <+: foldCase (createdMaterialName n)
      ∧ (n = [] → createdMaterialName n = "M_HoudiniVAT".toList)
      ∧ (n ≠ [] → ¬ foldCase "M_".toList <+: foldCase n →
          createdMaterialName n = "M_".toList ++ n)
      ∧ (foldCase "M_".toList <+: foldCase n → createdMaterialName n = n)
      ∧ createdMaterialName (createdMaterialName n) = createdMaterialName n := by
  have hs := createdMaterialName_startsWith n
  have hkeep : ∀ m : List Char, foldCase "M_".toList <+: foldCase m →
      createdMaterialName m = m := by
    intro m hm
    have hm' := (startsWithCase_ignore_iff m "M_".toList).mpr hm
    have hne : m ≠ [] := by
      intro h
      subst h
      simp [startsWithCase] at hm'
    have hemp : m.isEmpty = false := by
      cases m with
      | nil => exact absurd rfl hne
      | cons _ _ => rfl
    have hm2 : startsWithCase .IgnoreCase m ['M', '_'] = true := hm'
    simp [createdMaterialName, hemp, StartsWith, hm2]
  refine ⟨?_, (startsWithCase_ignore_iff _ _).mp hs, ?_, ?_, hkeep n, ?_⟩
  · intro h
    rw [h] at hs
    simp [startsWithCase] at hs
  · intro h
    subst h
    rfl
  · intro hne hnot
    have hemp : n.isEmpty = false := by
      cases n with
      | nil => exact absurd rfl hne
      | cons _ _ => rfl
    have hf := (startsWithCase_ignore_false_iff n "M_".toList).mpr hnot
    have hf2 : startsWithCase .IgnoreCase n ['M', '_'] = false := hf
    simp [createdMaterialName, hemp, StartsWith, hf2]
  · exact hkeep _ ((startsWithCase_ignore_iff _ _).mp hs)

/-- Witness for C25: `foo` gets `M_` prepended, `m_foo` and `M_foo` are used unchanged. -/
theorem C25_material_name_normalised_witness :
    createdMaterialName "foo".toList = "M_foo".toList
      ∧ createdMaterialName "m_foo".toList = "m_foo".toList
      ∧ createdMaterialName "M_foo".toList = "M_foo".toList :=
  ⟨(C25_material_name_normalised "foo".toList).2.2.2.1 (by decide) (by decide),
   (C25_material_name_normalised "m_foo".toList).2.2.2.2.1 (by decide),
   (C25_material_name_normalised "M_foo".toList).2.2.2.2.1 (by decide)⟩

/-! ## Theorems: empty and all-null object lists -/

/-- Null entries leave `bShouldTrigger` as it is. -/
theorem filterLoop_all_null (OtherName : List Char) (bExclude : Bool)
    (Objects : List (Option (List Char))) (b0 : Bool) (hall : ∀ o ∈ Objects, o = none) :
    filterLoop OtherName bExclude Objects b0 = b0 := by
  induction Objects generalizing b0 with
  | nil => rfl
  | cons o rest ih =>
    have ho : o = none := hall o (List.mem_cons_self _ _)
    subst ho
    simp only [filterLoop]
    exact ih b0 (fun o ho => hall o (List.mem_cons_of_mem _ ho))

/-- The value of `bShouldTrigger` for an empty list and for a non-empty list of null
entries. -/
theorem shouldTrigger_empty_or_null (OtherName : List Char) (bExclude : Bool)
    (Objects : List (Option (List Char))) :
    (Objects = [] → shouldTrigger OtherName bExclude Objects = !bExclude)
      ∧ (Objects ≠ [] → (∀ o ∈ Objects, o = none) →
          shouldTrigger OtherName bExclude Objects = false) := by
  constructor
  · intro h
    subst h
    simp [shouldTrigger]
  · intro hne hall
    have hlen : Objects.length > 0 := List.length_pos.mpr hne
    simp only [shouldTrigger, hlen, if_true]
    exact filterLoop_all_null _ _ _ _ hall

/-- C26 (counterexample): the hit trigger of the actor is enabled, its object list is empty
and its exclude flag is off, but `Vat_MaterialInstances` is empty: a hit does not trigger
playback. The same holds with a non-empty `Vat_MaterialInstances` and no mesh component. -/
theorem C26_empty_list_needs_instances :
    ({ sampleActor with HitObjects := [], Vat_MaterialInstances := [] } : VatActor).bTriggerOnHit
        = true
      ∧ ({ sampleActor with HitObjects := [], Vat_MaterialInstances := [] } :
          VatActor).bExcludeHitObjects = false
      ∧ NotifyHit { sampleActor with HitObjects := [], Vat_MaterialInstances := [] }
          "rock_3".toList 3
          = some { sampleActor with HitObjects := [], Vat_MaterialInstances := [] }
      ∧ NotifyHit { sampleActor with HitObjects := [], Vat_StaticMesh := none }
          "rock_3".toList 3
          = some { sampleActor with HitObjects := [], Vat_StaticMesh := none }
      ∧ (NotifyHit { sampleActor with HitObjects := [] } "rock_3".toList 3).map
          (fun a => a.triggerCalls) = some (sampleActor.triggerCalls + 1) := by
  decide!

/-- C26 (amended): for an actor with its mesh component and a non-empty
`Vat_MaterialInstances`, when the object list of an enabled hit (overlap) trigger is empty the
handler triggers playback if and only if the corresponding exclude flag is off; when the list
is non-empty and every entry is null, the handler leaves the actor as it is, whatever the
exclude flag; without mesh component or with an empty `Vat_MaterialInstances` both handlers
leave the actor as it is; and the two handlers return the same actor when their trigger flags,
lists and exclude flags agree. -/
theorem C26_empty_and_null_lists (a : VatActor) (OtherName : List Char) (now : ℚ) :
    (∀ m : MeshComponent, a.Vat_StaticMesh = some m → a.Vat_MaterialInstances ≠ [] →
        (a.bTriggerOnHit = true → a.HitObjects = [] →
          ∃ a', NotifyHit a OtherName now = some a'
            ∧ (a'.triggerCalls = a.triggerCalls + 1 ↔ a.bExcludeHitObjects = false))
        ∧ (a.bTriggerOnOverlap = true → a.OverlapObjects = [] →
          ∃ a', NotifyActorBeginOverlap a OtherName now = some a'
            ∧ (a'.triggerCalls = a.triggerCalls + 1 ↔ a.bExcludeOverlapObjects = false)))
    ∧ (a.HitObjects ≠ [] → (∀ o ∈ a.HitObjects, o = none) →
        NotifyHit a OtherName now = some a)
    ∧ (a.OverlapObjects ≠ [] → (∀ o ∈ a.OverlapObjects, o = none) →
        NotifyActorBeginOverlap a OtherName now = some a)
    ∧ ((a.Vat_StaticMesh = none ∨ a.Vat_MaterialInstances = []) →
        NotifyHit a OtherName now = some a ∧ NotifyActorBeginOverlap a OtherName now = some a)
    ∧ (a.bTriggerOnHit = a.bTriggerOnOverlap → a.HitObjects = a.OverlapObjects →
        a.bExcludeHitObjects = a.bExcludeOverlapObjects →
        NotifyHit a OtherName now = NotifyActorBeginOverlap a OtherName now) := by
  refine ⟨?_, ?_, ?_, ?_, ?_⟩
  · intro m hmesh hmi
    have hlen : a.Vat_MaterialInstances.length > 0 := List.length_pos.mpr hmi
    constructor
    · intro hflag hemp
      obtain ⟨a', ha', hiff⟩ := trigger_when a m now
        (shouldTrigger OtherName a.bExcludeHitObjects a.HitObjects) hmesh
      have hs := (shouldTrigger_empty_or_null OtherName a.bExcludeHitObjects a.HitObjects).1 hemp
      refine ⟨a', ?_, hiff.trans ?_⟩
      · simpa [NotifyHit, hmesh, hlen, hflag] using ha'
      · rw [hs]; simp
    · intro hflag hemp
      obtain ⟨a', ha', hiff⟩ := trigger_when a m now
        (shouldTrigger OtherName a.bExcludeOverlapObjects a.OverlapObjects) hmesh
      have hs := (shouldTrigger_empty_or_null OtherName a.bExcludeOverlapObjects
        a.OverlapObjects).1 hemp
      refine ⟨a', ?_, hiff.trans ?_⟩
      · simpa [NotifyActorBeginOverlap, hmesh, hlen, hflag] using ha'
      · rw [hs]; simp
  · intro hne hall
    have hs := (shouldTrigger_empty_or_null OtherName a.bExcludeHitObjects a.HitObjects).2
      hne hall
    simp [NotifyHit, hs]
  · intro hne hall
    have hs := (shouldTrigger_empty_or_null OtherName a.bExcludeOverlapObjects
      a.OverlapObjects).2 hne hall
    simp [NotifyActorBeginOverlap, hs]
  · rintro (h | h)
    · simp [NotifyHit, NotifyActorBeginOverlap, h]
    · simp [NotifyHit, NotifyActorBeginOverlap, h]
  · intro h1 h2 h3
    simp only [NotifyHit, NotifyActorBeginOverlap, h1, h2, h3]

/-- Witness for C26: the sample actor with an empty allow-list is hit, and playback is
triggered; with a list of two null entries the hit leaves the actor as it is. -/
theorem C26_empty_and_null_lists_witness :
    (∃ a', NotifyHit { sampleActor with HitObjects := [] } "rock_3".toList 3 = some a'
        ∧ a'.triggerCalls = sampleActor.triggerCalls + 1)
      ∧ NotifyHit { sampleActor with HitObjects := [none, none] } "rock_3".toList 3
          = some { sampleActor with HitObjects := [none, none] } := by
  obtain ⟨a', ha', hiff⟩ :=
    ((C26_empty_and_null_lists { sampleActor with HitObjects := [] } "rock_3".toList 3).1
      ⟨[], [some (.Asset 9)]⟩ rfl (by decide)).1 rfl rfl
  exact ⟨⟨a', ha', hiff.mpr rfl⟩,
    (C26_empty_and_null_lists { sampleActor with HitObjects := [none, none] }
      "rock_3".toList 3).2.1 (by decide) (by decide)⟩

/-! ## Theorems: the playback latch -/

/-- With a mesh component `ResetVatPlayback` keeps the component and sets `bPlay`. -/
theorem ResetVatPlayback_mesh (a : VatActor) (m : MeshComponent)
    (hmesh : a.Vat_StaticMesh = some m) :
    (ResetVatPlayback a).bPlay = true ∧ (ResetVatPlayback a).Vat_StaticMesh.isSome = true
      ∧ (ResetVatPlayback a).bTriggerOnce = a.bTriggerOnce := by
  simp [ResetVatPlayback, hmesh]

/-- One call keeps the mesh component and the relation between `bPlay` and the bookkeeping
flag; it also returns. -/
theorem playbackStep_invariant (s : VatActor × Bool) (c : PlaybackCall)
    (hmesh : s.1.Vat_StaticMesh.isSome = true) (hinv : s.1.bPlay = false → s.2 = true) :
    ∃ s', playbackStep s c = some s' ∧ s'.1.Vat_StaticMesh.isSome = true
      ∧ (s'.1.bPlay = false → s'.2 = true) := by
  obtain ⟨m, hm⟩ := Option.isSome_iff_exists.mp hmesh
  cases c with
  | Trigger now =>
    obtain ⟨a', ha'⟩ := TriggerVatPlayback_mesh s.1 m now hm
    obtain ⟨mT, hmT, _⟩ := TriggerVatPlayback_keeps_mesh s.1 a' m now hm ha'
    have hf := (TriggerVatPlayback_fields s.1 a' now ha').2.2.2.1
    refine ⟨(a', s.2 || s.1.bTriggerOnce), by simp [playbackStep, ha'], by simp [hmT], ?_⟩
    intro hp
    simp only at hp ⊢
    rw [hf] at hp
    cases ho : s.1.bTriggerOnce
    · simp only [ho, Bool.false_eq_true, if_false] at hp
      simp [hinv hp]
    · simp
  | Reset =>
    obtain ⟨h1, h2, _⟩ := ResetVatPlayback_mesh s.1 m hm
    refine ⟨(ResetVatPlayback s.1, false), rfl, h2, ?_⟩
    intro hp
    simp only at hp
    rw [h1] at hp
    exact absurd hp (by decide)
  | Edit b L O =>
    exact ⟨_, rfl, hmesh, hinv⟩

/-- A sequence of calls keeps the mesh component and the relation between `bPlay` and the
bookkeeping flag; it also returns. -/
theorem playbackRun_invariant (calls : List PlaybackCall) (s : VatActor × Bool)
    (hmesh : s.1.Vat_StaticMesh.isSome = true) (hinv : s.1.bPlay = false → s.2 = true) :
    ∃ s', playbackRun s calls = some s' ∧ s'.1.Vat_StaticMesh.isSome = true
      ∧ (s'.1.bPlay = false → s'.2 = true) := by
  induction calls generalizing s with
  | nil => exact ⟨s, rfl, hmesh, hinv⟩
  | cons c cs ih =>
    obtain ⟨s1, h1, hm1, hi1⟩ := playbackStep_invariant s c hmesh hinv
    obtain ⟨s2, h2, hm2, hi2⟩ := ih s1 hm1 hi1
    exact ⟨s2, by simp [playbackRun, h1, h2], hm2, hi2⟩

/-- While no edit sets `bTriggerOnce`, it stays off and `bPlay` stays on. -/
theorem playbackRun_never_set (calls : List PlaybackCall) (s s' : VatActor × Bool)
    (hmesh : s.1.Vat_StaticMesh.isSome = true) (hplay : s.1.bPlay = true)
    (honce : s.1.bTriggerOnce = false)
    (hcalls : ∀ c ∈ calls, ∀ L O, c ≠ .Edit true L O)
    (hrun : playbackRun s calls = some s') :
    s'.1.bPlay = true ∧ s'.1.bTriggerOnce = false := by
  induction calls generalizing s with
  | nil =>
    simp only [playbackRun, Option.some.injEq] at hrun
    subst hrun
    exact ⟨hplay, honce⟩
  | cons c cs ih =>
    obtain ⟨m, hm⟩ := Option.isSome_iff_exists.mp hmesh
    have hcs : ∀ c ∈ cs, ∀ L O, c ≠ .Edit true L O :=
      fun c hc => hcalls c (List.mem_cons_of_mem _ hc)
    cases c with
    | Trigger now =>
      obtain ⟨a', ha'⟩ := TriggerVatPlayback_mesh s.1 m now hm
      obtain ⟨mT, hmT, _⟩ := TriggerVatPlayback_keeps_mesh s.1 a' m now hm ha'
      obtain ⟨_, _, hto, hbp, _, _⟩ := TriggerVatPlayback_fields s.1 a' now ha'
      simp only [playbackRun, playbackStep, ha'] at hrun
      refine ih (a', s.2 || s.1.bTriggerOnce) (by simp [hmT]) ?_ ?_ hcs hrun
      · simp only [hbp, honce, Bool.false_eq_true, if_false, hplay]
      · simp only [hto, honce]
    | Reset =>
      obtain ⟨h1, h2, h3⟩ := ResetVatPlayback_mesh s.1 m hm
      simp only [playbackRun, playbackStep] at hrun
      exact ih (ResetVatPlayback s.1, false) h2 h1 (by simp only [h3, honce]) hcs hrun
    | Edit b L O =>
      have hb : b = false := by
        cases b
        · rfl
        · exact absurd rfl (hcalls _ (List.mem_cons_self _ _) L O)
      subst hb
      simp only [playbackRun, playbackStep] at hrun
      exact ih ({ s.1 with
        bTriggerOnce := false
        Vat_MaterialInstances := L
        Original_MaterialInstances := O }, s.2) hmesh hplay rfl hcs hrun

/-- C27: every sequence of `TriggerVatPlayback` calls, `ResetVatPlayback` calls and property
edits on a constructed actor returns, and in the state it reaches `bPlay` is off only if a
`TriggerVatPlayback` ran with `bTriggerOnce` set since the last `ResetVatPlayback`; when no
edit sets `bTriggerOnce`, `bPlay` is on in the state reached; and `ResetVatPlayback` on an
actor with a mesh component sets `bPlay`. -/
theorem C27_latch_off_only_after_trigger_once :
    (∀ calls : List PlaybackCall,
      ∃ s, playbackRun (AHoudiniVatActor, false) calls = some s
        ∧ s.1.Vat_StaticMesh.isSome = true ∧ (s.1.bPlay = false → s.2 = true))
    ∧ (∀ (calls : List PlaybackCall) (s : VatActor × Bool),
        (∀ c ∈ calls, ∀ L O, c ≠ .Edit true L O) →
        playbackRun (AHoudiniVatActor, false) calls = some s → s.1.bPlay = true)
    ∧ (∀ (a : VatActor) (m : MeshComponent),
        a.Vat_StaticMesh = some m → (ResetVatPlayback a).bPlay = true) := by
  refine ⟨?_, ?_, ?_⟩
  · intro calls
    exact playbackRun_invariant calls (AHoudiniVatActor, false) rfl (by intro h; cases h)
  · intro calls s hcalls hrun
    exact (playbackRun_never_set calls (AHoudiniVatActor, false) s rfl rfl rfl hcalls hrun).1
  · intro a m hm
    exact (ResetVatPlayback_mesh a m hm).1

/-- Witness for C27: after the latch of the sample actor has been turned off by a trigger with
`bTriggerOnce` set, `ResetVatPlayback` turns it on again; and two triggers on the constructed
actor, on which `bTriggerOnce` is off, leave the latch on. -/
theorem C27_latch_off_only_after_trigger_once_witness :
    (ResetVatPlayback { sampleActor with bPlay := false }).bPlay = true
      ∧ ∃ s, playbackRun (AHoudiniVatActor, false) [.Trigger 1, .Trigger 2] = some s
          ∧ s.1.bPlay = true := by
  obtain ⟨s, hs, _⟩ := C27_latch_off_only_after_trigger_once.1 [.Trigger 1, .Trigger 2]
  refine ⟨C27_latch_off_only_after_trigger_once.2.2 { sampleActor with bPlay := false }
      ⟨[], [some (.Asset 9)]⟩ rfl, s, hs,
    C27_latch_off_only_after_trigger_once.2.1 [.Trigger 1, .Trigger 2] s ?_ hs⟩
  intro c hc L O
  simp only [List.mem_cons, List.mem_singleton, List.not_mem_nil, or_false] at hc
  rcases hc with h | h <;> subst h <;> simp

/-! ## Theorems: texture parameters of the material instance -/

/-- One file path writes at most the parameter of the role its base file name classifies to:
the value of `p` afterwards is the loaded texture when the name classifies to `p`, and the
value before otherwise. -/
theorem setTextureParameter_get (loadTexture : List Char → Option Texture2D)
    (v : TextureParameterValues) (FilePath : List Char) (p : TextureParameter) :
    setTextureParameter loadTexture v FilePath p =
      match loadedTexturesOfRole loadTexture [FilePath] p with
      | [] => v p
      | t :: _ => some t := by
  simp only [setTextureParameter, loadedTexturesOfRole, List.filterMap_cons, List.filterMap_nil]
  cases hl : loadTexture (GetBaseFilename FilePath) with
  | none => rfl
  | some t =>
    simp only [assignTextureRole, if_true]
    split_ifs <;> cases p <;>
      simp_all [SetTextureParameterValueEditorOnly, List.foldl]

/-- The value of a parameter after the loop is the last loaded texture of its role, or the
value before the loop when there is none. -/
theorem setTextureParameterValues_get (loadTexture : List Char → Option Texture2D)
    (paths : List (List Char)) (v : TextureParameterValues) (p : TextureParameter) :
    setTextureParameterValues loadTexture paths v p =
      match (loadedTexturesOfRole loadTexture paths p).getLast? with
      | some t => some t
      | none => v p := by
  induction paths using List.reverseRecOn with
  | nil => rfl
  | append_singleton init FilePath ih =>
    have hstep := setTextureParameter_get loadTexture
      (setTextureParameterValues loadTexture init v) FilePath p
    have hsplit : loadedTexturesOfRole loadTexture (init ++ [FilePath]) p =
        loadedTexturesOfRole loadTexture init p ++ loadedTexturesOfRole loadTexture [FilePath] p := by
      simp only [loadedTexturesOfRole, List.filterMap_append]
    have hfold : setTextureParameterValues loadTexture (init ++ [FilePath]) v =
        setTextureParameter loadTexture (setTextureParameterValues loadTexture init v) FilePath := by
      simp only [setTextureParameterValues, List.foldl_append, List.foldl_cons, List.foldl_nil]
    rw [hfold, hstep, hsplit]
    have hone : loadedTexturesOfRole loadTexture [FilePath] p = [] ∨
        ∃ t, loadedTexturesOfRole loadTexture [FilePath] p = [t] := by
      simp only [loadedTexturesOfRole, List.filterMap_cons, List.filterMap_nil]
      split <;> simp
    rcases hone with h | ⟨t, h⟩
    · rw [h, List.append_nil, ih]
    · rw [h]
      simp

/-- C28: for every list of texture paths, after the loop over the list the texture parameter
of each role holds the last texture, in list order, among those that load and classify to the
role (and its value from before the loop when there is none); and a file path whose base file
name does not classify to a role leaves the parameter of that role as it is. -/
theorem C28_last_texture_of_role_wins (loadTexture : List Char → Option Texture2D)
    (paths : List (List Char)) (v : TextureParameterValues) (p : TextureParameter) :
    (setTextureParameterValues loadTexture paths v p =
      match (loadedTexturesOfRole loadTexture paths p).getLast? with
      | some t => some t
      | none => v p)
    ∧ (∀ (w : TextureParameterValues) (FilePath : List Char),
        (p, GetBaseFilename FilePath) ∉ assignTextureRole (GetBaseFilename FilePath) true →
          setTextureParameter loadTexture w FilePath p = w p)
    ∧ (∀ (w : TextureParameterValues) (FilePath : List Char),
        loadTexture (GetBaseFilename FilePath) = none →
          setTextureParameter loadTexture w FilePath p = w p) := by
  refine ⟨setTextureParameterValues_get loadTexture paths v p, ?_, ?_⟩
  · intro w FilePath hnot
    rw [setTextureParameter_get]
    simp only [loadedTexturesOfRole, List.filterMap_cons, List.filterMap_nil]
    cases hl : loadTexture (GetBaseFilename FilePath) with
    | none => rfl
    | some t => simp only [if_neg hnot]
  · intro w FilePath hnone
    simp [setTextureParameter, hnone]

/-- Witness for C28: of two position textures that load, the second one is the value of
`Position Texture` after the loop; the colour texture between them changes `Color Texture`
only. -/
theorem C28_last_texture_of_role_wins_witness :
    setTextureParameterValues (fun n => some ⟨n, importedSettings, none⟩)
        ["a_pos.exr".toList, "c_col.png".toList, "b_pos.exr".toList] noTextureParameters
        .PositionTexture
      = some ⟨"b_pos".toList, importedSettings, none⟩
    ∧ setTextureParameter (fun n => some ⟨n, importedSettings, none⟩) noTextureParameters
        "c_col.png".toList .PositionTexture = none := by
  refine ⟨?_, ?_⟩
  · rw [(C28_last_texture_of_role_wins (fun n => some ⟨n, importedSettings, none⟩)
      ["a_pos.exr".toList, "c_col.png".toList, "b_pos.exr".toList] noTextureParameters
      .PositionTexture).1]
    decide
  · exact (C28_last_texture_of_role_wins (fun n => some ⟨n, importedSettings, none⟩) []
      noTextureParameters .PositionTexture).2.1 noTextureParameters "c_col.png".toList
      (by decide)

/-! ## Theorems: scalar and switch parameters of the material instance -/

end HoudiniVat
